import Mathlib

/-!
Verification development for the MetalWarp compiler core
(`codegen_base.py`, `codegen_c.py`, `codegen_metal.py`).

The Python source is shallowly embedded: each `def`/method below mirrors one
function of the source, translated statement by statement.  Python dicts are
modelled as ordered association lists (`updateAssoc` reproduces
insertion-ordered dict assignment); the two backend type spellings
(`self.INT` / `self.DOUBLE`) are modelled by the two-point tag type `Ty`
together with per-backend spelling functions, which is faithful because each
backend's two spellings are distinct strings and the source only ever
compares a stored type against `self.DOUBLE`.
-/

namespace MetalWarp

/-- The two-point numeric type lattice.  `tint` stands for the backend's
`INT` spelling, `tdouble` for its `DOUBLE` spelling. -/
inductive Ty where
  | tint
  | tdouble
deriving DecidableEq, Repr

/-- `BaseCodeGenerator._merge_types`: join of the two-point lattice. -/
def mergeTypes (a b : Ty) : Ty :=
  if a = Ty.tdouble ∨ b = Ty.tdouble then Ty.tdouble else Ty.tint

/-- Python constants, abstracted to exactly the observations the compiler
makes of them: the type tag (`isinstance` checks), the printed form
(`repr`), and, for `_is_negative_step`, the sign.  A float constant is
therefore carried as its sign plus its `repr` text. -/
inductive Const where
  | cint (n : Int)
  | cbool (b : Bool)
  | cfloat (isNeg : Bool) (rep : String)
  | cstr (s : String)
deriving DecidableEq, Repr

/-- `ast.operator` (binary operators). -/
inductive BinOpKind where
  | add | sub | mult | div | floordiv | mod | pow
  | lshift | rshift | bitand | bitor | bitxor
deriving DecidableEq, Repr

/-- `ast.unaryop`. -/
inductive UnaryOpKind where
  | usub | uadd | unot
deriving DecidableEq, Repr

/-- `ast.cmpop`. -/
inductive CmpOpKind where
  | eq | ne | lt | le | gt | ge
deriving DecidableEq, Repr

/-- `ast.boolop`. -/
inductive BoolOpKind where
  | band | bor
deriving DecidableEq, Repr

/-- `ast.expr`, restricted to the constructors the compiler handles. -/
inductive Expr where
  | const (c : Const)
  | name (id : String)
  | binop (op : BinOpKind) (left right : Expr)
  | unaryop (op : UnaryOpKind) (operand : Expr)
  | ifexp (test body orelse : Expr)
  | compare (left : Expr) (ops : List CmpOpKind) (comparators : List Expr)
  | boolop (op : BoolOpKind) (values : List Expr)
  | call (func : Expr) (args : List Expr)
  | subscript (value : Expr) (slice : Expr)

/-- `ast.stmt`, restricted to the constructors the compiler handles.
Function parameters are carried as their names (`a.arg`); the compiler never
reads annotations or defaults. -/
inductive Stmt where
  | assign (targets : List Expr) (value : Expr)
  | augAssign (target : Expr) (op : BinOpKind) (value : Expr)
  | exprStmt (value : Expr)
  | ifStmt (test : Expr) (body orelse : List Stmt)
  | whileStmt (test : Expr) (body : List Stmt)
  | forStmt (target : Expr) (iter : Expr) (body : List Stmt)
  | funcDef (name : String) (args : List String) (body : List Stmt)
  | ret (value : Option Expr)
  | pass
  | brk
  | cont

/-- `ast.Module`. -/
structure Module where
  body : List Stmt

/-- Ordered association-list lookup (Python `dict.get` / `in`). -/
def alookup {α : Type} : List (String × α) → String → Option α
  | [], _ => none
  | (k, v) :: rest, key => if key = k then some v else alookup rest key

/-- Ordered association-list assignment (Python `d[k] = v`): replaces in
place preserving position, appends at the end when the key is new. -/
def updateAssoc {α : Type} : List (String × α) → String → α → List (String × α)
  | [], key, v => [(key, v)]
  | (k, w) :: rest, key, v =>
      if k = key then (key, v) :: rest else (k, w) :: updateAssoc rest key v

/-- The mutable fields of a `BaseCodeGenerator` instance. -/
structure GenState where
  lines : List String
  indent : Nat
  global_types : List (String × Ty)
  func_param_types : List (String × List (String × Ty))
  func_return_types : List (String × Ty)
  func_local_types : List (String × List (String × Ty))
  current_func : Option String
  declared_vars : List String
deriving DecidableEq, Repr

/-- `BaseCodeGenerator.__init__`. -/
def initState : GenState :=
  { lines := [], indent := 0, global_types := [], func_param_types := [],
    func_return_types := [], func_local_types := [], current_func := none,
    declared_vars := [] }

/-- `"    " * indent`. -/
def indentStr (n : Nat) : String :=
  String.join (List.replicate n "    ")

/-- `BaseCodeGenerator._emit`. -/
def emit (st : GenState) (line : String) : GenState :=
  { st with lines := st.lines ++ [indentStr st.indent ++ line] }

/-- `BaseCodeGenerator._type_of_var`: params → locals → globals → INT. -/
def typeOfVar (st : GenState) (name : String) : Ty :=
  match st.current_func with
  | some f =>
      match alookup ((alookup st.func_param_types f).getD []) name with
      | some t => t
      | none =>
          match alookup ((alookup st.func_local_types f).getD []) name with
          | some t => t
          | none => (alookup st.global_types name).getD Ty.tint
  | none => (alookup st.global_types name).getD Ty.tint

/-- `BaseCodeGenerator._set_var_type`. -/
def setVarType (st : GenState) (name : String) (typ : Ty) : GenState :=
  match st.current_func with
  | some f =>
      let tbl := updateAssoc ((alookup st.func_local_types f).getD []) name typ
      { st with func_local_types := updateAssoc st.func_local_types f tbl }
  | none =>
      { st with global_types := updateAssoc st.global_types name typ }

/-- `BaseCodeGenerator._infer_expr_type`.  (The source does not recurse into
call arguments, comparison operands or boolean-op operands.) -/
def inferExprType (st : GenState) : Expr → Ty
  | .const c =>
      match c with
      | .cfloat _ _ => Ty.tdouble
      | _ => Ty.tint
  | .name id => typeOfVar st id
  | .binop op l r =>
      let lt := inferExprType st l
      let rt := inferExprType st r
      match op with
      | .div => Ty.tdouble
      | .floordiv => Ty.tint
      | _ => mergeTypes lt rt
  | .unaryop _ operand => inferExprType st operand
  | .ifexp _ b o => mergeTypes (inferExprType st b) (inferExprType st o)
  | .compare _ _ _ => Ty.tint
  | .boolop _ _ => Ty.tint
  | .call f _ =>
      match f with
      | .name fname => (alookup st.func_return_types fname).getD Ty.tint
      | _ => Ty.tint
  | .subscript v _ =>
      match v with
      | .name id => typeOfVar st id
      | _ => Ty.tint

mutual

/-- One loop iteration of `BaseCodeGenerator._infer_return_type`: how one
statement updates the accumulated `ret` (nested `if`/`while`/`for` bodies
recurse with a fresh INT accumulator). -/
def inferReturnTypeStmt (st : GenState) (acc : Ty) : Stmt → Ty
  | .ret (some e) => mergeTypes acc (inferExprType st e)
  | .ifStmt _ b o =>
      mergeTypes (mergeTypes acc (inferReturnTypeGo st Ty.tint b))
        (inferReturnTypeGo st Ty.tint o)
  | .whileStmt _ b => mergeTypes acc (inferReturnTypeGo st Ty.tint b)
  | .forStmt _ _ b => mergeTypes acc (inferReturnTypeGo st Ty.tint b)
  | _ => acc

/-- The loop of `BaseCodeGenerator._infer_return_type`, threading `ret`. -/
def inferReturnTypeGo (st : GenState) : Ty → List Stmt → Ty
  | acc, [] => acc
  | acc, s :: rest => inferReturnTypeGo st (inferReturnTypeStmt st acc s) rest

end

/-- `BaseCodeGenerator._infer_return_type`. -/
def inferReturnType (st : GenState) (body : List Stmt) : Ty :=
  inferReturnTypeGo st Ty.tint body

mutual

/-- `BaseCodeGenerator._infer_stmt_types`. -/
def inferStmtTypes (st : GenState) : Stmt → GenState
  | .assign targets value =>
      let typ := inferExprType st value
      targets.foldl
        (fun acc t =>
          match t with
          | .name id => setVarType acc id typ
          | _ => acc)
        st
  | .augAssign target _ value =>
      match target with
      | .name id =>
          let existing := typeOfVar st id
          let rhs := inferExprType st value
          setVarType st id (mergeTypes existing rhs)
      | _ => st
  | .funcDef name args body =>
      let oldFunc := st.current_func
      let st1 :=
        { st with current_func := some name,
                  func_param_types :=
                    updateAssoc st.func_param_types name
                      (args.foldl (fun t a => updateAssoc t a Ty.tint) []),
                  func_local_types := updateAssoc st.func_local_types name [] }
      let st2 := inferStmtList st1 body
      let st3 :=
        { st2 with func_return_types :=
            updateAssoc st2.func_return_types name (inferReturnType st2 body) }
      { st3 with current_func := oldFunc }
  | .ifStmt _ body orelse =>
      -- the source walks `node.body + node.orelse` in one loop
      inferStmtList (inferStmtList st body) orelse
  | .whileStmt _ body => inferStmtList st body
  | .forStmt target _ body =>
      let st1 :=
        match target with
        | .name id => setVarType st id Ty.tint
        | _ => st
      inferStmtList st1 body
  | _ => st

/-- The statement loop shared by `_infer_types` and compound bodies. -/
def inferStmtList (st : GenState) : List Stmt → GenState
  | [] => st
  | s :: rest => inferStmtList (inferStmtTypes st s) rest

end

/-- `BaseCodeGenerator._infer_types`. -/
def inferTypes (st : GenState) (m : Module) : GenState :=
  inferStmtList st m.body

/-! ### AST walking (`ast.walk`)

`ast.walk` yields every node of a subtree.  The passes that use it
(`_refine_param_types`, the `**`-detection in `CCodeGenerator.generate`, and
the set collections of `_classify_params`) are insensitive to the traversal
order: they either compute an `any`/set-union, or (for refinement) perform
join-updates whose arguments are independent of the updated table.  We
therefore collect sub-expressions in depth-first order. -/

mutual

/-- All expression nodes of an expression subtree, the root included. -/
def subExprs : Expr → List Expr
  | .const c => [.const c]
  | .name id => [.name id]
  | .binop op l r => .binop op l r :: (subExprs l ++ subExprs r)
  | .unaryop op o => .unaryop op o :: subExprs o
  | .ifexp t b o => .ifexp t b o :: (subExprs t ++ (subExprs b ++ subExprs o))
  | .compare l ops cs => .compare l ops cs :: (subExprs l ++ subExprsList cs)
  | .boolop op vs => .boolop op vs :: subExprsList vs
  | .call f args => .call f args :: (subExprs f ++ subExprsList args)
  | .subscript v s => .subscript v s :: (subExprs v ++ subExprs s)

def subExprsList : List Expr → List Expr
  | [] => []
  | e :: rest => subExprs e ++ subExprsList rest

end

mutual

/-- All expression nodes reachable from a statement (through nested
statements, nested function definitions included). -/
def stmtSubExprs : Stmt → List Expr
  | .assign ts v => subExprsList ts ++ subExprs v
  | .augAssign t _ v => subExprs t ++ subExprs v
  | .exprStmt e => subExprs e
  | .ifStmt t b o => subExprs t ++ (stmtListSubExprs b ++ stmtListSubExprs o)
  | .whileStmt t b => subExprs t ++ stmtListSubExprs b
  | .forStmt t it b => subExprs t ++ (subExprs it ++ stmtListSubExprs b)
  | .funcDef _ _ b => stmtListSubExprs b
  | .ret (some e) => subExprs e
  | _ => []

def stmtListSubExprs : List Stmt → List Expr
  | [] => []
  | s :: rest => stmtSubExprs s ++ stmtListSubExprs rest

end

/-- The `ast.Call` nodes of a module, as (callee expression, argument list)
pairs. -/
def callsOfModule (m : Module) : List (Expr × List Expr) :=
  (stmtListSubExprs m.body).filterMap
    (fun e =>
      match e with
      | .call f args => some (f, args)
      | _ => none)

/-- One iteration of the `_refine_param_types` argument loop: the argument's
inferred type is joined into the callee's parameter table entry at the
matching parameter name. -/
def refineArgStep (fname n : String) (a : Expr) (st : GenState) : GenState :=
  let argType := inferExprType st a
  let ptypes := (alookup st.func_param_types fname).getD []
  let cur := (alookup ptypes n).getD Ty.tint
  let newTbl := updateAssoc ptypes n (mergeTypes cur argType)
  { st with func_param_types := updateAssoc st.func_param_types fname newTbl }

/-- The inner loop of `_refine_param_types` over one call's positional
arguments: `param_names` was captured before the loop.  Arguments beyond the
parameter list are ignored. -/
def refineArgsLoop (fname : String) : List String → List Expr → GenState → GenState
  | [], _, st => st
  | _, [], st => st
  | n :: ns, a :: rest, st => refineArgsLoop fname ns rest (refineArgStep fname n a st)

/-- `_refine_param_types`, one call node: callees that are not plain names,
or whose name is not in `func_param_types`, are skipped. -/
def refineOneCall (st : GenState) (c : Expr × List Expr) : GenState :=
  match c.1 with
  | .name fname =>
      match alookup st.func_param_types fname with
      | none => st
      | some ptypes => refineArgsLoop fname (ptypes.map Prod.fst) c.2 st
  | _ => st

/-- `BaseCodeGenerator._refine_param_types`. -/
def refineParamTypes (st : GenState) (m : Module) : GenState :=
  (callsOfModule m).foldl refineOneCall st

/-! ### Emission -/

/-- The two concrete backends (`CCodeGenerator`, `MetalCodeGenerator`). -/
inductive BackendKind where
  | c
  | metal
deriving DecidableEq, Repr

/-- Concrete type spellings: C uses `long long`/`double`, Metal uses
`int`/`float`. -/
def spellTy (bk : BackendKind) (t : Ty) : String :=
  match bk, t with
  | .c, .tint => "long long"
  | .c, .tdouble => "double"
  | .metal, .tint => "int"
  | .metal, .tdouble => "float"

/-- `_for_loop_type`: overridden to `long long` in the C backend, the
inherited default `self.INT` (= `int`) in the Metal backend. -/
def forLoopType (bk : BackendKind) : String :=
  match bk with
  | .c => "long long"
  | .metal => "int"

/-- `_OP_SYMBOLS` with the `.get(type(op), "?")` default (`pow` is absent
from the table). -/
def opSymbol : BinOpKind → String
  | .add => "+"
  | .sub => "-"
  | .mult => "*"
  | .div => "/"
  | .floordiv => "/"
  | .mod => "%"
  | .lshift => "<<"
  | .rshift => ">>"
  | .bitand => "&"
  | .bitor => "|"
  | .bitxor => "^"
  | .pow => "?"

/-- `_CMP_SYMBOLS`. -/
def cmpSymbol : CmpOpKind → String
  | CmpOpKind.eq => "=="
  | CmpOpKind.ne => "!="
  | CmpOpKind.lt => "<"
  | CmpOpKind.le => "<="
  | CmpOpKind.gt => ">"
  | CmpOpKind.ge => ">="

/-- The `ast.Constant` branch of `_gen_expr` (float repr / bool as 1-0 /
int repr / quoted string). -/
def genConst : Const → String
  | .cfloat _ rep => rep
  | .cbool b => if b then "1" else "0"
  | .cint n => toString n
  | .cstr s => "\"" ++ s ++ "\""

/-- `BaseCodeGenerator._is_negative_step`.  (`cfloat.isNeg` records the
result of Python's `value < 0` on the original float.) -/
def isNegativeStep : Expr → Bool
  | .const (.cint n) => decide (n < 0)
  | .const (.cfloat isNeg _) => isNeg
  | .unaryop .usub (.const _) => true
  | _ => false

/-- The `ValueError` message of `MetalCodeGenerator._gen_call` on `print`. -/
def metalPrintErrMsg : String :=
  "print() is not supported in Metal shaders (GPU has no stdout)"

/-- `CCodeGenerator._gen_print`, given the already-generated argument texts
(`arg_exprs`).  The format specifiers, the empty-argument case and the
`(long long)` cast of bare integer literals are pure computations over the
argument nodes and their texts. -/
def genPrintFormat (st : GenState) (args : List Expr) (argExprs : List String) : String :=
  let fmtParts := args.map
    (fun a => if inferExprType st a = Ty.tdouble then "%f" else "%lld")
  let fmt := String.intercalate " " fmtParts ++ "\\n"
  if argExprs.isEmpty then
    "printf(\"\\n\")"
  else
    let castArgs := (argExprs.zip args).map
      (fun p =>
        match p.2 with
        | .const (.cint _) =>
            if inferExprType st p.2 = Ty.tint then "(long long)" ++ p.1 else p.1
        | .const (.cbool _) =>
            if inferExprType st p.2 = Ty.tint then "(long long)" ++ p.1 else p.1
        | _ => p.1)
    "printf(\"" ++ fmt ++ "\", " ++ String.intercalate ", " castArgs ++ ")"

mutual

/-- `_gen_expr` with the backend's `_gen_binop`/`_gen_call` overrides.
A Metal `print(...)` raises `ValueError`, modelled by `Except.error`;
everything else returns the emitted text. -/
def genExpr (bk : BackendKind) (st : GenState) : Expr → Except String String
  | .const c => pure (genConst c)
  | .name id => pure id
  | .binop op l r => do
      let left ← genExpr bk st l
      let right ← genExpr bk st r
      match bk with
      | .c =>
          match op with
          | .pow =>
              let lt := inferExprType st l
              let rt := inferExprType st r
              if lt = Ty.tint ∧ rt = Ty.tint then
                pure ("(long long)pow((double)" ++ left ++ ", (double)" ++ right ++ ")")
              else
                pure ("pow((double)" ++ left ++ ", (double)" ++ right ++ ")")
          | .floordiv =>
              let lt := inferExprType st l
              let rt := inferExprType st r
              if lt = Ty.tdouble ∨ rt = Ty.tdouble then
                pure ("(long long)((double)" ++ left ++ " / (double)" ++ right ++ ")")
              else
                pure ("(" ++ left ++ " / " ++ right ++ ")")
          | _ => pure ("(" ++ left ++ " " ++ opSymbol op ++ " " ++ right ++ ")")
      | .metal =>
          match op with
          | .pow => pure ("pow((float)" ++ left ++ ", (float)" ++ right ++ ")")
          | .floordiv =>
              let lt := inferExprType st l
              let rt := inferExprType st r
              if lt = Ty.tdouble ∨ rt = Ty.tdouble then
                pure ("(int)((float)" ++ left ++ " / (float)" ++ right ++ ")")
              else
                pure ("(" ++ left ++ " / " ++ right ++ ")")
          | _ => pure ("(" ++ left ++ " " ++ opSymbol op ++ " " ++ right ++ ")")
  | .unaryop op o => do
      let operand ← genExpr bk st o
      match op with
      | .usub => pure ("(-" ++ operand ++ ")")
      | .uadd => pure ("(+" ++ operand ++ ")")
      | .unot => pure ("(!" ++ operand ++ ")")
  | .compare l ops cs => do
      let left ← genExpr bk st l
      let rest ← genCompareParts bk st ops cs
      pure ("(" ++ String.intercalate " " (left :: rest) ++ ")")
  | .boolop op vs => do
      let parts ← genExprList bk st vs
      let joiner := match op with | .band => " && " | .bor => " || "
      pure ("(" ++ String.intercalate joiner parts ++ ")")
  | .call f args =>
      match f with
      | .name fid =>
          if fid = "print" then
            match bk with
            | .metal => throw metalPrintErrMsg
            | .c => do
                let argStrs ← genExprList .c st args
                pure (genPrintFormat st args argStrs)
          else do
            -- `_gen_expr` on an `ast.Name` callee returns its id
            let argStrs ← genExprList bk st args
            pure (fid ++ "(" ++ String.intercalate ", " argStrs ++ ")")
      | g => do
          let func ← genExpr bk st g
          let argStrs ← genExprList bk st args
          pure (func ++ "(" ++ String.intercalate ", " argStrs ++ ")")
  | .ifexp t b o => do
      let test ← genExpr bk st t
      let body ← genExpr bk st b
      let orelse ← genExpr bk st o
      pure ("(" ++ test ++ " ? " ++ body ++ " : " ++ orelse ++ ")")
  | .subscript v s => do
      let value ← genExpr bk st v
      let slice ← genExpr bk st s
      pure (value ++ "[" ++ slice ++ "]")

/-- `zip(node.ops, node.comparators)` of the comparison-chain lowering:
symbol and operand text pairs, truncated at the shorter list. -/
def genCompareParts (bk : BackendKind) (st : GenState) :
    List CmpOpKind → List Expr → Except String (List String)
  | _, [] => pure []
  | [], _ => pure []
  | op :: ops, c :: cs => do
      let comp ← genExpr bk st c
      let rest ← genCompareParts bk st ops cs
      pure (cmpSymbol op :: comp :: rest)

/-- Sequential `_gen_expr` over a list (argument lists, bool-op operands). -/
def genExprList (bk : BackendKind) (st : GenState) :
    List Expr → Except String (List String)
  | [] => pure []
  | e :: rest => do
      let s ← genExpr bk st e
      let ss ← genExprList bk st rest
      pure (s :: ss)

end

/-- `BaseCodeGenerator._gen_target`. -/
def genTarget (bk : BackendKind) (st : GenState) : Expr → Except String String
  | .name id => pure id
  | .subscript v s => do
      let value ← genExpr bk st v
      let slice ← genExpr bk st s
      pure (value ++ "[" ++ slice ++ "]")
  | _ => pure "?"

/-- The header part of `BaseCodeGenerator._gen_for`: generate the target,
detect `range(...)` with its three arities, mark the loop variable declared
and emit the `for (...)` line (or the unsupported-iterator sentinel). -/
def genForHead (bk : BackendKind) (st : GenState) (target iter : Expr) :
    Except String GenState := do
  let tgt ← genTarget bk st target
  match iter with
  | .call (.name fid) args =>
      if fid = "range" then do
        let (start, stop, step, stepNeg) ←
          match args with
          | [a0] => do
              let e ← genExpr bk st a0
              pure ("0", e, "1", false)
          | [a0, a1] => do
              let s ← genExpr bk st a0
              let e ← genExpr bk st a1
              pure (s, e, "1", false)
          | [a0, a1, a2] => do
              let s ← genExpr bk st a0
              let e ← genExpr bk st a1
              let stp ← genExpr bk st a2
              pure (s, e, stp, isNegativeStep a2)
          | _ => pure ("0", "0", "1", false)
        let cmp := if stepNeg then ">" else "<"
        let st' := { st with declared_vars := st.declared_vars ++ [tgt] }
        pure (emit st' ("for (" ++ forLoopType bk ++ " " ++ tgt ++ " = " ++
          start ++ "; " ++ tgt ++ " " ++ cmp ++ " " ++ stop ++ "; " ++
          tgt ++ " += " ++ step ++ ") \x7b"))
      else
        pure (emit st "/* unsupported for-iter */ \x7b")
  | _ => pure (emit st "/* unsupported for-iter */ \x7b")

/-- The per-target loop of the `ast.Assign` branch of `_gen_stmt`:
simple-name targets get declare-on-first-assignment, subscript targets emit
a plain store, other target shapes are skipped. -/
def genAssignTargets (bk : BackendKind) (value : Expr) :
    GenState → List Expr → Except String GenState
  | st, [] => pure st
  | st, t :: rest =>
      match t with
      | .name id => do
          let val ← genExpr bk st value
          let vtype := typeOfVar st id
          if id ∈ st.declared_vars then
            genAssignTargets bk value (emit st (id ++ " = " ++ val ++ ";")) rest
          else
            let st' := { st with declared_vars := st.declared_vars ++ [id] }
            genAssignTargets bk value
              (emit st' (spellTy bk vtype ++ " " ++ id ++ " = " ++ val ++ ";")) rest
      | .subscript v s => do
          let lhs ← genExpr bk st (.subscript v s)
          let val ← genExpr bk st value
          genAssignTargets bk value (emit st (lhs ++ " = " ++ val ++ ";")) rest
      | _ => genAssignTargets bk value st rest

mutual

/-- `BaseCodeGenerator._gen_stmt` (with `_gen_if` and `_gen_for` inlined in
their cases; `_gen_elif_chain` is the mutual companion below).  Note the
source has no `FunctionDef` branch: nested definitions emit nothing. -/
def genStmt (bk : BackendKind) (st : GenState) : Stmt → Except String GenState
  | .assign targets value => genAssignTargets bk value st targets
  | .augAssign target op value => do
      let tgt ← genTarget bk st target
      let val ← genExpr bk st value
      pure (emit st (tgt ++ " " ++ opSymbol op ++ "= " ++ val ++ ";"))
  | .exprStmt e => do
      let s ← genExpr bk st e
      pure (emit st (s ++ ";"))
  | .ifStmt test body orelse => do
      let t ← genExpr bk st test
      let st1 := emit st ("if (" ++ t ++ ") \x7b")
      let st2 := { st1 with indent := st1.indent + 1 }
      let st3 ← genStmtList bk st2 body
      let st4 := { st3 with indent := st3.indent - 1 }
      match orelse with
      | [] => pure (emit st4 "\x7d")
      | [.ifStmt t2 b2 o2] => do
          let st5 ← genElifChain bk st4 (.ifStmt t2 b2 o2)
          pure (emit st5 "\x7d")
      | os => do
          let st5 := emit st4 "\x7d else \x7b"
          let st6 := { st5 with indent := st5.indent + 1 }
          let st7 ← genStmtList bk st6 os
          let st8 := { st7 with indent := st7.indent - 1 }
          pure (emit st8 "\x7d")
  | .whileStmt test body => do
      let t ← genExpr bk st test
      let st1 := emit st ("while (" ++ t ++ ") \x7b")
      let st2 := { st1 with indent := st1.indent + 1 }
      let st3 ← genStmtList bk st2 body
      let st4 := { st3 with indent := st3.indent - 1 }
      pure (emit st4 "\x7d")
  | .forStmt target iter body => do
      let stHead ← genForHead bk st target iter
      let st2 := { stHead with indent := stHead.indent + 1 }
      let st3 ← genStmtList bk st2 body
      let st4 := { st3 with indent := st3.indent - 1 }
      pure (emit st4 "\x7d")
  | .ret (some e) => do
      let v ← genExpr bk st e
      pure (emit st ("return " ++ v ++ ";"))
  | .ret none => pure (emit st "return;")
  | .pass => pure (emit st "// pass")
  | .brk => pure (emit st "break;")
  | .cont => pure (emit st "continue;")
  | .funcDef _ _ _ => pure st

/-- `BaseCodeGenerator._gen_elif_chain` (takes the nested `ast.If` node;
non-`if` arguments are unreachable and emit nothing). -/
def genElifChain (bk : BackendKind) (st : GenState) : Stmt → Except String GenState
  | .ifStmt test body orelse => do
      let t ← genExpr bk st test
      let st1 := emit st ("\x7d else if (" ++ t ++ ") \x7b")
      let st2 := { st1 with indent := st1.indent + 1 }
      let st3 ← genStmtList bk st2 body
      let st4 := { st3 with indent := st3.indent - 1 }
      match orelse with
      | [] => pure st4
      | [.ifStmt t2 b2 o2] => genElifChain bk st4 (.ifStmt t2 b2 o2)
      | os => do
          let st5 := emit st4 "\x7d else \x7b"
          let st6 := { st5 with indent := st5.indent + 1 }
          let st7 ← genStmtList bk st6 os
          let st8 := { st7 with indent := st7.indent - 1 }
          pure st8
  | _ => pure st

/-- The statement loops of function bodies and of the module entry point. -/
def genStmtList (bk : BackendKind) (st : GenState) : List Stmt → Except String GenState
  | [] => pure st
  | s :: rest => do
      let st' ← genStmt bk st s
      genStmtList bk st' rest

end

/-- `BaseCodeGenerator._gen_function`. -/
def genFunction (bk : BackendKind) (st : GenState) (name : String)
    (args : List String) (body : List Stmt) : Except String GenState := do
  let oldFunc := st.current_func
  let oldDeclared := st.declared_vars
  let retType := (alookup st.func_return_types name).getD Ty.tint
  let paramTypes := (alookup st.func_param_types name).getD []
  let params := String.intercalate ", "
    (args.map (fun a => spellTy bk ((alookup paramTypes a).getD Ty.tint) ++ " " ++ a))
  let st1 := { st with current_func := some name, declared_vars := args }
  let st2 := emit st1 (spellTy bk retType ++ " " ++ name ++ "(" ++ params ++ ") \x7b")
  let st3 := { st2 with indent := st2.indent + 1 }
  let st4 ← genStmtList bk st3 body
  let st5 := { st4 with indent := st4.indent - 1 }
  let st6 := emit st5 "\x7d"
  let st7 := emit st6 ""
  pure { st7 with current_func := oldFunc, declared_vars := oldDeclared }

/-! ### Metal backend -/

/-- The six parameter roles of `MetalCodeGenerator._classify_params`. -/
inductive ParamKind where
  | tid
  | bufferFloat
  | bufferInt
  | scalarFloat
  | scalarUint
  | scalarInt
deriving DecidableEq, Repr

/-- The `indexed` set of `_classify_params`: parameters used as the base of
a subscript (`array[expr]`) anywhere in the kernel body. -/
def subscriptedParams (paramNames : List String) (body : List Stmt) : List String :=
  (stmtListSubExprs body).filterMap
    (fun e =>
      match e with
      | .subscript (.name id) _ => if paramNames.contains id then some id else none
      | _ => none)

/-- The `tid_compared` set of `_classify_params`: parameters appearing as a
`Name` operand of a comparison whose operands also include `tid`. -/
def tidComparedParams (paramNames : List String) (body : List Stmt) : List String :=
  (stmtListSubExprs body).foldl
    (fun acc e =>
      match e with
      | .compare l _ cs =>
          let names := (l :: cs).filterMap
            (fun o => match o with | .name n => some n | _ => none)
          if names.contains "tid" then
            acc ++ names.filter (fun n => n != "tid" && paramNames.contains n)
          else acc
      | _ => acc)
    []

/-- `self.func_param_types.get(fname, {}).get(name, self.INT)`. -/
def paramTypeAt (st : GenState) (fname name : String) : Ty :=
  (alookup ((alookup st.func_param_types fname).getD []) name).getD Ty.tint

/-- `MetalCodeGenerator._classify_params`. -/
def classifyParams (st : GenState) (fname : String) (args : List String)
    (body : List Stmt) : List (String × ParamKind) :=
  let indexed := subscriptedParams args body
  let tidCompared := tidComparedParams args body
  args.map
    (fun name =>
      let typ := paramTypeAt st fname name
      let isFloat := typ = Ty.tdouble
      if name = "tid" then (name, ParamKind.tid)
      else if indexed.contains name then
        (name, if isFloat then ParamKind.bufferFloat else ParamKind.bufferInt)
      else if isFloat then (name, ParamKind.scalarFloat)
      else if tidCompared.contains name then (name, ParamKind.scalarUint)
      else (name, ParamKind.scalarInt))

/-- `_PARAM_TEMPLATES`, applied to a name and (for non-`tid` roles) a buffer
binding index.  The `tid` template carries no index. -/
def kernelParamLine (kind : ParamKind) (name : String) (idx : Nat) : String :=
  match kind with
  | .tid => "    uint " ++ name ++ " [[thread_position_in_grid]]"
  | .bufferFloat => "    device float* " ++ name ++ " [[buffer(" ++ toString idx ++ ")]]"
  | .bufferInt => "    device int* " ++ name ++ " [[buffer(" ++ toString idx ++ ")]]"
  | .scalarFloat => "    constant float& " ++ name ++ " [[buffer(" ++ toString idx ++ ")]]"
  | .scalarUint => "    constant uint& " ++ name ++ " [[buffer(" ++ toString idx ++ ")]]"
  | .scalarInt => "    constant int& " ++ name ++ " [[buffer(" ++ toString idx ++ ")]]"

/-- The parameter-rendering loop of `_gen_kernel`: `buf_idx` starts at the
given accumulator and increments only on non-`tid` parameters. -/
def kernelParamLines : List (String × ParamKind) → Nat → List String
  | [], _ => []
  | (name, kind) :: rest, bufIdx =>
      match kind with
      | .tid => kernelParamLine .tid name 0 :: kernelParamLines rest bufIdx
      | k => kernelParamLine k name bufIdx :: kernelParamLines rest (bufIdx + 1)

/-- `MetalCodeGenerator._gen_kernel`. -/
def genKernel (st : GenState) (name : String) (args : List String)
    (body : List Stmt) : Except String GenState := do
  let oldFunc := st.current_func
  let oldDeclared := st.declared_vars
  let st0 := { st with current_func := some name, declared_vars := [] }
  let classified := classifyParams st0 name args body
  let params := kernelParamLines classified 0
  let st1 := { st0 with declared_vars := classified.map Prod.fst }
  let st2 := emit st1 ("kernel void " ++ name ++ "(")
  let st3 := emit st2 (String.intercalate ",\n" params)
  let st4 := emit st3 ") \x7b"
  let st5 := { st4 with indent := st4.indent + 1 }
  let st6 ← genStmtList .metal st5 body
  let st7 := { st6 with indent := st6.indent - 1 }
  let st8 := emit st7 "\x7d"
  let st9 := emit st8 ""
  pure { st9 with current_func := oldFunc, declared_vars := oldDeclared }

/-- Is the statement an `ast.FunctionDef`? -/
def isFuncDefB : Stmt → Bool
  | .funcDef _ _ _ => true
  | _ => false

/-- The kernel/helper partition loop of `MetalCodeGenerator.generate`:
a function definition whose parameter list contains `tid` is a kernel, any
other definition a helper; non-definitions are skipped. -/
def splitKernels (body : List Stmt) : List Stmt × List Stmt :=
  body.foldl
    (fun acc n =>
      match n with
      | .funcDef _ args _ =>
          if args.contains "tid" then (acc.1 ++ [n], acc.2) else (acc.1, acc.2 ++ [n])
      | _ => acc)
    ([], [])

/-- The `for fn in helpers: self._gen_function(fn)` loop (non-definition
entries cannot occur in the partition's output and are skipped). -/
def genFnList (bk : BackendKind) : GenState → List Stmt → Except String GenState
  | st, [] => pure st
  | st, .funcDef name args body :: rest => do
      let st' ← genFunction bk st name args body
      genFnList bk st' rest
  | st, _ :: rest => genFnList bk st rest

/-- The `for fn in kernels: self._gen_kernel(fn)` loop. -/
def genKernelList : GenState → List Stmt → Except String GenState
  | st, [] => pure st
  | st, .funcDef name args body :: rest => do
      let st' ← genKernel st name args body
      genKernelList st' rest
  | st, _ :: rest => genKernelList st rest

/-- `MetalCodeGenerator.generate`, up to the final line join: inference,
call-site refinement, kernel/helper partition, prelude, helpers, kernels. -/
def metalGenState (m : Module) : Except String GenState := do
  let st0 := refineParamTypes (inferTypes initState m) m
  let parts := splitKernels m.body
  let st1 := emit st0 "#include <metal_stdlib>"
  let st2 := emit st1 "using namespace metal;"
  let st3 := emit st2 ""
  let st4 ← genFnList .metal st3 parts.2
  let st5 ← genKernelList st4 parts.1
  pure st5

/-- `MetalCodeGenerator.generate`. -/
def metalGenerate (m : Module) : Except String String :=
  (metalGenState m).map (fun st => String.intercalate "\n" st.lines ++ "\n")

/-! ### C backend -/

/-- The `any(... ast.Pow ...)` walk of `CCodeGenerator.generate`: does any
`**` expression appear anywhere in the module? -/
def containsPow (m : Module) : Bool :=
  (stmtListSubExprs m.body).any
    (fun e =>
      match e with
      | .binop .pow _ _ => true
      | _ => false)

/-- One forward-declaration line of `CCodeGenerator.generate`. -/
def cFwdDecl (st : GenState) (name : String) (args : List String) : String :=
  let ret := (alookup st.func_return_types name).getD Ty.tint
  let params := String.intercalate ", "
    (args.map (fun a =>
      spellTy .c ((alookup ((alookup st.func_param_types name).getD []) a).getD Ty.tint)
        ++ " " ++ a))
  spellTy .c ret ++ " " ++ name ++ "(" ++ params ++ ");"

/-- The header-emission stage of `CCodeGenerator.generate`: always the
standard I/O header, the math header iff `**` occurs in the module, then a
blank line. -/
def cHeaders (m : Module) (st : GenState) : GenState :=
  let needsMath := containsPow m
  let st1 := emit st "#include <stdio.h>"
  let st2 := if needsMath then emit st1 "#include <math.h>" else st1
  emit st2 ""

/-- The forward-declaration stage of `CCodeGenerator.generate`. -/
def cFwdDecls (fns : List Stmt) (st : GenState) : GenState :=
  fns.foldl
    (fun acc fn =>
      match fn with
      | .funcDef name args _ => emit acc (cFwdDecl acc name args)
      | _ => acc)
    st

/-- The `main()` stage of `CCodeGenerator.generate`: all top-level
statements inside the entry point, with a fresh declared-names set. -/
def cMain (topLevel : List Stmt) (st : GenState) : Except String GenState := do
  let st7 := emit st "int main() \x7b"
  let st8 := { st7 with indent := st7.indent + 1, declared_vars := [] }
  let st9 ← genStmtList .c st8 topLevel
  let st10 := emit st9 "return 0;"
  let st11 := { st10 with indent := st10.indent - 1 }
  let st12 := emit st11 "\x7d"
  pure (emit st12 "")

/-- `CCodeGenerator.generate`, up to the final line join: inference,
refinement, headers (math header iff `**` occurs), forward declarations,
function definitions, then `main()` holding all top-level statements. -/
def cGenState (m : Module) : Except String GenState := do
  let st0 := refineParamTypes (inferTypes initState m) m
  let funcNodes := m.body.filter isFuncDefB
  let topLevel := m.body.filter (fun s => !isFuncDefB s)
  let st3 := cHeaders m st0
  let st4 := cFwdDecls funcNodes st3
  let st5 := if funcNodes.isEmpty then st4 else emit st4 ""
  let st6 ← genFnList .c st5 funcNodes
  cMain topLevel st6

/-- `CCodeGenerator.generate`. -/
def cGenerate (m : Module) : Except String String :=
  (cGenState m).map (fun st => String.intercalate "\n" st.lines ++ "\n")

/-! ### Derived definitions used by the statements and proofs -/

/-- The order of the two-point lattice: `a ⊑ b` iff joining `b` with `a`
leaves `b` unchanged. -/
def tyLe (a b : Ty) : Prop := mergeTypes a b = b

/-- The table entry `_set_var_type` writes for a name (locals of the current
function, or globals at module level). -/
def recordedVarType (st : GenState) (x : String) : Option Ty :=
  match st.current_func with
  | some f => alookup ((alookup st.func_local_types f).getD []) x
  | none => alookup st.global_types x

/-- Spec §8 scenario 6 / `test_subscript_write_promotes_buffer_type`:
`def k(buf, tid): buf[tid] = 1.25`. -/
def c1Module : Module :=
  ⟨[.funcDef "k" ["buf", "tid"]
      [.assign [.subscript (.name "buf") (.name "tid")]
        (.const (.cfloat false "1.25"))]]⟩

/-- Spec §8 scenario 4, the SAXPY kernel body:
`if tid < n: out[tid] = a*x[tid] + y[tid]`. -/
def saxpyBody : List Stmt :=
  [.ifStmt (.compare (.name "tid") [.lt] [.name "n"])
    [.assign [.subscript (.name "out") (.name "tid")]
      (.binop .add
        (.binop .mult (.name "a") (.subscript (.name "x") (.name "tid")))
        (.subscript (.name "y") (.name "tid")))]
    []]

/-- Number of non-`tid`-classified entries of a classified parameter list
(each of them consumes one buffer binding index). -/
def nonTidCount (l : List (String × ParamKind)) : Nat :=
  l.countP (fun p => decide (p.2 ≠ ParamKind.tid))

/-- Is this expression a call whose callee is the plain name `print`? -/
def isPrintCall : Expr → Bool
  | .call (.name fid) _ => fid == "print"
  | _ => false

/-- Does a `print(...)` call occur anywhere in the expression? -/
def exprHasPrintCall (e : Expr) : Bool := (subExprs e).any isPrintCall

/-- Does a `print(...)` call occur anywhere in the statement? -/
def stmtHasPrintCall (s : Stmt) : Bool := (stmtSubExprs s).any isPrintCall

/-- A comparison chain as produced by the parser has exactly one operator
per comparator. -/
def compareLenOk : Expr → Bool
  | .compare _ ops cs => ops.length == cs.length
  | _ => true

/-- Parser-shaped expression: every comparison subnode is length-consistent. -/
def wfExprB (e : Expr) : Bool := (subExprs e).all compareLenOk

/-- Assignable target shapes the emitter lowers (`ast.Name`/`ast.Subscript`). -/
def isNameOrSubscriptB : Expr → Bool
  | .name _ => true
  | .subscript _ _ => true
  | _ => false

mutual

/-- Parser-shaped statements within the language subset the emitter lowers
completely: assignment targets are names or subscripts, `for` iterates over
`range` with one to three arguments, and no nested function definitions
occur (the emitter skips those silently). -/
def wfStmtB : Stmt → Bool
  | .assign ts v =>
      !ts.isEmpty && ts.all isNameOrSubscriptB && ts.all wfExprB && wfExprB v
  | .augAssign t _ v => isNameOrSubscriptB t && wfExprB t && wfExprB v
  | .exprStmt e => wfExprB e
  | .ifStmt t b o => wfExprB t && wfStmtListB b && wfStmtListB o
  | .whileStmt t b => wfExprB t && wfStmtListB b
  | .forStmt t it b =>
      isNameOrSubscriptB t && wfExprB t &&
      (match it with
       | .call (.name fid) args =>
           fid == "range" && decide (1 ≤ args.length) &&
           decide (args.length ≤ 3) && args.all wfExprB
       | _ => false) &&
      wfStmtListB b
  | .funcDef _ _ _ => false
  | .ret (some e) => wfExprB e
  | .ret none => true
  | .pass => true
  | .brk => true
  | .cont => true

def wfStmtListB : List Stmt → Bool
  | [] => true
  | s :: rest => wfStmtB s && wfStmtListB rest

end

/-- Pure form of one `refineArgStep`, acting on the parameter tables alone
with the argument type fixed. -/
def keyedStep (fname n : String) (t : Ty)
    (fpt : List (String × List (String × Ty))) :
    List (String × List (String × Ty)) :=
  let ptypes := (alookup fpt fname).getD []
  let cur := (alookup ptypes n).getD Ty.tint
  updateAssoc fpt fname (updateAssoc ptypes n (mergeTypes cur t))

/-- Pure form of the refinement inner loop: the parameter tables transform
while the argument types are fixed up front (justified because
`_infer_expr_type` does not read `func_param_types` when `_current_func`
is `None`, which is the state `generate` calls the refinement pass in). -/
def keyedLoop (fname : String) :
    List (String × List (String × Ty)) → List String → List Ty →
      List (String × List (String × Ty))
  | fpt, [], _ => fpt
  | fpt, _, [] => fpt
  | fpt, n :: ns, t :: ts => keyedLoop fname (keyedStep fname n t fpt) ns ts

/-- Pure form of `refineOneCall` for a named callee. -/
def refineCallPure (fpt : List (String × List (String × Ty)))
    (fname : String) (tys : List Ty) : List (String × List (String × Ty)) :=
  match alookup fpt fname with
  | none => fpt
  | some ptypes => keyedLoop fname fpt (ptypes.map Prod.fst) tys

/-- One pure refinement step. -/
def refinePureStep (fpt : List (String × List (String × Ty)))
    (c : String × List Ty) : List (String × List (String × Ty)) :=
  refineCallPure fpt c.1 c.2

/-- A list of calls with their argument types inferred in a fixed state
(the named-callee calls only; the refinement pass skips the others). -/
def pureCallsList (st : GenState) (cs : List (Expr × List Expr)) :
    List (String × List Ty) :=
  cs.filterMap
    (fun c =>
      match c.1 with
      | .name fname => some (fname, c.2.map (inferExprType st))
      | _ => none)

/-- Pure lookup of a parameter's recorded type in a parameter table. -/
def paramTyIn (fpt : List (String × List (String × Ty))) (f p : String) : Ty :=
  (alookup ((alookup fpt f).getD []) p).getD Ty.tint

/-- The join contributions of one call are already absorbed by the table:
each positional (name, type) pair of the call finds its entry present with a
value that the contributed type cannot raise. -/
def callAbsorbed (fpt : List (String × List (String × Ty))) (fname : String) :
    List String → List Ty → Prop
  | [], _ => True
  | _, [] => True
  | n :: ns, t :: ts =>
      (∃ tbl cur, alookup fpt fname = some tbl ∧ alookup tbl n = some cur ∧
        mergeTypes cur t = cur) ∧ callAbsorbed fpt fname ns ts

/-- A whole refinement step is absorbed by the table. -/
def stepAbsorbed (fpt : List (String × List (String × Ty)))
    (c : String × List Ty) : Prop :=
  ∀ tbl, alookup fpt c.1 = some tbl → callAbsorbed fpt c.1 (tbl.map Prod.fst) c.2

/-- A Metal-emitter result: either success, or the one `ValueError` the
backend can raise (`MetalCodeGenerator._gen_call` on `print`). -/
def okOrPrintErr {α : Type} (r : Except String α) : Prop :=
  (∃ v, r = Except.ok v) ∨ r = Except.error metalPrintErrMsg

/-- The one-kernel module `def bad(tid): print(tid)`. -/
def c7Module : Module :=
  ⟨[.funcDef "bad" ["tid"] [.exprStmt (.call (.name "print") [.name "tid"])]]⟩

/-! ## Lemmas: association lists -/

theorem alookup_updateAssoc {α : Type} (l : List (String × α)) (k k' : String) (v : α) :
    alookup (updateAssoc l k v) k' = if k' = k then some v else alookup l k' := by
  induction l with
  | nil => simp [updateAssoc, alookup]
  | cons hd tl ih =>
      obtain ⟨a, b⟩ := hd
      by_cases hak : a = k
      · subst hak
        simp [updateAssoc, alookup]
        by_cases hk : k' = a <;> simp [hk, alookup]
      · simp [updateAssoc, hak, alookup]
        by_cases hk : k' = a
        · subst hk
          have : ¬ (k' = k) := fun h => hak (by rw [h])
          simp [this]
        · simp [hk, ih]

theorem alookup_updateAssoc_self {α : Type} (l : List (String × α)) (k : String) (v : α) :
    alookup (updateAssoc l k v) k = some v := by
  simp [alookup_updateAssoc]

theorem alookup_updateAssoc_ne {α : Type} (l : List (String × α)) (k k' : String) (v : α)
    (h : k' ≠ k) : alookup (updateAssoc l k v) k' = alookup l k' := by
  simp [alookup_updateAssoc, h]

theorem updateAssoc_self {α : Type} (l : List (String × α)) (k : String) (v : α)
    (h : alookup l k = some v) : updateAssoc l k v = l := by
  induction l with
  | nil => simp [alookup] at h
  | cons hd tl ih =>
      obtain ⟨a, b⟩ := hd
      by_cases hak : k = a
      · subst hak
        simp [alookup] at h
        simp [updateAssoc, h]
      · simp [alookup, hak] at h
        have hak' : ¬ (a = k) := fun hh => hak hh.symm
        simp [updateAssoc, hak', ih h]

theorem updateAssoc_keys_of_isSome {α : Type} (l : List (String × α)) (k : String) (v : α)
    (h : (alookup l k).isSome) :
    (updateAssoc l k v).map Prod.fst = l.map Prod.fst := by
  induction l with
  | nil => simp [alookup] at h
  | cons hd tl ih =>
      obtain ⟨a, b⟩ := hd
      by_cases hak : a = k
      · subst hak
        simp [updateAssoc]
      · have hka : ¬ (k = a) := fun hh => hak hh.symm
        simp [alookup, hka] at h
        simp [updateAssoc, hak, ih h]

theorem alookup_isSome_iff_mem {α : Type} (l : List (String × α)) (k : String) :
    (alookup l k).isSome ↔ k ∈ l.map Prod.fst := by
  induction l with
  | nil => simp [alookup]
  | cons hd tl ih =>
      obtain ⟨a, b⟩ := hd
      by_cases hka : k = a
      · subst hka
        simp [alookup]
      · simp [alookup, hka, ih, hka]

/-! ## Lemmas: the two-point lattice -/

theorem mergeTypes_idem (a : Ty) : mergeTypes a a = a := by
  cases a <;> rfl

theorem mergeTypes_comm (a b : Ty) : mergeTypes a b = mergeTypes b a := by
  cases a <;> cases b <;> rfl

theorem mergeTypes_assoc (x y z : Ty) :
    mergeTypes (mergeTypes x y) z = mergeTypes x (mergeTypes y z) := by
  cases x <;> cases y <;> cases z <;> rfl

theorem tyLe_refl (a : Ty) : tyLe a a := mergeTypes_idem a

theorem tyLe_trans {x y z : Ty} (h1 : tyLe x y) (h2 : tyLe y z) : tyLe x z := by
  cases x <;> cases y <;> cases z <;> simp_all [tyLe, mergeTypes]

theorem tyLe_merge_left (x y : Ty) : tyLe x (mergeTypes x y) := by
  cases x <;> cases y <;> simp [tyLe, mergeTypes]

theorem tyLe_merge_right (x y : Ty) : tyLe y (mergeTypes x y) := by
  cases x <;> cases y <;> simp [tyLe, mergeTypes]

theorem merge_eq_of_tyLe {x y : Ty} (h : tyLe x y) : mergeTypes y x = y := by
  cases x <;> cases y <;> simp_all [tyLe, mergeTypes]

/-! ## Claim C1 -/

/-- C1: the claim states that for `def k(buf, tid): buf[tid] = 1.25` the
parameter `buf` has inferred type FLOAT after inference and refinement.
The code disagrees: `_infer_stmt_types` assigns types only to simple-name
assignment targets and ignores subscript targets, and the refinement pass
sees no call, so `buf` keeps its INT seed.  (The repository's own test
`test_subscript_write_promotes_buffer_type` asserts DOUBLE, so this is a
code bug rather than a spec error.)  This theorem evaluates the code at the
failing input. -/
theorem c1_subscript_write_buf_stays_int :
    alookup ((alookup (refineParamTypes (inferTypes initState c1Module)
        c1Module).func_param_types "k").getD []) "buf" = some Ty.tint := by
  rfl

/-! ## Claim C4 -/

/-- C4: binary-operation inference: true division is FLOAT unconditionally,
floor division INT unconditionally, every other operator (including `pow`)
the lattice join of the operand types (hence equal operand types propagate);
comparisons and short-circuit boolean operations infer as INT. -/
theorem c4_binop_inference (st : GenState) (l r : Expr) :
    inferExprType st (.binop .div l r) = Ty.tdouble ∧
    inferExprType st (.binop .floordiv l r) = Ty.tint ∧
    (∀ op : BinOpKind, op ≠ .div → op ≠ .floordiv →
      inferExprType st (.binop op l r) =
        mergeTypes (inferExprType st l) (inferExprType st r)) ∧
    (∀ (op : BinOpKind) (T : Ty), op ≠ .div → op ≠ .floordiv →
      inferExprType st l = T → inferExprType st r = T →
      inferExprType st (.binop op l r) = T) ∧
    (∀ (ops : List CmpOpKind) (cs : List Expr),
      inferExprType st (.compare l ops cs) = Ty.tint) ∧
    (∀ (bop : BoolOpKind) (vs : List Expr),
      inferExprType st (.boolop bop vs) = Ty.tint) := by
  refine ⟨?_, ⟨?_, ⟨?_, ?_, ?_, ?_⟩⟩⟩
  · simp [inferExprType]
  · simp [inferExprType]
  · intro op h1 h2
    cases op <;>
      first
        | exact absurd rfl h1
        | exact absurd rfl h2
        | simp [inferExprType]
  · intro op T h1 h2 hl hr
    have hh : inferExprType st (.binop op l r) =
        mergeTypes (inferExprType st l) (inferExprType st r) := by
      cases op <;>
        first
          | exact absurd rfl h1
          | exact absurd rfl h2
          | simp [inferExprType]
    rw [hh, hl, hr, mergeTypes_idem]
  · intro ops cs
    simp [inferExprType]
  · intro bop vs
    simp [inferExprType]

/-- Witness for C4 at a concrete input: `1 + 1` infers as INT. -/
theorem c4_binop_inference_check :
    inferExprType initState (.binop .add (.const (.cint 1)) (.const (.cint 1))) = Ty.tint :=
  (c4_binop_inference initState (.const (.cint 1)) (.const (.cint 1))).2.2.2.1 .add Ty.tint
    (by decide) (by decide) rfl rfl

/-! ## Claim C9 -/

/-- C9: during inference, a plain assignment to a simple name records exactly
the right-hand side's inferred type, overwriting any previous entry; in
particular after `x = 1.5` then `x = 1` the recorded type of `x` is INT. -/
theorem c9_assign_overwrites :
    (∀ (st : GenState) (x : String) (e : Expr),
      recordedVarType (inferStmtTypes st (.assign [.name x] e)) x =
        some (inferExprType st e)) ∧
    alookup (inferStmtList initState
      [.assign [.name "x"] (.const (.cfloat false "1.5")),
       .assign [.name "x"] (.const (.cint 1))]).global_types "x" = some Ty.tint := by
  constructor
  · intro st x e
    have h1 : inferStmtTypes st (.assign [.name x] e) =
        setVarType st x (inferExprType st e) := by
      simp [inferStmtTypes]
    rw [h1]
    unfold setVarType recordedVarType
    cases hcf : st.current_func with
    | none => simp [alookup_updateAssoc_self]
    | some f => simp [alookup_updateAssoc_self]
  · rfl

/-! ## Claim C5 -/

/-- C5: every non-`tid` kernel parameter is classified by the first matching
rule of the priority order: subscripted anywhere in the body → buffer
pointer (float element iff inferred FLOAT); else inferred FLOAT → scalar
float reference; else compared against `tid` → scalar unsigned reference;
else scalar int reference. -/
theorem c5_param_classification (st : GenState) (fname : String)
    (args : List String) (body : List Stmt) (p : String)
    (hmem : p ∈ args) (hne : p ≠ "tid") :
    (p,
      if (subscriptedParams args body).contains p then
        (if paramTypeAt st fname p = Ty.tdouble then ParamKind.bufferFloat
         else ParamKind.bufferInt)
      else if paramTypeAt st fname p = Ty.tdouble then ParamKind.scalarFloat
      else if (tidComparedParams args body).contains p then ParamKind.scalarUint
      else ParamKind.scalarInt)
      ∈ classifyParams st fname args body := by
  unfold classifyParams
  refine List.mem_map.mpr ⟨p, hmem, ?_⟩
  simp only [if_neg hne]
  split_ifs <;> rfl

/-- Witness for C5: in the SAXPY kernel, `n` (integer, not subscripted,
compared against `tid`) classifies as a scalar unsigned reference. -/
theorem c5_param_classification_check :
    ("n", ParamKind.scalarUint) ∈
      classifyParams initState "saxpy" ["a", "x", "y", "out", "n", "tid"] saxpyBody :=
  c5_param_classification initState "saxpy" ["a", "x", "y", "out", "n", "tid"]
    saxpyBody "n" (by decide) (by decide)

/-! ## Claim C6 -/

/-- The parameter-line loop with an arbitrary starting index: entry `i` is
the template of its classified kind at binding index `start` plus the number
of preceding non-`tid` parameters; `tid` entries render the
thread-position template (which carries no index). -/
theorem kernelParamLines_get (cl : List (String × ParamKind)) (start i : Nat) :
    (kernelParamLines cl start)[i]? = (cl[i]?).map
      (fun p =>
        match p.2 with
        | ParamKind.tid => kernelParamLine .tid p.1 0
        | k => kernelParamLine k p.1 (start + nonTidCount (cl.take i))) := by
  induction cl generalizing start i with
  | nil => simp [kernelParamLines]
  | cons hd rest ih =>
      obtain ⟨n, k⟩ := hd
      cases i with
      | zero =>
          cases k <;> simp [kernelParamLines, nonTidCount]
      | succ j =>
          cases k with
          | tid =>
              simp only [kernelParamLines, List.getElem?_cons_succ, List.take_succ_cons]
              rw [ih start j]
              have hc : nonTidCount ((n, ParamKind.tid) :: rest.take j) =
                  nonTidCount (rest.take j) := by
                simp [nonTidCount, List.countP_cons]
              rw [hc]
          | bufferFloat =>
              simp only [kernelParamLines, List.getElem?_cons_succ, List.take_succ_cons]
              rw [ih (start + 1) j]
              have hc : nonTidCount ((n, ParamKind.bufferFloat) :: rest.take j) =
                  nonTidCount (rest.take j) + 1 := by
                simp [nonTidCount, List.countP_cons]
              rw [hc]
              have : start + 1 + nonTidCount (rest.take j) =
                  start + (nonTidCount (rest.take j) + 1) := by omega
              rw [this]
          | bufferInt =>
              simp only [kernelParamLines, List.getElem?_cons_succ, List.take_succ_cons]
              rw [ih (start + 1) j]
              have hc : nonTidCount ((n, ParamKind.bufferInt) :: rest.take j) =
                  nonTidCount (rest.take j) + 1 := by
                simp [nonTidCount, List.countP_cons]
              rw [hc]
              have : start + 1 + nonTidCount (rest.take j) =
                  start + (nonTidCount (rest.take j) + 1) := by omega
              rw [this]
          | scalarFloat =>
              simp only [kernelParamLines, List.getElem?_cons_succ, List.take_succ_cons]
              rw [ih (start + 1) j]
              have hc : nonTidCount ((n, ParamKind.scalarFloat) :: rest.take j) =
                  nonTidCount (rest.take j) + 1 := by
                simp [nonTidCount, List.countP_cons]
              rw [hc]
              have : start + 1 + nonTidCount (rest.take j) =
                  start + (nonTidCount (rest.take j) + 1) := by omega
              rw [this]
          | scalarUint =>
              simp only [kernelParamLines, List.getElem?_cons_succ, List.take_succ_cons]
              rw [ih (start + 1) j]
              have hc : nonTidCount ((n, ParamKind.scalarUint) :: rest.take j) =
                  nonTidCount (rest.take j) + 1 := by
                simp [nonTidCount, List.countP_cons]
              rw [hc]
              have : start + 1 + nonTidCount (rest.take j) =
                  start + (nonTidCount (rest.take j) + 1) := by omega
              rw [this]
          | scalarInt =>
              simp only [kernelParamLines, List.getElem?_cons_succ, List.take_succ_cons]
              rw [ih (start + 1) j]
              have hc : nonTidCount ((n, ParamKind.scalarInt) :: rest.take j) =
                  nonTidCount (rest.take j) + 1 := by
                simp [nonTidCount, List.countP_cons]
              rw [hc]
              have : start + 1 + nonTidCount (rest.take j) =
                  start + (nonTidCount (rest.take j) + 1) := by omega
              rw [this]

/-- C6: in `_gen_kernel`'s parameter list (rendered by `kernelParamLines`
starting at index 0), the `i`-th entry renders with buffer binding index
equal to the number of non-`tid` parameters strictly before it — so the
non-`tid` parameters receive exactly the indices 0, 1, 2, … in declaration
order — and every `tid` entry renders as the index-free
thread-position-in-grid attribute line. -/
theorem c6_buffer_binding_order (cl : List (String × ParamKind)) (i : Nat) :
    (kernelParamLines cl 0)[i]? = (cl[i]?).map
      (fun p =>
        match p.2 with
        | ParamKind.tid => "    uint " ++ p.1 ++ " [[thread_position_in_grid]]"
        | k => kernelParamLine k p.1 (nonTidCount (cl.take i))) := by
  rw [kernelParamLines_get]
  cases hcl : cl[i]? with
  | none => rfl
  | some p =>
      obtain ⟨n, k⟩ := p
      cases k <;> simp [kernelParamLine]

/-! ## Field-preservation lemmas

The inference pass only writes the four type tables and (transiently) the
current-function marker; the refinement pass only writes the parameter
tables.  These lemmas record which `GenState` fields each pass leaves
untouched. -/

theorem setVarType_fields (st : GenState) (n : String) (t : Ty) :
    (setVarType st n t).lines = st.lines ∧
    (setVarType st n t).indent = st.indent ∧
    (setVarType st n t).declared_vars = st.declared_vars ∧
    (setVarType st n t).current_func = st.current_func ∧
    (setVarType st n t).func_param_types = st.func_param_types ∧
    (setVarType st n t).func_return_types = st.func_return_types := by
  unfold setVarType
  cases st.current_func <;> simp

theorem foldAssignTargets_fields (typ : Ty) (ts : List Expr) : ∀ st : GenState,
    ((ts.foldl
      (fun acc t =>
        match t with
        | Expr.name id => setVarType acc id typ
        | _ => acc) st).lines = st.lines ∧
     (ts.foldl
      (fun acc t =>
        match t with
        | Expr.name id => setVarType acc id typ
        | _ => acc) st).indent = st.indent ∧
     (ts.foldl
      (fun acc t =>
        match t with
        | Expr.name id => setVarType acc id typ
        | _ => acc) st).declared_vars = st.declared_vars ∧
     (ts.foldl
      (fun acc t =>
        match t with
        | Expr.name id => setVarType acc id typ
        | _ => acc) st).current_func = st.current_func) := by
  induction ts with
  | nil => intro st; simp
  | cons t rest ih =>
      intro st
      simp only [List.foldl_cons]
      cases t with
      | name id =>
          have hs := setVarType_fields st id typ
          have hr := ih (setVarType st id typ)
          exact ⟨by rw [hr.1, hs.1], by rw [hr.2.1, hs.2.1],
                 by rw [hr.2.2.1, hs.2.2.1], by rw [hr.2.2.2, hs.2.2.2.1]⟩
      | const c => exact ih st
      | binop op l r => exact ih st
      | unaryop op o => exact ih st
      | ifexp a b c => exact ih st
      | compare l ops cs => exact ih st
      | boolop op vs => exact ih st
      | call f args => exact ih st
      | subscript v s => exact ih st

mutual

theorem inferStmtTypes_fields (st : GenState) (s : Stmt) :
    (inferStmtTypes st s).lines = st.lines ∧
    (inferStmtTypes st s).indent = st.indent ∧
    (inferStmtTypes st s).declared_vars = st.declared_vars ∧
    (inferStmtTypes st s).current_func = st.current_func := by
  cases s with
  | assign targets value =>
      simp only [inferStmtTypes]
      exact foldAssignTargets_fields (inferExprType st value) targets st
  | augAssign target op value =>
      cases target with
      | name id =>
          simp only [inferStmtTypes]
          have h := setVarType_fields st id
            (mergeTypes (typeOfVar st id) (inferExprType st value))
          obtain ⟨hq1, hq2, hq3, hq4, _⟩ := h
          exact ⟨hq1, hq2, hq3, hq4⟩
      | const c => simp [inferStmtTypes]
      | binop op2 l r => simp [inferStmtTypes]
      | unaryop op2 o => simp [inferStmtTypes]
      | ifexp a b c => simp [inferStmtTypes]
      | compare l ops cs => simp [inferStmtTypes]
      | boolop op2 vs => simp [inferStmtTypes]
      | call f args => simp [inferStmtTypes]
      | subscript v sl => simp [inferStmtTypes]
  | funcDef name args body =>
      have h := inferStmtList_fields
        { st with current_func := some name,
                  func_param_types :=
                    updateAssoc st.func_param_types name
                      (args.foldl (fun t a => updateAssoc t a Ty.tint) []),
                  func_local_types := updateAssoc st.func_local_types name [] } body
      simp only [inferStmtTypes]
      exact ⟨by simp [h.1], by simp [h.2.1], by simp [h.2.2.1], by simp⟩
  | ifStmt t body orelse =>
      have h1 := inferStmtList_fields st body
      have h2 := inferStmtList_fields (inferStmtList st body) orelse
      simp only [inferStmtTypes]
      exact ⟨by rw [h2.1, h1.1], by rw [h2.2.1, h1.2.1],
             by rw [h2.2.2.1, h1.2.2.1], by rw [h2.2.2.2, h1.2.2.2]⟩
  | whileStmt t body =>
      have h := inferStmtList_fields st body
      simp only [inferStmtTypes]
      exact h
  | forStmt target iter body =>
      cases target with
      | name id =>
          have hs := setVarType_fields st id Ty.tint
          have h := inferStmtList_fields (setVarType st id Ty.tint) body
          simp only [inferStmtTypes]
          exact ⟨by rw [h.1, hs.1], by rw [h.2.1, hs.2.1],
                 by rw [h.2.2.1, hs.2.2.1], by rw [h.2.2.2, hs.2.2.2.1]⟩
      | const c => simp only [inferStmtTypes]; exact inferStmtList_fields st body
      | binop op l r => simp only [inferStmtTypes]; exact inferStmtList_fields st body
      | unaryop op o => simp only [inferStmtTypes]; exact inferStmtList_fields st body
      | ifexp a b c => simp only [inferStmtTypes]; exact inferStmtList_fields st body
      | compare l ops cs => simp only [inferStmtTypes]; exact inferStmtList_fields st body
      | boolop op vs => simp only [inferStmtTypes]; exact inferStmtList_fields st body
      | call f args => simp only [inferStmtTypes]; exact inferStmtList_fields st body
      | subscript v sl => simp only [inferStmtTypes]; exact inferStmtList_fields st body
  | exprStmt e => simp [inferStmtTypes]
  | ret v => simp [inferStmtTypes]
  | pass => simp [inferStmtTypes]
  | brk => simp [inferStmtTypes]
  | cont => simp [inferStmtTypes]

theorem inferStmtList_fields (st : GenState) (l : List Stmt) :
    (inferStmtList st l).lines = st.lines ∧
    (inferStmtList st l).indent = st.indent ∧
    (inferStmtList st l).declared_vars = st.declared_vars ∧
    (inferStmtList st l).current_func = st.current_func := by
  cases l with
  | nil => simp [inferStmtList]
  | cons s rest =>
      have h1 := inferStmtTypes_fields st s
      have h2 := inferStmtList_fields (inferStmtTypes st s) rest
      simp only [inferStmtList]
      exact ⟨by rw [h2.1, h1.1], by rw [h2.2.1, h1.2.1],
             by rw [h2.2.2.1, h1.2.2.1], by rw [h2.2.2.2, h1.2.2.2]⟩

end

theorem refineArgsLoop_fields (fname : String) :
    ∀ (ns : List String) (as_ : List Expr) (st : GenState),
    (refineArgsLoop fname ns as_ st).lines = st.lines ∧
    (refineArgsLoop fname ns as_ st).indent = st.indent ∧
    (refineArgsLoop fname ns as_ st).declared_vars = st.declared_vars ∧
    (refineArgsLoop fname ns as_ st).current_func = st.current_func ∧
    (refineArgsLoop fname ns as_ st).global_types = st.global_types ∧
    (refineArgsLoop fname ns as_ st).func_return_types = st.func_return_types ∧
    (refineArgsLoop fname ns as_ st).func_local_types = st.func_local_types := by
  intro ns
  induction ns with
  | nil => intro as_ st; simp [refineArgsLoop]
  | cons n ns ih =>
      intro as_ st
      cases as_ with
      | nil => simp [refineArgsLoop]
      | cons a rest =>
          simp only [refineArgsLoop]
          exact ih rest _

theorem refineOneCall_fields (st : GenState) (c : Expr × List Expr) :
    (refineOneCall st c).lines = st.lines ∧
    (refineOneCall st c).indent = st.indent ∧
    (refineOneCall st c).declared_vars = st.declared_vars ∧
    (refineOneCall st c).current_func = st.current_func ∧
    (refineOneCall st c).global_types = st.global_types ∧
    (refineOneCall st c).func_return_types = st.func_return_types ∧
    (refineOneCall st c).func_local_types = st.func_local_types := by
  obtain ⟨f, args⟩ := c
  cases f with
  | name fname =>
      simp only [refineOneCall]
      cases alookup st.func_param_types fname with
      | none => simp
      | some ptypes => simpa using refineArgsLoop_fields fname (ptypes.map Prod.fst) args st
  | const c => simp [refineOneCall]
  | binop op l r => simp [refineOneCall]
  | unaryop op o => simp [refineOneCall]
  | ifexp a b c => simp [refineOneCall]
  | compare l ops cs => simp [refineOneCall]
  | boolop op vs => simp [refineOneCall]
  | call f2 a2 => simp [refineOneCall]
  | subscript v s => simp [refineOneCall]

theorem refineFold_fields (cs : List (Expr × List Expr)) : ∀ st : GenState,
    (cs.foldl refineOneCall st).lines = st.lines ∧
    (cs.foldl refineOneCall st).indent = st.indent ∧
    (cs.foldl refineOneCall st).declared_vars = st.declared_vars ∧
    (cs.foldl refineOneCall st).current_func = st.current_func ∧
    (cs.foldl refineOneCall st).global_types = st.global_types ∧
    (cs.foldl refineOneCall st).func_return_types = st.func_return_types ∧
    (cs.foldl refineOneCall st).func_local_types = st.func_local_types := by
  induction cs with
  | nil => intro st; simp
  | cons c rest ih =>
      intro st
      simp only [List.foldl_cons]
      have h1 := refineOneCall_fields st c
      have h2 := ih (refineOneCall st c)
      exact ⟨by rw [h2.1, h1.1], by rw [h2.2.1, h1.2.1],
             by rw [h2.2.2.1, h1.2.2.1], by rw [h2.2.2.2.1, h1.2.2.2.1],
             by rw [h2.2.2.2.2.1, h1.2.2.2.2.1],
             by rw [h2.2.2.2.2.2.1, h1.2.2.2.2.2.1],
             by rw [h2.2.2.2.2.2.2, h1.2.2.2.2.2.2]⟩

theorem refineParamTypes_fields (st : GenState) (m : Module) :
    (refineParamTypes st m).lines = st.lines ∧
    (refineParamTypes st m).indent = st.indent ∧
    (refineParamTypes st m).declared_vars = st.declared_vars ∧
    (refineParamTypes st m).current_func = st.current_func ∧
    (refineParamTypes st m).global_types = st.global_types ∧
    (refineParamTypes st m).func_return_types = st.func_return_types ∧
    (refineParamTypes st m).func_local_types = st.func_local_types :=
  refineFold_fields (callsOfModule m) st

/-! ## Claim C10 -/

theorem splitKernels_step_skip (acc : List Stmt × List Stmt) (s : Stmt)
    (h : isFuncDefB s = false) :
    (match s with
     | Stmt.funcDef _ args _ =>
         if args.contains "tid" then (acc.1 ++ [s], acc.2) else (acc.1, acc.2 ++ [s])
     | _ => acc) = acc := by
  cases s <;> first | rfl | simp [isFuncDefB] at h

/-- C10: the GPU driver emits only function definitions.  First conjunct:
the kernel/helper partition of the module body sees only the
`FunctionDef` statements (every other top-level statement is skipped, so it
contributes no output and raises no error, and the output consists solely of
the prelude, the helpers and the kernels).  Second conjunct: a module with
no function definitions at all — whatever assignments, loops, expression
statements or top-level `print` calls it contains — generates exactly the
prelude, with no error. -/
theorem c10_metal_top_level_ignored :
    (∀ body : List Stmt, splitKernels body = splitKernels (body.filter isFuncDefB)) ∧
    (∀ stmts : List Stmt, (∀ s ∈ stmts, isFuncDefB s = false) →
      metalGenerate ⟨stmts⟩ =
        Except.ok "#include <metal_stdlib>\nusing namespace metal;\n\n") := by
  have hsplit : ∀ (body : List Stmt) (acc : List Stmt × List Stmt),
      body.foldl
        (fun acc n =>
          match n with
          | Stmt.funcDef _ args _ =>
              if args.contains "tid" then (acc.1 ++ [n], acc.2) else (acc.1, acc.2 ++ [n])
          | _ => acc) acc =
      (body.filter isFuncDefB).foldl
        (fun acc n =>
          match n with
          | Stmt.funcDef _ args _ =>
              if args.contains "tid" then (acc.1 ++ [n], acc.2) else (acc.1, acc.2 ++ [n])
          | _ => acc) acc := by
    intro body
    induction body with
    | nil => intro acc; rfl
    | cons s rest ih =>
        intro acc
        cases s with
        | funcDef name args fbody => exact ih _
        | assign ts v => exact ih acc
        | augAssign t op v => exact ih acc
        | exprStmt e => exact ih acc
        | ifStmt t b o => exact ih acc
        | whileStmt t b => exact ih acc
        | forStmt t it b => exact ih acc
        | ret v => exact ih acc
        | pass => exact ih acc
        | brk => exact ih acc
        | cont => exact ih acc
  constructor
  · intro body
    unfold splitKernels
    exact hsplit body ([], [])
  · intro stmts hall
    have hfe : stmts.filter isFuncDefB = [] := by
      induction stmts with
      | nil => rfl
      | cons hd tl ih =>
          have h1 := hall hd (by simp)
          simp only [List.filter_cons, h1]
          exact ih (fun a ha => hall a (by simp [ha]))
    have hsk : splitKernels stmts = ([], []) := by
      unfold splitKernels
      rw [hsplit stmts ([], []), hfe]
      rfl
    have hfields := refineParamTypes_fields
      (inferTypes initState ⟨stmts⟩) ⟨stmts⟩
    have hinf := inferStmtList_fields initState stmts
    have hlines : (refineParamTypes (inferTypes initState ⟨stmts⟩) ⟨stmts⟩).lines = [] := by
      rw [hfields.1]
      simpa [inferTypes] using hinf.1
    have hind : (refineParamTypes (inferTypes initState ⟨stmts⟩) ⟨stmts⟩).indent = 0 := by
      rw [hfields.2.1]
      simpa [inferTypes] using hinf.2.1
    simp only [metalGenerate, metalGenState, hsk]
    simp only [genFnList, genKernelList]
    simp only [bind, Except.bind, pure, Except.pure, Except.map]
    simp [emit, hlines, hind, indentStr, String.intercalate]
    rfl

/-- Witness for C10: a module whose only statements are a top-level `print`
call and an assignment emits exactly the prelude without error. -/
theorem c10_metal_top_level_ignored_check :
    metalGenerate ⟨[.exprStmt (.call (.name "print") [.name "x"]),
        .assign [.name "y"] (.const (.cint 1))]⟩ =
      Except.ok "#include <metal_stdlib>\nusing namespace metal;\n\n" :=
  c10_metal_top_level_ignored.2
    [.exprStmt (.call (.name "print") [.name "x"]),
     .assign [.name "y"] (.const (.cint 1))]
    (by decide)

/-! ## Totality of the C backend and line monotonicity -/

/-- One-step unfolding of `genExpr` on a call whose callee is not a plain
name (the default `_gen_call` branch). -/
theorem genExpr_call_nonname (bk : BackendKind) (st : GenState) (f : Expr)
    (args : List Expr)
    (h : (match f with | Expr.name _ => False | _ => True)) :
    genExpr bk st (.call f args) = (do
      let func ← genExpr bk st f
      let argStrs ← genExprList bk st args
      pure (func ++ "(" ++ String.intercalate ", " argStrs ++ ")")) := by
  cases f with
  | name fid => exact h.elim
  | const c => rfl
  | binop op l r => rfl
  | unaryop op o => rfl
  | ifexp a b c => rfl
  | compare l ops cs => rfl
  | boolop op vs => rfl
  | call f2 a2 => rfl
  | subscript v s => rfl

mutual

theorem cGenExpr_ok (st : GenState) (e : Expr) :
    ∃ v, genExpr .c st e = Except.ok v := by
  cases e with
  | const c => exact ⟨_, rfl⟩
  | name id => exact ⟨_, rfl⟩
  | binop op l r =>
      obtain ⟨vl, hl⟩ := cGenExpr_ok st l
      obtain ⟨vr, hr⟩ := cGenExpr_ok st r
      cases op <;>
        simp only [genExpr, hl, hr, bind, Except.bind] <;>
        first
          | exact ⟨_, rfl⟩
          | (split_ifs <;> exact ⟨_, rfl⟩)
  | unaryop op o =>
      obtain ⟨vo, ho⟩ := cGenExpr_ok st o
      cases op <;> simp only [genExpr, ho, bind, Except.bind] <;> exact ⟨_, rfl⟩
  | ifexp t b o =>
      obtain ⟨vt, ht⟩ := cGenExpr_ok st t
      obtain ⟨vb, hb⟩ := cGenExpr_ok st b
      obtain ⟨vo, ho⟩ := cGenExpr_ok st o
      simp only [genExpr, ht, hb, ho, bind, Except.bind]
      exact ⟨_, rfl⟩
  | compare l ops cs =>
      obtain ⟨vl, hl⟩ := cGenExpr_ok st l
      obtain ⟨vs, hs⟩ := cGenCompareParts_ok st ops cs
      simp only [genExpr, hl, hs, bind, Except.bind]
      exact ⟨_, rfl⟩
  | boolop op vs =>
      obtain ⟨ps, hp⟩ := cGenExprList_ok st vs
      simp only [genExpr, hp, bind, Except.bind]
      exact ⟨_, rfl⟩
  | call f args =>
      obtain ⟨ps, hp⟩ := cGenExprList_ok st args
      cases f with
      | name fid =>
          by_cases hpr : fid = "print"
          · subst hpr
            simp only [genExpr, hp, bind, Except.bind, if_pos rfl, if_true]
            exact ⟨_, rfl⟩
          · simp only [genExpr, hp, bind, Except.bind, if_neg hpr]
            exact ⟨_, rfl⟩
      | const c =>
          obtain ⟨vf, hf⟩ := cGenExpr_ok st (.const c)
          rw [genExpr_call_nonname .c st _ args trivial]
          simp only [hf, hp, bind, Except.bind]
          exact ⟨_, rfl⟩
      | binop op l r =>
          obtain ⟨vf, hf⟩ := cGenExpr_ok st (.binop op l r)
          rw [genExpr_call_nonname .c st _ args trivial]
          simp only [hf, hp, bind, Except.bind]
          exact ⟨_, rfl⟩
      | unaryop op o =>
          obtain ⟨vf, hf⟩ := cGenExpr_ok st (.unaryop op o)
          rw [genExpr_call_nonname .c st _ args trivial]
          simp only [hf, hp, bind, Except.bind]
          exact ⟨_, rfl⟩
      | ifexp a b c =>
          obtain ⟨vf, hf⟩ := cGenExpr_ok st (.ifexp a b c)
          rw [genExpr_call_nonname .c st _ args trivial]
          simp only [hf, hp, bind, Except.bind]
          exact ⟨_, rfl⟩
      | compare l ops cs =>
          obtain ⟨vf, hf⟩ := cGenExpr_ok st (.compare l ops cs)
          rw [genExpr_call_nonname .c st _ args trivial]
          simp only [hf, hp, bind, Except.bind]
          exact ⟨_, rfl⟩
      | boolop op vs =>
          obtain ⟨vf, hf⟩ := cGenExpr_ok st (.boolop op vs)
          rw [genExpr_call_nonname .c st _ args trivial]
          simp only [hf, hp, bind, Except.bind]
          exact ⟨_, rfl⟩
      | call f2 a2 =>
          obtain ⟨vf, hf⟩ := cGenExpr_ok st (.call f2 a2)
          rw [genExpr_call_nonname .c st _ args trivial]
          simp only [hf, hp, bind, Except.bind]
          exact ⟨_, rfl⟩
      | subscript v s =>
          obtain ⟨vf, hf⟩ := cGenExpr_ok st (.subscript v s)
          rw [genExpr_call_nonname .c st _ args trivial]
          simp only [hf, hp, bind, Except.bind]
          exact ⟨_, rfl⟩
  | subscript v s =>
      obtain ⟨vv, hv⟩ := cGenExpr_ok st v
      obtain ⟨vs, hs⟩ := cGenExpr_ok st s
      simp only [genExpr, hv, hs, bind, Except.bind]
      exact ⟨_, rfl⟩

theorem cGenCompareParts_ok (st : GenState) (ops : List CmpOpKind) (cs : List Expr) :
    ∃ v, genCompareParts .c st ops cs = Except.ok v := by
  cases cs with
  | nil => cases ops <;> exact ⟨_, rfl⟩
  | cons c rest =>
      cases ops with
      | nil => exact ⟨_, rfl⟩
      | cons op ops' =>
          obtain ⟨vc, hc⟩ := cGenExpr_ok st c
          obtain ⟨vr, hr⟩ := cGenCompareParts_ok st ops' rest
          simp only [genCompareParts, hc, hr, bind, Except.bind]
          exact ⟨_, rfl⟩

theorem cGenExprList_ok (st : GenState) (es : List Expr) :
    ∃ v, genExprList .c st es = Except.ok v := by
  cases es with
  | nil => exact ⟨_, rfl⟩
  | cons e rest =>
      obtain ⟨ve, he⟩ := cGenExpr_ok st e
      obtain ⟨vr, hr⟩ := cGenExprList_ok st rest
      simp only [genExprList, he, hr, bind, Except.bind]
      exact ⟨_, rfl⟩

end

theorem cGenTarget_ok (st : GenState) (t : Expr) :
    ∃ v, genTarget .c st t = Except.ok v := by
  cases t with
  | name id => exact ⟨_, rfl⟩
  | subscript v s =>
      obtain ⟨vv, hv⟩ := cGenExpr_ok st v
      obtain ⟨vs, hs⟩ := cGenExpr_ok st s
      simp only [genTarget, hv, hs, bind, Except.bind]
      exact ⟨_, rfl⟩
  | const c => exact ⟨_, rfl⟩
  | binop op l r => exact ⟨_, rfl⟩
  | unaryop op o => exact ⟨_, rfl⟩
  | ifexp a b c => exact ⟨_, rfl⟩
  | compare l ops cs => exact ⟨_, rfl⟩
  | boolop op vs => exact ⟨_, rfl⟩
  | call f args => exact ⟨_, rfl⟩

theorem emit_lines (st : GenState) (l : String) :
    (emit st l).lines = st.lines ++ [indentStr st.indent ++ l] := rfl

theorem cGenAssignTargets_ok (value : Expr) (ts : List Expr) : ∀ st : GenState,
    ∃ st' t, genAssignTargets .c value st ts = Except.ok st' ∧
      st'.lines = st.lines ++ t := by
  induction ts with
  | nil => intro st; exact ⟨st, [], rfl, by simp⟩
  | cons tg rest ih =>
      intro st
      cases tg with
      | name id =>
          obtain ⟨vv, hv⟩ := cGenExpr_ok st value
          by_cases hd : id ∈ st.declared_vars
          · obtain ⟨st', t, h, hl⟩ := ih (emit st (id ++ " = " ++ vv ++ ";"))
            refine ⟨st', [indentStr st.indent ++ (id ++ " = " ++ vv ++ ";")] ++ t, ?_, ?_⟩
            · simp only [genAssignTargets, hv, bind, Except.bind, if_pos hd]
              exact h
            · rw [hl, emit_lines, List.append_assoc]
          · obtain ⟨st', t, h, hl⟩ := ih
              (emit { st with declared_vars := st.declared_vars ++ [id] }
                (spellTy .c (typeOfVar st id) ++ " " ++ id ++ " = " ++ vv ++ ";"))
            refine ⟨st',
              [indentStr st.indent ++
                (spellTy .c (typeOfVar st id) ++ " " ++ id ++ " = " ++ vv ++ ";")] ++ t,
              ?_, ?_⟩
            · simp only [genAssignTargets, hv, bind, Except.bind, if_neg hd]
              exact h
            · rw [hl, emit_lines, List.append_assoc]
      | subscript v s =>
          obtain ⟨vl, hvl⟩ := cGenExpr_ok st (.subscript v s)
          obtain ⟨vv, hv⟩ := cGenExpr_ok st value
          obtain ⟨st', t, h, hl⟩ := ih (emit st (vl ++ " = " ++ vv ++ ";"))
          refine ⟨st', [indentStr st.indent ++ (vl ++ " = " ++ vv ++ ";")] ++ t, ?_, ?_⟩
          · simp only [genAssignTargets, hvl, hv, bind, Except.bind]
            exact h
          · rw [hl, emit_lines, List.append_assoc]
      | const c => exact ih st
      | binop op l r => exact ih st
      | unaryop op o => exact ih st
      | ifexp a b c => exact ih st
      | compare l ops cs => exact ih st
      | boolop op vs => exact ih st
      | call f args => exact ih st

theorem cGenAssignTargets_pfx (value : Expr) (ts : List Expr) (st : GenState) :
    ∃ st', genAssignTargets .c value st ts = Except.ok st' ∧
      st.lines <+: st'.lines := by
  obtain ⟨st', t, h, hl⟩ := cGenAssignTargets_ok value ts st
  exact ⟨st', h, ⟨t, hl.symm⟩⟩

theorem cGenForHead_pfx (st : GenState) (target iter : Expr) :
    ∃ st', genForHead .c st target iter = Except.ok st' ∧
      st.lines <+: st'.lines := by
  obtain ⟨tgt, htgt⟩ := cGenTarget_ok st target
  cases iter with
  | call f args =>
      cases f with
      | name fid =>
          by_cases hr : fid = "range"
          · subst hr
            cases args with
            | nil =>
                simp only [genForHead, htgt, bind, Except.bind, if_pos rfl, if_true]
                exact ⟨_, rfl, by simp [emit]⟩
            | cons a0 rest0 =>
                cases rest0 with
                | nil =>
                    obtain ⟨v0, h0⟩ := cGenExpr_ok st a0
                    simp only [genForHead, htgt, h0, bind, Except.bind, if_pos rfl, if_true]
                    exact ⟨_, rfl, by simp [emit]⟩
                | cons a1 rest1 =>
                    cases rest1 with
                    | nil =>
                        obtain ⟨v0, h0⟩ := cGenExpr_ok st a0
                        obtain ⟨v1, h1⟩ := cGenExpr_ok st a1
                        simp only [genForHead, htgt, h0, h1, bind, Except.bind, if_pos rfl, if_true]
                        exact ⟨_, rfl, by simp [emit]⟩
                    | cons a2 rest2 =>
                        cases rest2 with
                        | nil =>
                            obtain ⟨v0, h0⟩ := cGenExpr_ok st a0
                            obtain ⟨v1, h1⟩ := cGenExpr_ok st a1
                            obtain ⟨v2, h2⟩ := cGenExpr_ok st a2
                            simp only [genForHead, htgt, h0, h1, h2, bind,
                              Except.bind, if_pos rfl, if_true]
                            exact ⟨_, rfl, by simp [emit]⟩
                        | cons a3 rest3 =>
                            simp only [genForHead, htgt, bind, Except.bind, if_pos rfl, if_true]
                            exact ⟨_, rfl, by simp [emit]⟩
          · simp only [genForHead, htgt, bind, Except.bind, if_neg hr]
            exact ⟨_, rfl, by simp [emit]⟩
      | const c =>
          simp only [genForHead, htgt, bind, Except.bind]
          exact ⟨_, rfl, by simp [emit]⟩
      | binop op l r =>
          simp only [genForHead, htgt, bind, Except.bind]
          exact ⟨_, rfl, by simp [emit]⟩
      | unaryop op o =>
          simp only [genForHead, htgt, bind, Except.bind]
          exact ⟨_, rfl, by simp [emit]⟩
      | ifexp a b c =>
          simp only [genForHead, htgt, bind, Except.bind]
          exact ⟨_, rfl, by simp [emit]⟩
      | compare l ops cs =>
          simp only [genForHead, htgt, bind, Except.bind]
          exact ⟨_, rfl, by simp [emit]⟩
      | boolop op vs =>
          simp only [genForHead, htgt, bind, Except.bind]
          exact ⟨_, rfl, by simp [emit]⟩
      | call f2 a2 =>
          simp only [genForHead, htgt, bind, Except.bind]
          exact ⟨_, rfl, by simp [emit]⟩
      | subscript v s =>
          simp only [genForHead, htgt, bind, Except.bind]
          exact ⟨_, rfl, by simp [emit]⟩
  | const c =>
      simp only [genForHead, htgt, bind, Except.bind]
      exact ⟨_, rfl, by simp [emit]⟩
  | name id =>
      simp only [genForHead, htgt, bind, Except.bind]
      exact ⟨_, rfl, by simp [emit]⟩
  | binop op l r =>
      simp only [genForHead, htgt, bind, Except.bind]
      exact ⟨_, rfl, by simp [emit]⟩
  | unaryop op o =>
      simp only [genForHead, htgt, bind, Except.bind]
      exact ⟨_, rfl, by simp [emit]⟩
  | ifexp a b c =>
      simp only [genForHead, htgt, bind, Except.bind]
      exact ⟨_, rfl, by simp [emit]⟩
  | compare l ops cs =>
      simp only [genForHead, htgt, bind, Except.bind]
      exact ⟨_, rfl, by simp [emit]⟩
  | boolop op vs =>
      simp only [genForHead, htgt, bind, Except.bind]
      exact ⟨_, rfl, by simp [emit]⟩
  | subscript v s =>
      simp only [genForHead, htgt, bind, Except.bind]
      exact ⟨_, rfl, by simp [emit]⟩

theorem emit_pfx (st : GenState) (l : String) : st.lines <+: (emit st l).lines := by
  simp [emit]

theorem expr_sizeOf_pos (e : Expr) : 0 < sizeOf e := by
  cases e <;> simp_arith

mutual

theorem cIfElsePath_pfx (st : GenState) (test : Expr) (body os2 : List Stmt) :
    ∃ st', (do
      let t ← genExpr .c st test
      let st1 := emit st ("if (" ++ t ++ ") \x7b")
      let st2 := { st1 with indent := st1.indent + 1 }
      let st3 ← genStmtList .c st2 body
      let st4 := { st3 with indent := st3.indent - 1 }
      let st5 := emit st4 "\x7d else \x7b"
      let st6 := { st5 with indent := st5.indent + 1 }
      let st7 ← genStmtList .c st6 os2
      let st8 := { st7 with indent := st7.indent - 1 }
      pure (emit st8 "\x7d") : Except String GenState) = Except.ok st' ∧
      st.lines <+: st'.lines := by
  obtain ⟨vt, ht⟩ := cGenExpr_ok st test
  obtain ⟨st3, h3, hl3⟩ := cGenStmtList_pfx
    { emit st ("if (" ++ vt ++ ") \x7b") with
        indent := (emit st ("if (" ++ vt ++ ") \x7b")).indent + 1 } body
  obtain ⟨st7, h7, hl7⟩ := cGenStmtList_pfx
    { emit { st3 with indent := st3.indent - 1 } "\x7d else \x7b" with
        indent :=
          (emit { st3 with indent := st3.indent - 1 } "\x7d else \x7b").indent + 1 } os2
  simp only [ht, h3, h7, bind, Except.bind]
  refine ⟨_, rfl, ?_⟩
  have p1 : st.lines <+: st3.lines := (emit_pfx st _).trans hl3
  have p2 : st3.lines <+: st7.lines :=
    (emit_pfx { st3 with indent := st3.indent - 1 } "\x7d else \x7b").trans hl7
  exact (p1.trans p2).trans (emit_pfx { st7 with indent := st7.indent - 1 } "\x7d")
termination_by sizeOf test + sizeOf body + sizeOf os2
decreasing_by all_goals (simp_wf <;> (first
  | omega
  | (have hq : 0 < sizeOf test := expr_sizeOf_pos test; omega)))

theorem cElifElsePath_pfx (st : GenState) (test : Expr) (body os2 : List Stmt) :
    ∃ st', (do
      let t ← genExpr .c st test
      let st1 := emit st ("\x7d else if (" ++ t ++ ") \x7b")
      let st2 := { st1 with indent := st1.indent + 1 }
      let st3 ← genStmtList .c st2 body
      let st4 := { st3 with indent := st3.indent - 1 }
      let st5 := emit st4 "\x7d else \x7b"
      let st6 := { st5 with indent := st5.indent + 1 }
      let st7 ← genStmtList .c st6 os2
      let st8 := { st7 with indent := st7.indent - 1 }
      pure st8 : Except String GenState) = Except.ok st' ∧
      st.lines <+: st'.lines := by
  obtain ⟨vt, ht⟩ := cGenExpr_ok st test
  obtain ⟨st3, h3, hl3⟩ := cGenStmtList_pfx
    { emit st ("\x7d else if (" ++ vt ++ ") \x7b") with
        indent := (emit st ("\x7d else if (" ++ vt ++ ") \x7b")).indent + 1 } body
  obtain ⟨st7, h7, hl7⟩ := cGenStmtList_pfx
    { emit { st3 with indent := st3.indent - 1 } "\x7d else \x7b" with
        indent :=
          (emit { st3 with indent := st3.indent - 1 } "\x7d else \x7b").indent + 1 } os2
  simp only [ht, h3, h7, bind, Except.bind]
  refine ⟨_, rfl, ?_⟩
  have p1 : st.lines <+: st3.lines := (emit_pfx st _).trans hl3
  have p2 : st3.lines <+: st7.lines :=
    (emit_pfx { st3 with indent := st3.indent - 1 } "\x7d else \x7b").trans hl7
  exact p1.trans p2
termination_by sizeOf test + sizeOf body + sizeOf os2
decreasing_by all_goals (simp_wf <;> (first
  | omega
  | (have hq : 0 < sizeOf test := expr_sizeOf_pos test; omega)))

theorem cGenStmt_pfx (st : GenState) (s : Stmt) :
    ∃ st', genStmt .c st s = Except.ok st' ∧ st.lines <+: st'.lines := by
  cases s with
  | assign targets value =>
      simpa only [genStmt] using cGenAssignTargets_pfx value targets st
  | augAssign target op value =>
      obtain ⟨tgt, htgt⟩ := cGenTarget_ok st target
      obtain ⟨vv, hv⟩ := cGenExpr_ok st value
      simp only [genStmt, htgt, hv, bind, Except.bind]
      exact ⟨_, rfl, emit_pfx st _⟩
  | exprStmt e =>
      obtain ⟨v, hv⟩ := cGenExpr_ok st e
      simp only [genStmt, hv, bind, Except.bind]
      exact ⟨_, rfl, emit_pfx st _⟩
  | ifStmt test body orelse =>
      cases orelse with
      | nil =>
          obtain ⟨vt, ht⟩ := cGenExpr_ok st test
          obtain ⟨st3, h3, hl3⟩ := cGenStmtList_pfx
            { emit st ("if (" ++ vt ++ ") \x7b") with
                indent := (emit st ("if (" ++ vt ++ ") \x7b")).indent + 1 } body
          simp only [genStmt, ht, h3, bind, Except.bind]
          refine ⟨_, rfl, ?_⟩
          exact ((emit_pfx st _).trans hl3).trans
            (emit_pfx { st3 with indent := st3.indent - 1 } "\x7d")
      | cons o1 os =>
          cases os with
          | nil =>
              cases o1 with
              | ifStmt t2 b2 o2 =>
                  obtain ⟨vt, ht⟩ := cGenExpr_ok st test
                  obtain ⟨st3, h3, hl3⟩ := cGenStmtList_pfx
                    { emit st ("if (" ++ vt ++ ") \x7b") with
                        indent := (emit st ("if (" ++ vt ++ ") \x7b")).indent + 1 } body
                  obtain ⟨st5, h5, hl5⟩ := cGenElifChain_pfx
                    { st3 with indent := st3.indent - 1 } (.ifStmt t2 b2 o2)
                  simp only [genStmt, ht, h3, h5, bind, Except.bind]
                  refine ⟨_, rfl, ?_⟩
                  exact (((emit_pfx st _).trans hl3).trans hl5).trans (emit_pfx st5 "\x7d")
              | assign ts v => exact cIfElsePath_pfx st test body [Stmt.assign ts v]
              | augAssign t2 op2 v2 =>
                  exact cIfElsePath_pfx st test body [Stmt.augAssign t2 op2 v2]
              | exprStmt e2 => exact cIfElsePath_pfx st test body [Stmt.exprStmt e2]
              | whileStmt t2 b2 => exact cIfElsePath_pfx st test body [Stmt.whileStmt t2 b2]
              | forStmt t2 it2 b2 =>
                  exact cIfElsePath_pfx st test body [Stmt.forStmt t2 it2 b2]
              | funcDef n2 a2 b2 =>
                  exact cIfElsePath_pfx st test body [Stmt.funcDef n2 a2 b2]
              | ret v2 => exact cIfElsePath_pfx st test body [Stmt.ret v2]
              | pass => exact cIfElsePath_pfx st test body [Stmt.pass]
              | brk => exact cIfElsePath_pfx st test body [Stmt.brk]
              | cont => exact cIfElsePath_pfx st test body [Stmt.cont]
          | cons o2 rest2 =>
              cases o1 with
              | ifStmt t2 b2 o2x =>
                  exact cIfElsePath_pfx st test body (Stmt.ifStmt t2 b2 o2x :: o2 :: rest2)
              | assign ts v =>
                  exact cIfElsePath_pfx st test body (Stmt.assign ts v :: o2 :: rest2)
              | augAssign t2 op2 v2 =>
                  exact cIfElsePath_pfx st test body (Stmt.augAssign t2 op2 v2 :: o2 :: rest2)
              | exprStmt e2 =>
                  exact cIfElsePath_pfx st test body (Stmt.exprStmt e2 :: o2 :: rest2)
              | whileStmt t2 b2 =>
                  exact cIfElsePath_pfx st test body (Stmt.whileStmt t2 b2 :: o2 :: rest2)
              | forStmt t2 it2 b2 =>
                  exact cIfElsePath_pfx st test body (Stmt.forStmt t2 it2 b2 :: o2 :: rest2)
              | funcDef n2 a2 b2 =>
                  exact cIfElsePath_pfx st test body (Stmt.funcDef n2 a2 b2 :: o2 :: rest2)
              | ret v2 =>
                  exact cIfElsePath_pfx st test body (Stmt.ret v2 :: o2 :: rest2)
              | pass =>
                  exact cIfElsePath_pfx st test body (Stmt.pass :: o2 :: rest2)
              | brk =>
                  exact cIfElsePath_pfx st test body (Stmt.brk :: o2 :: rest2)
              | cont =>
                  exact cIfElsePath_pfx st test body (Stmt.cont :: o2 :: rest2)
  | whileStmt test body =>
      obtain ⟨vt, ht⟩ := cGenExpr_ok st test
      obtain ⟨st3, h3, hl3⟩ := cGenStmtList_pfx
        { emit st ("while (" ++ vt ++ ") \x7b") with
            indent := (emit st ("while (" ++ vt ++ ") \x7b")).indent + 1 } body
      simp only [genStmt, ht, h3, bind, Except.bind]
      refine ⟨_, rfl, ?_⟩
      exact ((emit_pfx st _).trans hl3).trans
        (emit_pfx { st3 with indent := st3.indent - 1 } "\x7d")
  | forStmt target iter body =>
      obtain ⟨stHead, hh, hlh⟩ := cGenForHead_pfx st target iter
      obtain ⟨st3, h3, hl3⟩ := cGenStmtList_pfx
        { stHead with indent := stHead.indent + 1 } body
      simp only [genStmt, hh, h3, bind, Except.bind]
      refine ⟨_, rfl, ?_⟩
      exact (hlh.trans hl3).trans (emit_pfx { st3 with indent := st3.indent - 1 } "\x7d")
  | ret v =>
      cases v with
      | none => exact ⟨_, rfl, emit_pfx st _⟩
      | some e =>
          obtain ⟨ve, he⟩ := cGenExpr_ok st e
          simp only [genStmt, he, bind, Except.bind]
          exact ⟨_, rfl, emit_pfx st _⟩
  | pass => exact ⟨_, rfl, emit_pfx st _⟩
  | brk => exact ⟨_, rfl, emit_pfx st _⟩
  | cont => exact ⟨_, rfl, emit_pfx st _⟩
  | funcDef n a b => exact ⟨st, rfl, List.prefix_refl _⟩
termination_by sizeOf s
decreasing_by all_goals (simp_wf <;> (first
  | omega
  | (have hq : 0 < sizeOf test := expr_sizeOf_pos test; omega)))

theorem cGenElifChain_pfx (st : GenState) (s : Stmt) :
    ∃ st', genElifChain .c st s = Except.ok st' ∧ st.lines <+: st'.lines := by
  cases s with
  | ifStmt test body orelse =>
      cases orelse with
      | nil =>
          obtain ⟨vt, ht⟩ := cGenExpr_ok st test
          obtain ⟨st3, h3, hl3⟩ := cGenStmtList_pfx
            { emit st ("\x7d else if (" ++ vt ++ ") \x7b") with
                indent :=
                  (emit st ("\x7d else if (" ++ vt ++ ") \x7b")).indent + 1 } body
          simp only [genElifChain, ht, h3, bind, Except.bind]
          exact ⟨_, rfl, (emit_pfx st _).trans hl3⟩
      | cons o1 os =>
          cases os with
          | nil =>
              cases o1 with
              | ifStmt t2 b2 o2 =>
                  obtain ⟨vt, ht⟩ := cGenExpr_ok st test
                  obtain ⟨st3, h3, hl3⟩ := cGenStmtList_pfx
                    { emit st ("\x7d else if (" ++ vt ++ ") \x7b") with
                        indent :=
                          (emit st ("\x7d else if (" ++ vt ++ ") \x7b")).indent + 1 } body
                  obtain ⟨st5, h5, hl5⟩ := cGenElifChain_pfx
                    { st3 with indent := st3.indent - 1 } (.ifStmt t2 b2 o2)
                  simp only [genElifChain, ht, h3, h5, bind, Except.bind]
                  exact ⟨_, rfl, ((emit_pfx st _).trans hl3).trans hl5⟩
              | assign ts v => exact cElifElsePath_pfx st test body [Stmt.assign ts v]
              | augAssign t2 op2 v2 =>
                  exact cElifElsePath_pfx st test body [Stmt.augAssign t2 op2 v2]
              | exprStmt e2 => exact cElifElsePath_pfx st test body [Stmt.exprStmt e2]
              | whileStmt t2 b2 =>
                  exact cElifElsePath_pfx st test body [Stmt.whileStmt t2 b2]
              | forStmt t2 it2 b2 =>
                  exact cElifElsePath_pfx st test body [Stmt.forStmt t2 it2 b2]
              | funcDef n2 a2 b2 =>
                  exact cElifElsePath_pfx st test body [Stmt.funcDef n2 a2 b2]
              | ret v2 => exact cElifElsePath_pfx st test body [Stmt.ret v2]
              | pass => exact cElifElsePath_pfx st test body [Stmt.pass]
              | brk => exact cElifElsePath_pfx st test body [Stmt.brk]
              | cont => exact cElifElsePath_pfx st test body [Stmt.cont]
          | cons o2 rest2 =>
              cases o1 with
              | ifStmt t2 b2 o2x =>
                  exact cElifElsePath_pfx st test body (Stmt.ifStmt t2 b2 o2x :: o2 :: rest2)
              | assign ts v =>
                  exact cElifElsePath_pfx st test body (Stmt.assign ts v :: o2 :: rest2)
              | augAssign t2 op2 v2 =>
                  exact cElifElsePath_pfx st test body (Stmt.augAssign t2 op2 v2 :: o2 :: rest2)
              | exprStmt e2 =>
                  exact cElifElsePath_pfx st test body (Stmt.exprStmt e2 :: o2 :: rest2)
              | whileStmt t2 b2 =>
                  exact cElifElsePath_pfx st test body (Stmt.whileStmt t2 b2 :: o2 :: rest2)
              | forStmt t2 it2 b2 =>
                  exact cElifElsePath_pfx st test body (Stmt.forStmt t2 it2 b2 :: o2 :: rest2)
              | funcDef n2 a2 b2 =>
                  exact cElifElsePath_pfx st test body (Stmt.funcDef n2 a2 b2 :: o2 :: rest2)
              | ret v2 =>
                  exact cElifElsePath_pfx st test body (Stmt.ret v2 :: o2 :: rest2)
              | pass =>
                  exact cElifElsePath_pfx st test body (Stmt.pass :: o2 :: rest2)
              | brk =>
                  exact cElifElsePath_pfx st test body (Stmt.brk :: o2 :: rest2)
              | cont =>
                  exact cElifElsePath_pfx st test body (Stmt.cont :: o2 :: rest2)
  | assign ts v => exact ⟨st, rfl, List.prefix_refl _⟩
  | augAssign t op v => exact ⟨st, rfl, List.prefix_refl _⟩
  | exprStmt e => exact ⟨st, rfl, List.prefix_refl _⟩
  | whileStmt t b => exact ⟨st, rfl, List.prefix_refl _⟩
  | forStmt t it b => exact ⟨st, rfl, List.prefix_refl _⟩
  | funcDef n a b => exact ⟨st, rfl, List.prefix_refl _⟩
  | ret v => exact ⟨st, rfl, List.prefix_refl _⟩
  | pass => exact ⟨st, rfl, List.prefix_refl _⟩
  | brk => exact ⟨st, rfl, List.prefix_refl _⟩
  | cont => exact ⟨st, rfl, List.prefix_refl _⟩
termination_by sizeOf s
decreasing_by all_goals (simp_wf <;> (first
  | omega
  | (have hq : 0 < sizeOf test := expr_sizeOf_pos test; omega)))

theorem cGenStmtList_pfx (st : GenState) (l : List Stmt) :
    ∃ st', genStmtList .c st l = Except.ok st' ∧ st.lines <+: st'.lines := by
  cases l with
  | nil => exact ⟨st, rfl, List.prefix_refl _⟩
  | cons s rest =>
      obtain ⟨st1, h1, hl1⟩ := cGenStmt_pfx st s
      obtain ⟨st2, h2, hl2⟩ := cGenStmtList_pfx st1 rest
      simp only [genStmtList, h1, h2, bind, Except.bind]
      exact ⟨st2, rfl, hl1.trans hl2⟩
termination_by sizeOf l
decreasing_by all_goals (simp_wf <;> (first
  | omega
  | (have hq : 0 < sizeOf test := expr_sizeOf_pos test; omega)))

end

theorem cFunctionTail_pfx (lines0 : List String) (stInner : GenState)
    (body : List Stmt) (oldF : Option String) (oldD : List String)
    (hpre : lines0 <+: stInner.lines) :
    ∃ st', (do
      let st4 ← genStmtList .c stInner body
      let st5 := { st4 with indent := st4.indent - 1 }
      let st6 := emit st5 "\x7d"
      let st7 := emit st6 ""
      pure { st7 with current_func := oldF, declared_vars := oldD } :
        Except String GenState) = Except.ok st' ∧
      lines0 <+: st'.lines := by
  obtain ⟨st4, h4, hl4⟩ := cGenStmtList_pfx stInner body
  simp only [h4, bind, Except.bind]
  refine ⟨_, rfl, ?_⟩
  refine (hpre.trans hl4).trans ?_
  exact (emit_pfx { st4 with indent := st4.indent - 1 } "\x7d").trans
    (emit_pfx (emit { st4 with indent := st4.indent - 1 } "\x7d") "")

theorem cGenFunction_pfx (st : GenState) (name : String) (args : List String)
    (body : List Stmt) :
    ∃ st', genFunction .c st name args body = Except.ok st' ∧
      st.lines <+: st'.lines := by
  refine cFunctionTail_pfx st.lines _ body _ _ ?_
  exact emit_pfx { st with current_func := some name, declared_vars := args } _

theorem cGenFnList_pfx (fns : List Stmt) : ∀ st : GenState,
    ∃ st', genFnList .c st fns = Except.ok st' ∧ st.lines <+: st'.lines := by
  induction fns with
  | nil => intro st; exact ⟨st, rfl, List.prefix_refl _⟩
  | cons fn rest ih =>
      intro st
      cases fn with
      | funcDef name args body =>
          obtain ⟨st1, h1, hl1⟩ := cGenFunction_pfx st name args body
          obtain ⟨st2, h2, hl2⟩ := ih st1
          simp only [genFnList, h1, h2, bind, Except.bind]
          exact ⟨st2, rfl, hl1.trans hl2⟩
      | assign ts v => exact ih st
      | augAssign t op v => exact ih st
      | exprStmt e => exact ih st
      | ifStmt t b o => exact ih st
      | whileStmt t b => exact ih st
      | forStmt t it b => exact ih st
      | ret v => exact ih st
      | pass => exact ih st
      | brk => exact ih st
      | cont => exact ih st

theorem cFwdDecls_pfx (fns : List Stmt) : ∀ st : GenState,
    st.lines <+: (cFwdDecls fns st).lines := by
  unfold cFwdDecls
  induction fns with
  | nil => intro st; exact List.prefix_refl _
  | cons fn rest ih =>
      intro st
      cases fn with
      | funcDef name args body => exact (emit_pfx st _).trans (ih _)
      | assign ts v => exact ih st
      | augAssign t op v => exact ih st
      | exprStmt e => exact ih st
      | ifStmt t b o => exact ih st
      | whileStmt t b => exact ih st
      | forStmt t it b => exact ih st
      | ret v => exact ih st
      | pass => exact ih st
      | brk => exact ih st
      | cont => exact ih st

theorem cMain_pfx (topLevel : List Stmt) (st : GenState) :
    ∃ st', cMain topLevel st = Except.ok st' ∧ st.lines <+: st'.lines := by
  obtain ⟨st9, h9, hl9⟩ := cGenStmtList_pfx
    { emit st "int main() \x7b" with
        indent := (emit st "int main() \x7b").indent + 1, declared_vars := [] }
    topLevel
  simp only [cMain, h9, bind, Except.bind]
  refine ⟨_, rfl, ?_⟩
  refine ((emit_pfx st "int main() \x7b").trans hl9).trans ?_
  refine (emit_pfx st9 "return 0;").trans ?_
  exact (emit_pfx { emit st9 "return 0;" with
    indent := (emit st9 "return 0;").indent - 1 } "\x7d").trans (emit_pfx _ "")

theorem cHeaders_lines (m : Module) (st : GenState)
    (hl : st.lines = []) (hi : st.indent = 0) :
    (cHeaders m st).lines = "#include <stdio.h>" ::
      ((if containsPow m then ["#include <math.h>"] else []) ++ [""]) := by
  unfold cHeaders
  cases hpow : containsPow m <;> simp [hpow, emit, hl, hi, indentStr] <;>
    and_intros <;> rfl

/-! ## Claim C8 -/

/-- C8: in the C backend, generation always succeeds and, for every module,
the emitted prelude is the standard I/O header, then the math header exactly
when a `**` expression occurs anywhere in the module, then a blank line,
followed by the rest of the output. -/
theorem c8_c_headers (m : Module) :
    ∃ (st : GenState) (rest : List String),
      cGenState m = Except.ok st ∧
      st.lines = "#include <stdio.h>" ::
        ((if containsPow m then ["#include <math.h>"] else []) ++ "" :: rest) := by
  have h0l : (refineParamTypes (inferTypes initState m) m).lines = [] := by
    rw [(refineParamTypes_fields _ _).1]
    simpa [inferTypes] using (inferStmtList_fields initState m.body).1
  have h0i : (refineParamTypes (inferTypes initState m) m).indent = 0 := by
    rw [(refineParamTypes_fields _ _).2.1]
    simpa [inferTypes] using (inferStmtList_fields initState m.body).2.1
  have hhead := cHeaders_lines m (refineParamTypes (inferTypes initState m) m) h0l h0i
  obtain ⟨st6, h6, hl6⟩ := cGenFnList_pfx (m.body.filter isFuncDefB)
    (if (m.body.filter isFuncDefB).isEmpty then
      cFwdDecls (m.body.filter isFuncDefB)
        (cHeaders m (refineParamTypes (inferTypes initState m) m))
     else
      emit (cFwdDecls (m.body.filter isFuncDefB)
        (cHeaders m (refineParamTypes (inferTypes initState m) m))) "")
  obtain ⟨stF, hF, hlF⟩ := cMain_pfx (m.body.filter (fun s => !isFuncDefB s)) st6
  have hpre : (cHeaders m (refineParamTypes (inferTypes initState m) m)).lines <+:
      stF.lines := by
    refine ((cFwdDecls_pfx (m.body.filter isFuncDefB)
      (cHeaders m (refineParamTypes (inferTypes initState m) m))).trans ?_).trans
      (hl6.trans hlF)
    cases he : (m.body.filter isFuncDefB).isEmpty with
    | true => simp [he]
    | false => simpa [he] using emit_pfx (cFwdDecls (m.body.filter isFuncDefB)
        (cHeaders m (refineParamTypes (inferTypes initState m) m))) ""
  rw [hhead] at hpre
  obtain ⟨rest, hrest⟩ := hpre
  refine ⟨stF, rest, ?_, ?_⟩
  · simp only [cGenState, h6, bind, Except.bind]
    exact hF
  · rw [← hrest]
    simp

/-! ## Claim C2: purification of the refinement pass

`generate` runs `_refine_param_types` with `_current_func = None`, in which
state `_infer_expr_type` reads only the globals and return-type tables —
which refinement never writes.  The pass is therefore equivalent to a pure
fold over the parameter tables with all argument types fixed up front. -/

theorem inferExprType_congr (st st' : GenState)
    (hc : st.current_func = none) (hc' : st'.current_func = none)
    (hg : st'.global_types = st.global_types)
    (hr : st'.func_return_types = st.func_return_types) :
    ∀ e, inferExprType st' e = inferExprType st e := by
  intro e
  cases e with
  | const c => rfl
  | name id => simp [inferExprType, typeOfVar, hc, hc', hg]
  | binop op l r =>
      have hl := inferExprType_congr st st' hc hc' hg hr l
      have hr2 := inferExprType_congr st st' hc hc' hg hr r
      simp [inferExprType, hl, hr2]
  | unaryop op o =>
      have ho := inferExprType_congr st st' hc hc' hg hr o
      simp [inferExprType, ho]
  | ifexp t b o =>
      have hb := inferExprType_congr st st' hc hc' hg hr b
      have ho := inferExprType_congr st st' hc hc' hg hr o
      simp [inferExprType, hb, ho]
  | compare l ops cs => rfl
  | boolop op vs => rfl
  | call f args =>
      cases f <;> simp [inferExprType, hr]
  | subscript v s =>
      cases v <;> simp [inferExprType, typeOfVar, hc, hc', hg]

theorem refineArgStep_congr (fname n : String) (a : Expr) (st : GenState)
    (h : st.current_func = none) :
    inferExprType (refineArgStep fname n a st) = inferExprType st :=
  funext (inferExprType_congr st (refineArgStep fname n a st) h h rfl rfl)

theorem refineArgsLoop_pure (fname : String) :
    ∀ (ns : List String) (as_ : List Expr) (st : GenState),
    st.current_func = none →
    refineArgsLoop fname ns as_ st =
      { st with func_param_types :=
          keyedLoop fname st.func_param_types ns (as_.map (inferExprType st)) } := by
  intro ns
  induction ns with
  | nil => intro as_ st h; cases as_ <;> rfl
  | cons n ns ih =>
      intro as_ st h
      cases as_ with
      | nil => rfl
      | cons a rest =>
          simp only [refineArgsLoop, List.map_cons]
          rw [ih rest (refineArgStep fname n a st) h]
          rw [refineArgStep_congr fname n a st h]
          simp only [keyedLoop]
          rfl

theorem refineOneCall_name_pure (st : GenState) (h : st.current_func = none)
    (fname : String) (args : List Expr) :
    refineOneCall st (.name fname, args) =
      { st with func_param_types :=
          refineCallPure st.func_param_types fname (args.map (inferExprType st)) } := by
  simp only [refineOneCall, refineCallPure]
  cases hf : alookup st.func_param_types fname with
  | none => rfl
  | some ptypes => exact refineArgsLoop_pure fname (ptypes.map Prod.fst) args st h

theorem refineFold_pure (cs : List (Expr × List Expr)) :
    ∀ st : GenState, st.current_func = none →
    cs.foldl refineOneCall st =
      { st with func_param_types :=
          (pureCallsList st cs).foldl refinePureStep st.func_param_types } := by
  induction cs with
  | nil => intro st h; rfl
  | cons c rest ih =>
      intro st h
      obtain ⟨fe, args⟩ := c
      cases fe with
      | name fname =>
          simp only [List.foldl_cons]
          rw [refineOneCall_name_pure st h fname args]
          rw [ih { st with func_param_types := refineCallPure st.func_param_types fname (args.map (inferExprType st)) } h]
          have hfun : inferExprType { st with func_param_types := refineCallPure st.func_param_types fname (args.map (inferExprType st)) } = inferExprType st :=
            funext (inferExprType_congr st _ h h rfl rfl)
          simp only [pureCallsList, List.filterMap_cons, hfun]
          rfl
      | const c => exact ih st h
      | binop op l r => exact ih st h
      | unaryop op o => exact ih st h
      | ifexp a b c => exact ih st h
      | compare l ops cs2 => exact ih st h
      | boolop op vs => exact ih st h
      | call f2 a2 => exact ih st h
      | subscript v s => exact ih st h

theorem keysGetD_eq_of_shape {fpt1 fpt2 : List (String × List (String × Ty))}
    (g : String)
    (h : (alookup fpt2 g).map (List.map Prod.fst) =
      (alookup fpt1 g).map (List.map Prod.fst)) :
    ((alookup fpt2 g).getD []).map Prod.fst = ((alookup fpt1 g).getD []).map Prod.fst := by
  cases h1 : alookup fpt1 g <;> cases h2 : alookup fpt2 g <;>
    rw [h1, h2] at h <;> simpa using h

theorem keyedStep_shape (fname n : String) (t : Ty)
    (fpt : List (String × List (String × Ty)))
    (hn : n ∈ ((alookup fpt fname).getD []).map Prod.fst) (g : String) :
    (alookup (keyedStep fname n t fpt) g).map (List.map Prod.fst) =
      (alookup fpt g).map (List.map Prod.fst) := by
  cases hf : alookup fpt fname with
  | none => rw [hf] at hn; simp at hn
  | some tbl =>
      rw [hf] at hn
      simp only [Option.getD_some] at hn
      simp only [keyedStep, hf, Option.getD_some]
      by_cases hg : g = fname
      · subst hg
        rw [alookup_updateAssoc_self, hf]
        simp only [Option.map_some']
        rw [updateAssoc_keys_of_isSome]
        exact (alookup_isSome_iff_mem tbl n).mpr hn
      · rw [alookup_updateAssoc_ne _ _ _ _ hg]

theorem keyedStep_mono (fname n : String) (t : Ty)
    (fpt : List (String × List (String × Ty))) (f p : String) :
    tyLe (paramTyIn fpt f p) (paramTyIn (keyedStep fname n t fpt) f p) := by
  unfold paramTyIn keyedStep
  by_cases hf : f = fname
  · subst hf
    simp only [alookup_updateAssoc_self, Option.getD_some]
    by_cases hp : p = n
    · subst hp
      simp only [alookup_updateAssoc_self, Option.getD_some]
      exact tyLe_merge_left _ _
    · simp only [alookup_updateAssoc_ne _ _ _ _ hp]
      exact tyLe_refl _
  · simp only [alookup_updateAssoc_ne _ _ _ _ hf]
    exact tyLe_refl _

theorem keyedLoop_shape (fname : String) :
    ∀ (ns : List String) (ts : List Ty) (fpt : List (String × List (String × Ty))),
    (∀ x ∈ ns, x ∈ ((alookup fpt fname).getD []).map Prod.fst) →
    ∀ g, (alookup (keyedLoop fname fpt ns ts) g).map (List.map Prod.fst) =
      (alookup fpt g).map (List.map Prod.fst) := by
  intro ns
  induction ns with
  | nil => intro ts fpt hns g; cases ts <;> rfl
  | cons n ns ih =>
      intro ts fpt hns g
      cases ts with
      | nil => rfl
      | cons t ts =>
          simp only [keyedLoop]
          have hn := hns n (by simp)
          have hstep := keyedStep_shape fname n t fpt hn
          have hns' : ∀ x ∈ ns,
              x ∈ ((alookup (keyedStep fname n t fpt) fname).getD []).map Prod.fst := by
            intro x hx
            rw [keysGetD_eq_of_shape fname (hstep fname)]
            exact hns x (by simp [hx])
          rw [ih ts (keyedStep fname n t fpt) hns' g, hstep g]

theorem keyedLoop_mono (fname : String) :
    ∀ (ns : List String) (ts : List Ty) (fpt : List (String × List (String × Ty)))
      (f p : String),
    tyLe (paramTyIn fpt f p) (paramTyIn (keyedLoop fname fpt ns ts) f p) := by
  intro ns
  induction ns with
  | nil => intro ts fpt f p; cases ts <;> exact tyLe_refl _
  | cons n ns ih =>
      intro ts fpt f p
      cases ts with
      | nil => exact tyLe_refl _
      | cons t ts =>
          simp only [keyedLoop]
          exact tyLe_trans (keyedStep_mono fname n t fpt f p)
            (ih ts (keyedStep fname n t fpt) f p)

theorem keyedLoop_absorbed_id (fname : String) :
    ∀ (ns : List String) (ts : List Ty) (fpt : List (String × List (String × Ty))),
    callAbsorbed fpt fname ns ts → keyedLoop fname fpt ns ts = fpt := by
  intro ns
  induction ns with
  | nil => intro ts fpt h; cases ts <;> rfl
  | cons n ns ih =>
      intro ts fpt h
      cases ts with
      | nil => rfl
      | cons t ts =>
          obtain ⟨⟨tbl, cur, hfpt, htbl, hmerge⟩, htail⟩ := h
          have hstep : keyedStep fname n t fpt = fpt := by
            unfold keyedStep
            rw [hfpt]
            simp only [Option.getD_some, htbl]
            rw [hmerge, updateAssoc_self tbl n cur htbl,
              updateAssoc_self fpt fname tbl hfpt]
          simp only [keyedLoop, hstep]
          exact ih ts fpt htail

theorem callAbsorbed_stable {fpt1 fpt2 : List (String × List (String × Ty))}
    (fname : String)
    (hshape : ∀ g, (alookup fpt2 g).map (List.map Prod.fst) =
      (alookup fpt1 g).map (List.map Prod.fst))
    (hmono : ∀ f p, tyLe (paramTyIn fpt1 f p) (paramTyIn fpt2 f p)) :
    ∀ (ns : List String) (ts : List Ty),
    callAbsorbed fpt1 fname ns ts → callAbsorbed fpt2 fname ns ts := by
  intro ns
  induction ns with
  | nil => intro ts h; cases ts <;> trivial
  | cons n ns ih =>
      intro ts h
      cases ts with
      | nil => trivial
      | cons t ts =>
          obtain ⟨⟨tbl, cur, hfpt, htbl, hmerge⟩, htail⟩ := h
          refine ⟨?_, ih ts htail⟩
          have hsh := hshape fname
          rw [hfpt] at hsh
          cases h2 : alookup fpt2 fname with
          | none => rw [h2] at hsh; simp at hsh
          | some tbl2 =>
              rw [h2] at hsh
              simp only [Option.map_some', Option.some_inj] at hsh
              have hmem : n ∈ tbl.map Prod.fst :=
                (alookup_isSome_iff_mem tbl n).mp (by simp [htbl])
              have hmem2 : n ∈ tbl2.map Prod.fst := by rw [hsh]; exact hmem
              have hsome2 := (alookup_isSome_iff_mem tbl2 n).mpr hmem2
              cases h3 : alookup tbl2 n with
              | none => rw [h3] at hsome2; simp at hsome2
              | some cur2 =>
                  refine ⟨tbl2, cur2, rfl, h3, ?_⟩
                  have hv1 : paramTyIn fpt1 fname n = cur := by
                    unfold paramTyIn
                    rw [hfpt]
                    simp [htbl]
                  have hv2 : paramTyIn fpt2 fname n = cur2 := by
                    unfold paramTyIn
                    rw [h2]
                    simp [h3]
                  have hcc : tyLe cur cur2 := by
                    have := hmono fname n
                    rwa [hv1, hv2] at this
                  have htc : tyLe t cur := by
                    unfold tyLe
                    rw [mergeTypes_comm]
                    exact hmerge
                  have htc2 : tyLe t cur2 := tyLe_trans htc hcc
                  rw [mergeTypes_comm]
                  exact htc2

theorem keyedLoop_absorbs (fname : String) :
    ∀ (ns : List String) (ts : List Ty) (fpt : List (String × List (String × Ty))),
    (∀ x ∈ ns, x ∈ ((alookup fpt fname).getD []).map Prod.fst) →
    callAbsorbed (keyedLoop fname fpt ns ts) fname ns ts := by
  intro ns
  induction ns with
  | nil => intro ts fpt hns; cases ts <;> trivial
  | cons n ns ih =>
      intro ts fpt hns
      cases ts with
      | nil => trivial
      | cons t ts =>
          have hn := hns n (by simp)
          have hsome : (alookup fpt fname).isSome := by
            cases hf : alookup fpt fname with
            | none => rw [hf] at hn; simp at hn
            | some tbl => simp
          cases hf : alookup fpt fname with
          | none => rw [hf] at hsome; simp at hsome
          | some tbl =>
              rw [hf] at hn
              simp only [Option.getD_some] at hn
              have hstep := keyedStep_shape fname n t fpt (by rw [hf]; simpa using hn)
              have hns' : ∀ x ∈ ns,
                  x ∈ ((alookup (keyedStep fname n t fpt) fname).getD []).map Prod.fst := by
                intro x hx
                rw [keysGetD_eq_of_shape fname (hstep fname)]
                exact hns x (by simp [hx])
              simp only [keyedLoop]
              refine ⟨?_, ih ts (keyedStep fname n t fpt) hns'⟩
              -- the head contribution is recorded at `keyedStep` and only grows
              have hval1 : paramTyIn (keyedStep fname n t fpt) fname n =
                  mergeTypes ((alookup tbl n).getD Ty.tint) t := by
                unfold paramTyIn keyedStep
                rw [hf]
                simp [alookup_updateAssoc_self]
              have hshF := keyedLoop_shape fname ns ts (keyedStep fname n t fpt) hns'
              have hmonoF := keyedLoop_mono fname ns ts (keyedStep fname n t fpt)
              -- find the entry at the final table
              have hsh1 : (alookup (keyedStep fname n t fpt) fname).map (List.map Prod.fst) =
                  (alookup fpt fname).map (List.map Prod.fst) := hstep fname
              cases h2 : alookup (keyedLoop fname (keyedStep fname n t fpt) ns ts) fname with
              | none =>
                  exfalso
                  have := hshF fname
                  rw [h2, hsh1, hf] at this
                  simp at this
              | some tblF =>
                  have hkeysF : tblF.map Prod.fst = tbl.map Prod.fst := by
                    have := hshF fname
                    rw [h2, hsh1, hf] at this
                    simpa using this
                  have hmemF : n ∈ tblF.map Prod.fst := by rw [hkeysF]; exact hn
                  have hsomeF := (alookup_isSome_iff_mem tblF n).mpr hmemF
                  cases h3 : alookup tblF n with
                  | none => rw [h3] at hsomeF; simp at hsomeF
                  | some curF =>
                      refine ⟨tblF, curF, rfl, h3, ?_⟩
                      have hvF : paramTyIn
                          (keyedLoop fname (keyedStep fname n t fpt) ns ts) fname n = curF := by
                        unfold paramTyIn
                        rw [h2]
                        simp [h3]
                      have hgrow : tyLe (mergeTypes ((alookup tbl n).getD Ty.tint) t) curF := by
                        have := hmonoF fname n
                        rwa [hval1, hvF] at this
                      have htc : tyLe t curF :=
                        tyLe_trans (tyLe_merge_right _ _) hgrow
                      rw [mergeTypes_comm]
                      exact htc

theorem refinePureStep_shape (fpt : List (String × List (String × Ty)))
    (c : String × List Ty) (g : String) :
    (alookup (refinePureStep fpt c) g).map (List.map Prod.fst) =
      (alookup fpt g).map (List.map Prod.fst) := by
  unfold refinePureStep refineCallPure
  cases hf : alookup fpt c.1 with
  | none => rfl
  | some tbl =>
      refine keyedLoop_shape c.1 (tbl.map Prod.fst) c.2 fpt ?_ g
      intro x hx
      rw [hf]
      simpa using hx

theorem refinePureStep_mono (fpt : List (String × List (String × Ty)))
    (c : String × List Ty) (f p : String) :
    tyLe (paramTyIn fpt f p) (paramTyIn (refinePureStep fpt c) f p) := by
  unfold refinePureStep refineCallPure
  cases hf : alookup fpt c.1 with
  | none => exact tyLe_refl _
  | some tbl => exact keyedLoop_mono c.1 (tbl.map Prod.fst) c.2 fpt f p

theorem refineFoldPure_shape (L : List (String × List Ty)) :
    ∀ (fpt : List (String × List (String × Ty))) (g : String),
    (alookup (L.foldl refinePureStep fpt) g).map (List.map Prod.fst) =
      (alookup fpt g).map (List.map Prod.fst) := by
  induction L with
  | nil => intro fpt g; rfl
  | cons c rest ih =>
      intro fpt g
      simp only [List.foldl_cons]
      rw [ih (refinePureStep fpt c) g, refinePureStep_shape fpt c g]

theorem refineFoldPure_mono (L : List (String × List Ty)) :
    ∀ (fpt : List (String × List (String × Ty))) (f p : String),
    tyLe (paramTyIn fpt f p) (paramTyIn (L.foldl refinePureStep fpt) f p) := by
  induction L with
  | nil => intro fpt f p; exact tyLe_refl _
  | cons c rest ih =>
      intro fpt f p
      simp only [List.foldl_cons]
      exact tyLe_trans (refinePureStep_mono fpt c f p) (ih (refinePureStep fpt c) f p)

theorem refinePureStep_eq_of_lookup (fpt : List (String × List (String × Ty)))
    (c : String × List Ty) (tbl : List (String × Ty))
    (h : alookup fpt c.1 = some tbl) :
    refinePureStep fpt c = keyedLoop c.1 fpt (tbl.map Prod.fst) c.2 := by
  unfold refinePureStep refineCallPure
  rw [h]

theorem refinePureStep_absorbed_id (fpt : List (String × List (String × Ty)))
    (c : String × List Ty) (h : stepAbsorbed fpt c) : refinePureStep fpt c = fpt := by
  unfold refinePureStep refineCallPure
  cases hf : alookup fpt c.1 with
  | none => rfl
  | some tbl => exact keyedLoop_absorbed_id c.1 (tbl.map Prod.fst) c.2 fpt (h tbl hf)

theorem foldPure_absorbs (L : List (String × List Ty))
    (fpt : List (String × List (String × Ty))) (c : String × List Ty) (hc : c ∈ L) :
    stepAbsorbed (L.foldl refinePureStep fpt) c := by
  obtain ⟨L1, L2, rfl⟩ := List.append_of_mem hc
  rw [List.foldl_append, List.foldl_cons]
  intro tbl' hl'
  cases hT1 : alookup (L1.foldl refinePureStep fpt) c.1 with
  | none =>
      exfalso
      have hsh := refineFoldPure_shape L2
        (refinePureStep (L1.foldl refinePureStep fpt) c) c.1
      rw [hl', refinePureStep_shape _ c c.1, hT1] at hsh
      simp at hsh
  | some tbl1 =>
      have hstep : refinePureStep (L1.foldl refinePureStep fpt) c =
          keyedLoop c.1 (L1.foldl refinePureStep fpt) (tbl1.map Prod.fst) c.2 :=
        refinePureStep_eq_of_lookup _ c tbl1 hT1
      have habs1 : callAbsorbed (refinePureStep (L1.foldl refinePureStep fpt) c)
          c.1 (tbl1.map Prod.fst) c.2 := by
        rw [hstep]
        refine keyedLoop_absorbs c.1 (tbl1.map Prod.fst) c.2 _ ?_
        intro x hx
        rw [hT1]
        simpa using hx
      have habs2 : callAbsorbed
          (L2.foldl refinePureStep (refinePureStep (L1.foldl refinePureStep fpt) c))
          c.1 (tbl1.map Prod.fst) c.2 :=
        callAbsorbed_stable c.1 (refineFoldPure_shape L2 _)
          (refineFoldPure_mono L2 _) (tbl1.map Prod.fst) c.2 habs1
      have hkeys : tbl'.map Prod.fst = tbl1.map Prod.fst := by
        have hsh := refineFoldPure_shape L2
          (refinePureStep (L1.foldl refinePureStep fpt) c) c.1
        rw [hl', refinePureStep_shape _ c c.1, hT1] at hsh
        simpa using hsh
      rw [hkeys]
      exact habs2

theorem foldPure_absorbed_id (L : List (String × List Ty)) :
    ∀ fpt : List (String × List (String × Ty)),
    (∀ c ∈ L, stepAbsorbed fpt c) → L.foldl refinePureStep fpt = fpt := by
  induction L with
  | nil => intro fpt h; rfl
  | cons c rest ih =>
      intro fpt h
      simp only [List.foldl_cons]
      rw [refinePureStep_absorbed_id fpt c (h c (by simp))]
      exact ih fpt (fun c' hc' => h c' (by simp [hc']))

theorem pureCallsList_congr (st st' : GenState)
    (h : inferExprType st' = inferExprType st) (cs : List (Expr × List Expr)) :
    pureCallsList st' cs = pureCallsList st cs := by
  unfold pureCallsList
  rw [h]

theorem foldPure_idem (L : List (String × List Ty))
    (fpt : List (String × List (String × Ty))) :
    L.foldl refinePureStep (L.foldl refinePureStep fpt) = L.foldl refinePureStep fpt :=
  foldPure_absorbed_id L _ (fun c hc => foldPure_absorbs L fpt c hc)

/-- C2: one refinement pass after inference reaches a fixpoint: running the
call-site refinement a second time returns the state unchanged — in
particular no parameter type in any function's parameter table changes. -/
theorem c2_refinement_fixpoint (m : Module) :
    refineParamTypes (refineParamTypes (inferTypes initState m) m) m =
      refineParamTypes (inferTypes initState m) m := by
  have hcf : (inferTypes initState m).current_func = none := by
    simpa [inferTypes, initState] using (inferStmtList_fields initState m.body).2.2.2
  unfold refineParamTypes
  rw [refineFold_pure (callsOfModule m) (inferTypes initState m) hcf]
  rw [refineFold_pure (callsOfModule m) { inferTypes initState m with func_param_types := (pureCallsList (inferTypes initState m) (callsOfModule m)).foldl refinePureStep (inferTypes initState m).func_param_types } hcf]
  have hfun : inferExprType { inferTypes initState m with func_param_types := (pureCallsList (inferTypes initState m) (callsOfModule m)).foldl refinePureStep (inferTypes initState m).func_param_types } = inferExprType (inferTypes initState m) :=
    funext (inferExprType_congr (inferTypes initState m) _ hcf hcf rfl rfl)
  rw [pureCallsList_congr (inferTypes initState m) _ hfun (callsOfModule m)]
  exact congrArg (fun x => { inferTypes initState m with func_param_types := x }) (foldPure_idem (pureCallsList (inferTypes initState m) (callsOfModule m)) (inferTypes initState m).func_param_types)

/-! ## Claim C3 -/

theorem refineArgsLoop_mono (fname : String) :
    ∀ (ns : List String) (as_ : List Expr) (st : GenState) (f p : String),
    tyLe (paramTypeAt st f p) (paramTypeAt (refineArgsLoop fname ns as_ st) f p) := by
  intro ns
  induction ns with
  | nil => intro as_ st f p; simp [refineArgsLoop, tyLe_refl]
  | cons n ns ih =>
      intro as_ st f p
      cases as_ with
      | nil => simp [refineArgsLoop, tyLe_refl]
      | cons a rest =>
          simp only [refineArgsLoop]
          refine tyLe_trans ?_ (ih rest _ f p)
          unfold paramTypeAt
          simp only [refineArgStep]
          by_cases hf : f = fname
          · subst hf
            simp only [alookup_updateAssoc_self]
            by_cases hp : p = n
            · subst hp
              simp only [Option.getD_some, alookup_updateAssoc_self]
              exact tyLe_merge_left _ _
            · simp only [Option.getD_some, alookup_updateAssoc_ne _ _ _ _ hp]
              exact tyLe_refl _
          · simp only [alookup_updateAssoc_ne _ _ _ _ hf]
            exact tyLe_refl _

theorem refineOneCall_mono (st : GenState) (c : Expr × List Expr) (f p : String) :
    tyLe (paramTypeAt st f p) (paramTypeAt (refineOneCall st c) f p) := by
  obtain ⟨fe, args⟩ := c
  cases fe with
  | name fname =>
      simp only [refineOneCall]
      cases alookup st.func_param_types fname with
      | none => exact tyLe_refl _
      | some ptypes => exact refineArgsLoop_mono fname (ptypes.map Prod.fst) args st f p
  | const c => exact tyLe_refl _
  | binop op l r => exact tyLe_refl _
  | unaryop op o => exact tyLe_refl _
  | ifexp a b c => exact tyLe_refl _
  | compare l ops cs => exact tyLe_refl _
  | boolop op vs => exact tyLe_refl _
  | call f2 a2 => exact tyLe_refl _
  | subscript v s => exact tyLe_refl _

theorem refineFold_mono (cs : List (Expr × List Expr)) :
    ∀ (st : GenState) (f p : String),
    tyLe (paramTypeAt st f p) (paramTypeAt (cs.foldl refineOneCall st) f p) := by
  induction cs with
  | nil => intro st f p; exact tyLe_refl _
  | cons c rest ih =>
      intro st f p
      exact tyLe_trans (refineOneCall_mono st c f p) (ih (refineOneCall st c) f p)

/-- C3: inference followed by call-site refinement never loses type
information.  For every module, every function parameter's recorded type
after inference-then-refinement is ⊒ (in `INT ⊑ FLOAT`) its type after
inference alone, and refinement leaves the global, local and return tables
(hence every other recorded name) exactly unchanged — so no type ever moves
from FLOAT back to INT. -/
theorem c3_refinement_monotone (m : Module) (f p : String) :
    tyLe (paramTypeAt (inferTypes initState m) f p)
      (paramTypeAt (refineParamTypes (inferTypes initState m) m) f p) ∧
    (refineParamTypes (inferTypes initState m) m).global_types =
      (inferTypes initState m).global_types ∧
    (refineParamTypes (inferTypes initState m) m).func_local_types =
      (inferTypes initState m).func_local_types ∧
    (refineParamTypes (inferTypes initState m) m).func_return_types =
      (inferTypes initState m).func_return_types := by
  refine ⟨refineFold_mono (callsOfModule m) (inferTypes initState m) f p, ?_, ?_, ?_⟩
  · exact (refineParamTypes_fields _ _).2.2.2.2.1
  · exact (refineParamTypes_fields _ _).2.2.2.2.2.2
  · exact (refineParamTypes_fields _ _).2.2.2.2.2.1

/-! ## Claim C7: the Metal backend rejects `print` -/

mutual

theorem metalExpr_total (st : GenState) (e : Expr) :
    okOrPrintErr (genExpr .metal st e) := by
  cases e with
  | const c => exact Or.inl ⟨_, rfl⟩
  | name id => exact Or.inl ⟨_, rfl⟩
  | binop op l r =>
      rcases metalExpr_total st l with ⟨vl, hl⟩ | hl
      · rcases metalExpr_total st r with ⟨vr, hr⟩ | hr
        · cases op <;> simp only [genExpr, hl, hr, bind, Except.bind] <;>
            first
              | exact Or.inl ⟨_, rfl⟩
              | (split_ifs <;> exact Or.inl ⟨_, rfl⟩)
        · simp only [genExpr, hl, hr, bind, Except.bind]
          exact Or.inr rfl
      · simp only [genExpr, hl, bind, Except.bind]
        exact Or.inr rfl
  | unaryop op o =>
      rcases metalExpr_total st o with ⟨vo, ho⟩ | ho
      · cases op <;> simp only [genExpr, ho, bind, Except.bind] <;>
          exact Or.inl ⟨_, rfl⟩
      · simp only [genExpr, ho, bind, Except.bind]
        exact Or.inr rfl
  | ifexp t b o =>
      rcases metalExpr_total st t with ⟨vt, ht⟩ | ht
      · rcases metalExpr_total st b with ⟨vb, hb⟩ | hb
        · rcases metalExpr_total st o with ⟨vo, ho⟩ | ho
          · simp only [genExpr, ht, hb, ho, bind, Except.bind]
            exact Or.inl ⟨_, rfl⟩
          · simp only [genExpr, ht, hb, ho, bind, Except.bind]
            exact Or.inr rfl
        · simp only [genExpr, ht, hb, bind, Except.bind]
          exact Or.inr rfl
      · simp only [genExpr, ht, bind, Except.bind]
        exact Or.inr rfl
  | compare l ops cs =>
      rcases metalExpr_total st l with ⟨vl, hl⟩ | hl
      · rcases metalCompareParts_total st ops cs with ⟨vs, hs⟩ | hs
        · simp only [genExpr, hl, hs, bind, Except.bind]
          exact Or.inl ⟨_, rfl⟩
        · simp only [genExpr, hl, hs, bind, Except.bind]
          exact Or.inr rfl
      · simp only [genExpr, hl, bind, Except.bind]
        exact Or.inr rfl
  | boolop op vs =>
      rcases metalExprList_total st vs with ⟨ps, hp⟩ | hp
      · simp only [genExpr, hp, bind, Except.bind]
        exact Or.inl ⟨_, rfl⟩
      · simp only [genExpr, hp, bind, Except.bind]
        exact Or.inr rfl
  | call f args =>
      cases f with
      | name fid =>
          by_cases hprn : fid = "print"
          · subst hprn
            exact Or.inr rfl
          · rcases metalExprList_total st args with ⟨ps, hp⟩ | hp
            · simp only [genExpr, hp, bind, Except.bind, if_neg hprn]
              exact Or.inl ⟨_, rfl⟩
            · simp only [genExpr, hp, bind, Except.bind, if_neg hprn]
              exact Or.inr rfl
      | const c =>
          rcases metalExpr_total st (.const c) with ⟨vf, hf⟩ | hf
          · rcases metalExprList_total st args with ⟨ps, hp⟩ | hp
            · rw [genExpr_call_nonname .metal st _ args trivial]
              simp only [hf, hp, bind, Except.bind]
              exact Or.inl ⟨_, rfl⟩
            · rw [genExpr_call_nonname .metal st _ args trivial]
              simp only [hf, hp, bind, Except.bind]
              exact Or.inr rfl
          · rw [genExpr_call_nonname .metal st _ args trivial]
            simp only [hf, bind, Except.bind]
            exact Or.inr rfl
      | binop op l r =>
          rcases metalExpr_total st (.binop op l r) with ⟨vf, hf⟩ | hf
          · rcases metalExprList_total st args with ⟨ps, hp⟩ | hp
            · rw [genExpr_call_nonname .metal st _ args trivial]
              simp only [hf, hp, bind, Except.bind]
              exact Or.inl ⟨_, rfl⟩
            · rw [genExpr_call_nonname .metal st _ args trivial]
              simp only [hf, hp, bind, Except.bind]
              exact Or.inr rfl
          · rw [genExpr_call_nonname .metal st _ args trivial]
            simp only [hf, bind, Except.bind]
            exact Or.inr rfl
      | unaryop op o =>
          rcases metalExpr_total st (.unaryop op o) with ⟨vf, hf⟩ | hf
          · rcases metalExprList_total st args with ⟨ps, hp⟩ | hp
            · rw [genExpr_call_nonname .metal st _ args trivial]
              simp only [hf, hp, bind, Except.bind]
              exact Or.inl ⟨_, rfl⟩
            · rw [genExpr_call_nonname .metal st _ args trivial]
              simp only [hf, hp, bind, Except.bind]
              exact Or.inr rfl
          · rw [genExpr_call_nonname .metal st _ args trivial]
            simp only [hf, bind, Except.bind]
            exact Or.inr rfl
      | ifexp a b c =>
          rcases metalExpr_total st (.ifexp a b c) with ⟨vf, hf⟩ | hf
          · rcases metalExprList_total st args with ⟨ps, hp⟩ | hp
            · rw [genExpr_call_nonname .metal st _ args trivial]
              simp only [hf, hp, bind, Except.bind]
              exact Or.inl ⟨_, rfl⟩
            · rw [genExpr_call_nonname .metal st _ args trivial]
              simp only [hf, hp, bind, Except.bind]
              exact Or.inr rfl
          · rw [genExpr_call_nonname .metal st _ args trivial]
            simp only [hf, bind, Except.bind]
            exact Or.inr rfl
      | compare l ops cs =>
          rcases metalExpr_total st (.compare l ops cs) with ⟨vf, hf⟩ | hf
          · rcases metalExprList_total st args with ⟨ps, hp⟩ | hp
            · rw [genExpr_call_nonname .metal st _ args trivial]
              simp only [hf, hp, bind, Except.bind]
              exact Or.inl ⟨_, rfl⟩
            · rw [genExpr_call_nonname .metal st _ args trivial]
              simp only [hf, hp, bind, Except.bind]
              exact Or.inr rfl
          · rw [genExpr_call_nonname .metal st _ args trivial]
            simp only [hf, bind, Except.bind]
            exact Or.inr rfl
      | boolop op vs =>
          rcases metalExpr_total st (.boolop op vs) with ⟨vf, hf⟩ | hf
          · rcases metalExprList_total st args with ⟨ps, hp⟩ | hp
            · rw [genExpr_call_nonname .metal st _ args trivial]
              simp only [hf, hp, bind, Except.bind]
              exact Or.inl ⟨_, rfl⟩
            · rw [genExpr_call_nonname .metal st _ args trivial]
              simp only [hf, hp, bind, Except.bind]
              exact Or.inr rfl
          · rw [genExpr_call_nonname .metal st _ args trivial]
            simp only [hf, bind, Except.bind]
            exact Or.inr rfl
      | call f2 a2 =>
          rcases metalExpr_total st (.call f2 a2) with ⟨vf, hf⟩ | hf
          · rcases metalExprList_total st args with ⟨ps, hp⟩ | hp
            · rw [genExpr_call_nonname .metal st _ args trivial]
              simp only [hf, hp, bind, Except.bind]
              exact Or.inl ⟨_, rfl⟩
            · rw [genExpr_call_nonname .metal st _ args trivial]
              simp only [hf, hp, bind, Except.bind]
              exact Or.inr rfl
          · rw [genExpr_call_nonname .metal st _ args trivial]
            simp only [hf, bind, Except.bind]
            exact Or.inr rfl
      | subscript v s =>
          rcases metalExpr_total st (.subscript v s) with ⟨vf, hf⟩ | hf
          · rcases metalExprList_total st args with ⟨ps, hp⟩ | hp
            · rw [genExpr_call_nonname .metal st _ args trivial]
              simp only [hf, hp, bind, Except.bind]
              exact Or.inl ⟨_, rfl⟩
            · rw [genExpr_call_nonname .metal st _ args trivial]
              simp only [hf, hp, bind, Except.bind]
              exact Or.inr rfl
          · rw [genExpr_call_nonname .metal st _ args trivial]
            simp only [hf, bind, Except.bind]
            exact Or.inr rfl
  | subscript v s =>
      rcases metalExpr_total st v with ⟨vv, hv⟩ | hv
      · rcases metalExpr_total st s with ⟨vs, hs⟩ | hs
        · simp only [genExpr, hv, hs, bind, Except.bind]
          exact Or.inl ⟨_, rfl⟩
        · simp only [genExpr, hv, hs, bind, Except.bind]
          exact Or.inr rfl
      · simp only [genExpr, hv, bind, Except.bind]
        exact Or.inr rfl

theorem metalCompareParts_total (st : GenState) (ops : List CmpOpKind)
    (cs : List Expr) : okOrPrintErr (genCompareParts .metal st ops cs) := by
  cases cs with
  | nil => cases ops <;> exact Or.inl ⟨_, rfl⟩
  | cons c rest =>
      cases ops with
      | nil => exact Or.inl ⟨_, rfl⟩
      | cons op ops2 =>
          rcases metalExpr_total st c with ⟨vc, hc⟩ | hc
          · rcases metalCompareParts_total st ops2 rest with ⟨vr, hr⟩ | hr
            · simp only [genCompareParts, hc, hr, bind, Except.bind]
              exact Or.inl ⟨_, rfl⟩
            · simp only [genCompareParts, hc, hr, bind, Except.bind]
              exact Or.inr rfl
          · simp only [genCompareParts, hc, bind, Except.bind]
            exact Or.inr rfl

theorem metalExprList_total (st : GenState) (es : List Expr) :
    okOrPrintErr (genExprList .metal st es) := by
  cases es with
  | nil => exact Or.inl ⟨_, rfl⟩
  | cons e rest =>
      rcases metalExpr_total st e with ⟨ve, he⟩ | he
      · rcases metalExprList_total st rest with ⟨vr, hr⟩ | hr
        · simp only [genExprList, he, hr, bind, Except.bind]
          exact Or.inl ⟨_, rfl⟩
        · simp only [genExprList, he, hr, bind, Except.bind]
          exact Or.inr rfl
      · simp only [genExprList, he, bind, Except.bind]
        exact Or.inr rfl

end

theorem metalTarget_total (st : GenState) (t : Expr) :
    okOrPrintErr (genTarget .metal st t) := by
  cases t with
  | name id => exact Or.inl ⟨_, rfl⟩
  | subscript v s =>
      rcases metalExpr_total st v with ⟨vv, hv⟩ | hv
      · rcases metalExpr_total st s with ⟨vs, hs⟩ | hs
        · simp only [genTarget, hv, hs, bind, Except.bind]
          exact Or.inl ⟨_, rfl⟩
        · simp only [genTarget, hv, hs, bind, Except.bind]
          exact Or.inr rfl
      · simp only [genTarget, hv, bind, Except.bind]
        exact Or.inr rfl
  | const c => exact Or.inl ⟨_, rfl⟩
  | binop op l r => exact Or.inl ⟨_, rfl⟩
  | unaryop op o => exact Or.inl ⟨_, rfl⟩
  | ifexp a b c => exact Or.inl ⟨_, rfl⟩
  | compare l ops cs => exact Or.inl ⟨_, rfl⟩
  | boolop op vs => exact Or.inl ⟨_, rfl⟩
  | call f args => exact Or.inl ⟨_, rfl⟩

theorem metalAssignTargets_total (value : Expr) (ts : List Expr) :
    ∀ st : GenState, okOrPrintErr (genAssignTargets .metal value st ts) := by
  induction ts with
  | nil => intro st; exact Or.inl ⟨_, rfl⟩
  | cons tg rest ih =>
      intro st
      cases tg with
      | name id =>
          rcases metalExpr_total st value with ⟨vv, hv⟩ | hv
          · by_cases hd : id ∈ st.declared_vars
            · simp only [genAssignTargets, hv, bind, Except.bind, if_pos hd]
              exact ih _
            · simp only [genAssignTargets, hv, bind, Except.bind, if_neg hd]
              exact ih _
          · simp only [genAssignTargets, hv, bind, Except.bind]
            exact Or.inr rfl
      | subscript v s =>
          rcases metalExpr_total st (.subscript v s) with ⟨vl, hl⟩ | hl
          · rcases metalExpr_total st value with ⟨vv, hv⟩ | hv
            · simp only [genAssignTargets, hl, hv, bind, Except.bind]
              exact ih _
            · simp only [genAssignTargets, hl, hv, bind, Except.bind]
              exact Or.inr rfl
          · simp only [genAssignTargets, hl, bind, Except.bind]
            exact Or.inr rfl
      | const c => exact ih st
      | binop op l r => exact ih st
      | unaryop op o => exact ih st
      | ifexp a b c => exact ih st
      | compare l ops cs => exact ih st
      | boolop op vs => exact ih st
      | call f args => exact ih st

theorem metalForHead_total (st : GenState) (target iter : Expr) :
    okOrPrintErr (genForHead .metal st target iter) := by
  rcases metalTarget_total st target with ⟨tgt, htgt⟩ | htgt
  · cases iter with
    | call f args =>
        cases f with
        | name fid =>
            by_cases hr : fid = "range"
            · subst hr
              cases args with
              | nil =>
                  simp only [genForHead, htgt, bind, Except.bind, if_pos rfl, if_true]
                  exact Or.inl ⟨_, rfl⟩
              | cons a0 t0 =>
                  cases t0 with
                  | nil =>
                      rcases metalExpr_total st a0 with ⟨v0, h0⟩ | h0
                      · simp only [genForHead, htgt, h0, bind, Except.bind,
                          if_pos rfl, if_true]
                        exact Or.inl ⟨_, rfl⟩
                      · simp only [genForHead, htgt, h0, bind, Except.bind,
                          if_pos rfl, if_true]
                        exact Or.inr rfl
                  | cons a1 t1 =>
                      cases t1 with
                      | nil =>
                          rcases metalExpr_total st a0 with ⟨v0, h0⟩ | h0
                          · rcases metalExpr_total st a1 with ⟨v1, h1⟩ | h1
                            · simp only [genForHead, htgt, h0, h1, bind,
                                Except.bind, if_pos rfl, if_true]
                              exact Or.inl ⟨_, rfl⟩
                            · simp only [genForHead, htgt, h0, h1, bind,
                                Except.bind, if_pos rfl, if_true]
                              exact Or.inr rfl
                          · simp only [genForHead, htgt, h0, bind, Except.bind,
                              if_pos rfl]
                            exact Or.inr rfl
                      | cons a2 t2 =>
                          cases t2 with
                          | nil =>
                              rcases metalExpr_total st a0 with ⟨v0, h0⟩ | h0
                              · rcases metalExpr_total st a1 with ⟨v1, h1⟩ | h1
                                · rcases metalExpr_total st a2 with ⟨v2, h2⟩ | h2
                                  · simp only [genForHead, htgt, h0, h1, h2,
                                      bind, Except.bind, if_pos rfl, if_true]
                                    exact Or.inl ⟨_, rfl⟩
                                  · simp only [genForHead, htgt, h0, h1, h2,
                                      bind, Except.bind, if_pos rfl, if_true]
                                    exact Or.inr rfl
                                · simp only [genForHead, htgt, h0, h1, bind,
                                    Except.bind, if_pos rfl, if_true]
                                  exact Or.inr rfl
                              · simp only [genForHead, htgt, h0, bind,
                                  Except.bind, if_pos rfl, if_true]
                                exact Or.inr rfl
                          | cons a3 t3 =>
                              simp only [genForHead, htgt, bind, Except.bind,
                                if_pos rfl]
                              exact Or.inl ⟨_, rfl⟩
            · simp only [genForHead, htgt, bind, Except.bind, if_neg hr]
              exact Or.inl ⟨_, rfl⟩
        | const c =>
            simp only [genForHead, htgt, bind, Except.bind]
            exact Or.inl ⟨_, rfl⟩
        | binop op l r =>
            simp only [genForHead, htgt, bind, Except.bind]
            exact Or.inl ⟨_, rfl⟩
        | unaryop op o =>
            simp only [genForHead, htgt, bind, Except.bind]
            exact Or.inl ⟨_, rfl⟩
        | ifexp a b c =>
            simp only [genForHead, htgt, bind, Except.bind]
            exact Or.inl ⟨_, rfl⟩
        | compare l ops cs =>
            simp only [genForHead, htgt, bind, Except.bind]
            exact Or.inl ⟨_, rfl⟩
        | boolop op vs =>
            simp only [genForHead, htgt, bind, Except.bind]
            exact Or.inl ⟨_, rfl⟩
        | call f2 a2 =>
            simp only [genForHead, htgt, bind, Except.bind]
            exact Or.inl ⟨_, rfl⟩
        | subscript v s =>
            simp only [genForHead, htgt, bind, Except.bind]
            exact Or.inl ⟨_, rfl⟩
    | const c =>
        simp only [genForHead, htgt, bind, Except.bind]
        exact Or.inl ⟨_, rfl⟩
    | name id =>
        simp only [genForHead, htgt, bind, Except.bind]
        exact Or.inl ⟨_, rfl⟩
    | binop op l r =>
        simp only [genForHead, htgt, bind, Except.bind]
        exact Or.inl ⟨_, rfl⟩
    | unaryop op o =>
        simp only [genForHead, htgt, bind, Except.bind]
        exact Or.inl ⟨_, rfl⟩
    | ifexp a b c =>
        simp only [genForHead, htgt, bind, Except.bind]
        exact Or.inl ⟨_, rfl⟩
    | compare l ops cs =>
        simp only [genForHead, htgt, bind, Except.bind]
        exact Or.inl ⟨_, rfl⟩
    | boolop op vs =>
        simp only [genForHead, htgt, bind, Except.bind]
        exact Or.inl ⟨_, rfl⟩
    | subscript v s =>
        simp only [genForHead, htgt, bind, Except.bind]
        exact Or.inl ⟨_, rfl⟩
  · simp only [genForHead, htgt, bind, Except.bind]
    exact Or.inr rfl

mutual

theorem metalIfElsePath_total (st : GenState) (test : Expr) (body os2 : List Stmt) :
    okOrPrintErr (do
      let t ← genExpr .metal st test
      let st1 := emit st ("if (" ++ t ++ ") \x7b")
      let st2 := { st1 with indent := st1.indent + 1 }
      let st3 ← genStmtList .metal st2 body
      let st4 := { st3 with indent := st3.indent - 1 }
      let st5 := emit st4 "\x7d else \x7b"
      let st6 := { st5 with indent := st5.indent + 1 }
      let st7 ← genStmtList .metal st6 os2
      let st8 := { st7 with indent := st7.indent - 1 }
      pure (emit st8 "\x7d") : Except String GenState) := by
  obtain ⟨vt, ht⟩ | ht := metalExpr_total st test
  · obtain ⟨st3, h3⟩ | h3 := metalStmtList_total
      { emit st ("if (" ++ vt ++ ") \x7b") with
          indent := (emit st ("if (" ++ vt ++ ") \x7b")).indent + 1 } body
    · obtain ⟨st7, h7⟩ | h7 := metalStmtList_total
        { emit { st3 with indent := st3.indent - 1 } "\x7d else \x7b" with
            indent :=
              (emit { st3 with indent := st3.indent - 1 } "\x7d else \x7b").indent + 1 } os2
      · simp only [ht, h3, h7, bind, Except.bind]
        exact Or.inl ⟨_, rfl⟩
      · simp only [ht, h3, h7, bind, Except.bind]
        exact Or.inr rfl
    · simp only [ht, h3, bind, Except.bind]
      exact Or.inr rfl
  · simp only [ht, bind, Except.bind]
    exact Or.inr rfl
termination_by sizeOf test + sizeOf body + sizeOf os2
decreasing_by all_goals (simp_wf <;> (first
  | omega
  | (have hq : 0 < sizeOf test := expr_sizeOf_pos test; omega)))

theorem metalElifElsePath_total (st : GenState) (test : Expr) (body os2 : List Stmt) :
    okOrPrintErr (do
      let t ← genExpr .metal st test
      let st1 := emit st ("\x7d else if (" ++ t ++ ") \x7b")
      let st2 := { st1 with indent := st1.indent + 1 }
      let st3 ← genStmtList .metal st2 body
      let st4 := { st3 with indent := st3.indent - 1 }
      let st5 := emit st4 "\x7d else \x7b"
      let st6 := { st5 with indent := st5.indent + 1 }
      let st7 ← genStmtList .metal st6 os2
      let st8 := { st7 with indent := st7.indent - 1 }
      pure st8 : Except String GenState) := by
  obtain ⟨vt, ht⟩ | ht := metalExpr_total st test
  · obtain ⟨st3, h3⟩ | h3 := metalStmtList_total
      { emit st ("\x7d else if (" ++ vt ++ ") \x7b") with
          indent := (emit st ("\x7d else if (" ++ vt ++ ") \x7b")).indent + 1 } body
    · obtain ⟨st7, h7⟩ | h7 := metalStmtList_total
        { emit { st3 with indent := st3.indent - 1 } "\x7d else \x7b" with
            indent :=
              (emit { st3 with indent := st3.indent - 1 } "\x7d else \x7b").indent + 1 } os2
      · simp only [ht, h3, h7, bind, Except.bind]
        exact Or.inl ⟨_, rfl⟩
      · simp only [ht, h3, h7, bind, Except.bind]
        exact Or.inr rfl
    · simp only [ht, h3, bind, Except.bind]
      exact Or.inr rfl
  · simp only [ht, bind, Except.bind]
    exact Or.inr rfl
termination_by sizeOf test + sizeOf body + sizeOf os2
decreasing_by all_goals (simp_wf <;> (first
  | omega
  | (have hq : 0 < sizeOf test := expr_sizeOf_pos test; omega)))

theorem metalStmt_total (st : GenState) (s : Stmt) :
    okOrPrintErr (genStmt .metal st s) := by
  cases s with
  | assign targets value => exact metalAssignTargets_total value targets st
  | augAssign target op value =>
      obtain ⟨tgt, htgt⟩ | htgt := metalTarget_total st target
      · obtain ⟨vv, hv⟩ | hv := metalExpr_total st value
        · simp only [genStmt, htgt, hv, bind, Except.bind]
          exact Or.inl ⟨_, rfl⟩
        · simp only [genStmt, htgt, hv, bind, Except.bind]
          exact Or.inr rfl
      · simp only [genStmt, htgt, bind, Except.bind]
        exact Or.inr rfl
  | exprStmt e =>
      obtain ⟨v, hv⟩ | hv := metalExpr_total st e
      · simp only [genStmt, hv, bind, Except.bind]
        exact Or.inl ⟨_, rfl⟩
      · simp only [genStmt, hv, bind, Except.bind]
        exact Or.inr rfl
  | ifStmt test body orelse =>
      cases orelse with
      | nil =>
          obtain ⟨vt, ht⟩ | ht := metalExpr_total st test
          · obtain ⟨st3, h3⟩ | h3 := metalStmtList_total
              { emit st ("if (" ++ vt ++ ") \x7b") with
                  indent := (emit st ("if (" ++ vt ++ ") \x7b")).indent + 1 } body
            · simp only [genStmt, ht, h3, bind, Except.bind]
              exact Or.inl ⟨_, rfl⟩
            · simp only [genStmt, ht, h3, bind, Except.bind]
              exact Or.inr rfl
          · simp only [genStmt, ht, bind, Except.bind]
            exact Or.inr rfl
      | cons o1 os =>
          cases os with
          | nil =>
              cases o1 with
              | ifStmt t2 b2 o2 =>
                  obtain ⟨vt, ht⟩ | ht := metalExpr_total st test
                  · obtain ⟨st3, h3⟩ | h3 := metalStmtList_total
                      { emit st ("if (" ++ vt ++ ") \x7b") with
                          indent := (emit st ("if (" ++ vt ++ ") \x7b")).indent + 1 } body
                    · obtain ⟨st5, h5⟩ | h5 := metalElifChain_total
                        { st3 with indent := st3.indent - 1 } (.ifStmt t2 b2 o2)
                      · simp only [genStmt, ht, h3, h5, bind, Except.bind]
                        exact Or.inl ⟨_, rfl⟩
                      · simp only [genStmt, ht, h3, h5, bind, Except.bind]
                        exact Or.inr rfl
                    · simp only [genStmt, ht, h3, bind, Except.bind]
                      exact Or.inr rfl
                  · simp only [genStmt, ht, bind, Except.bind]
                    exact Or.inr rfl
              | assign ts v =>
                  exact metalIfElsePath_total st test body [Stmt.assign ts v]
              | augAssign t2 op2 v2 =>
                  exact metalIfElsePath_total st test body [Stmt.augAssign t2 op2 v2]
              | exprStmt e2 =>
                  exact metalIfElsePath_total st test body [Stmt.exprStmt e2]
              | whileStmt t2 b2 =>
                  exact metalIfElsePath_total st test body [Stmt.whileStmt t2 b2]
              | forStmt t2 it2 b2 =>
                  exact metalIfElsePath_total st test body [Stmt.forStmt t2 it2 b2]
              | funcDef n2 a2 b2 =>
                  exact metalIfElsePath_total st test body [Stmt.funcDef n2 a2 b2]
              | ret v2 =>
                  exact metalIfElsePath_total st test body [Stmt.ret v2]
              | pass =>
                  exact metalIfElsePath_total st test body [Stmt.pass]
              | brk =>
                  exact metalIfElsePath_total st test body [Stmt.brk]
              | cont =>
                  exact metalIfElsePath_total st test body [Stmt.cont]
          | cons o2 rest2 =>
              cases o1 with
              | ifStmt t2 b2 o2x =>
                  exact metalIfElsePath_total st test body (Stmt.ifStmt t2 b2 o2x :: o2 :: rest2)
              | assign ts v =>
                  exact metalIfElsePath_total st test body (Stmt.assign ts v :: o2 :: rest2)
              | augAssign t2 op2 v2 =>
                  exact metalIfElsePath_total st test body (Stmt.augAssign t2 op2 v2 :: o2 :: rest2)
              | exprStmt e2 =>
                  exact metalIfElsePath_total st test body (Stmt.exprStmt e2 :: o2 :: rest2)
              | whileStmt t2 b2 =>
                  exact metalIfElsePath_total st test body (Stmt.whileStmt t2 b2 :: o2 :: rest2)
              | forStmt t2 it2 b2 =>
                  exact metalIfElsePath_total st test body (Stmt.forStmt t2 it2 b2 :: o2 :: rest2)
              | funcDef n2 a2 b2 =>
                  exact metalIfElsePath_total st test body (Stmt.funcDef n2 a2 b2 :: o2 :: rest2)
              | ret v2 =>
                  exact metalIfElsePath_total st test body (Stmt.ret v2 :: o2 :: rest2)
              | pass =>
                  exact metalIfElsePath_total st test body (Stmt.pass :: o2 :: rest2)
              | brk =>
                  exact metalIfElsePath_total st test body (Stmt.brk :: o2 :: rest2)
              | cont =>
                  exact metalIfElsePath_total st test body (Stmt.cont :: o2 :: rest2)
  | whileStmt test body =>
      obtain ⟨vt, ht⟩ | ht := metalExpr_total st test
      · obtain ⟨st3, h3⟩ | h3 := metalStmtList_total
          { emit st ("while (" ++ vt ++ ") \x7b") with
              indent := (emit st ("while (" ++ vt ++ ") \x7b")).indent + 1 } body
        · simp only [genStmt, ht, h3, bind, Except.bind]
          exact Or.inl ⟨_, rfl⟩
        · simp only [genStmt, ht, h3, bind, Except.bind]
          exact Or.inr rfl
      · simp only [genStmt, ht, bind, Except.bind]
        exact Or.inr rfl
  | forStmt target iter body =>
      obtain ⟨stHead, hh⟩ | hh := metalForHead_total st target iter
      · obtain ⟨st3, h3⟩ | h3 := metalStmtList_total
          { stHead with indent := stHead.indent + 1 } body
        · simp only [genStmt, hh, h3, bind, Except.bind]
          exact Or.inl ⟨_, rfl⟩
        · simp only [genStmt, hh, h3, bind, Except.bind]
          exact Or.inr rfl
      · simp only [genStmt, hh, bind, Except.bind]
        exact Or.inr rfl
  | ret v =>
      cases v with
      | none => exact Or.inl ⟨_, rfl⟩
      | some e =>
          obtain ⟨ve, he⟩ | he := metalExpr_total st e
          · simp only [genStmt, he, bind, Except.bind]
            exact Or.inl ⟨_, rfl⟩
          · simp only [genStmt, he, bind, Except.bind]
            exact Or.inr rfl
  | pass => exact Or.inl ⟨_, rfl⟩
  | brk => exact Or.inl ⟨_, rfl⟩
  | cont => exact Or.inl ⟨_, rfl⟩
  | funcDef n a b => exact Or.inl ⟨st, rfl⟩
termination_by sizeOf s
decreasing_by all_goals (simp_wf <;> (first
  | omega
  | (have hq : 0 < sizeOf test := expr_sizeOf_pos test; omega)))

theorem metalElifChain_total (st : GenState) (s : Stmt) :
    okOrPrintErr (genElifChain .metal st s) := by
  cases s with
  | ifStmt test body orelse =>
      cases orelse with
      | nil =>
          obtain ⟨vt, ht⟩ | ht := metalExpr_total st test
          · obtain ⟨st3, h3⟩ | h3 := metalStmtList_total
              { emit st ("\x7d else if (" ++ vt ++ ") \x7b") with
                  indent :=
                    (emit st ("\x7d else if (" ++ vt ++ ") \x7b")).indent + 1 } body
            · simp only [genElifChain, ht, h3, bind, Except.bind]
              exact Or.inl ⟨_, rfl⟩
            · simp only [genElifChain, ht, h3, bind, Except.bind]
              exact Or.inr rfl
          · simp only [genElifChain, ht, bind, Except.bind]
            exact Or.inr rfl
      | cons o1 os =>
          cases os with
          | nil =>
              cases o1 with
              | ifStmt t2 b2 o2 =>
                  obtain ⟨vt, ht⟩ | ht := metalExpr_total st test
                  · obtain ⟨st3, h3⟩ | h3 := metalStmtList_total
                      { emit st ("\x7d else if (" ++ vt ++ ") \x7b") with
                          indent :=
                            (emit st ("\x7d else if (" ++ vt ++ ") \x7b")).indent + 1 } body
                    · obtain ⟨st5, h5⟩ | h5 := metalElifChain_total
                        { st3 with indent := st3.indent - 1 } (.ifStmt t2 b2 o2)
                      · simp only [genElifChain, ht, h3, h5, bind, Except.bind]
                        exact Or.inl ⟨_, rfl⟩
                      · simp only [genElifChain, ht, h3, h5, bind, Except.bind]
                        exact Or.inr rfl
                    · simp only [genElifChain, ht, h3, bind, Except.bind]
                      exact Or.inr rfl
                  · simp only [genElifChain, ht, bind, Except.bind]
                    exact Or.inr rfl
              | assign ts v =>
                  exact metalElifElsePath_total st test body [Stmt.assign ts v]
              | augAssign t2 op2 v2 =>
                  exact metalElifElsePath_total st test body [Stmt.augAssign t2 op2 v2]
              | exprStmt e2 =>
                  exact metalElifElsePath_total st test body [Stmt.exprStmt e2]
              | whileStmt t2 b2 =>
                  exact metalElifElsePath_total st test body [Stmt.whileStmt t2 b2]
              | forStmt t2 it2 b2 =>
                  exact metalElifElsePath_total st test body [Stmt.forStmt t2 it2 b2]
              | funcDef n2 a2 b2 =>
                  exact metalElifElsePath_total st test body [Stmt.funcDef n2 a2 b2]
              | ret v2 =>
                  exact metalElifElsePath_total st test body [Stmt.ret v2]
              | pass =>
                  exact metalElifElsePath_total st test body [Stmt.pass]
              | brk =>
                  exact metalElifElsePath_total st test body [Stmt.brk]
              | cont =>
                  exact metalElifElsePath_total st test body [Stmt.cont]
          | cons o2 rest2 =>
              cases o1 with
              | ifStmt t2 b2 o2x =>
                  exact metalElifElsePath_total st test body (Stmt.ifStmt t2 b2 o2x :: o2 :: rest2)
              | assign ts v =>
                  exact metalElifElsePath_total st test body (Stmt.assign ts v :: o2 :: rest2)
              | augAssign t2 op2 v2 =>
                  exact metalElifElsePath_total st test body (Stmt.augAssign t2 op2 v2 :: o2 :: rest2)
              | exprStmt e2 =>
                  exact metalElifElsePath_total st test body (Stmt.exprStmt e2 :: o2 :: rest2)
              | whileStmt t2 b2 =>
                  exact metalElifElsePath_total st test body (Stmt.whileStmt t2 b2 :: o2 :: rest2)
              | forStmt t2 it2 b2 =>
                  exact metalElifElsePath_total st test body (Stmt.forStmt t2 it2 b2 :: o2 :: rest2)
              | funcDef n2 a2 b2 =>
                  exact metalElifElsePath_total st test body (Stmt.funcDef n2 a2 b2 :: o2 :: rest2)
              | ret v2 =>
                  exact metalElifElsePath_total st test body (Stmt.ret v2 :: o2 :: rest2)
              | pass =>
                  exact metalElifElsePath_total st test body (Stmt.pass :: o2 :: rest2)
              | brk =>
                  exact metalElifElsePath_total st test body (Stmt.brk :: o2 :: rest2)
              | cont =>
                  exact metalElifElsePath_total st test body (Stmt.cont :: o2 :: rest2)
  | assign ts v => exact Or.inl ⟨st, rfl⟩
  | augAssign t op v => exact Or.inl ⟨st, rfl⟩
  | exprStmt e => exact Or.inl ⟨st, rfl⟩
  | whileStmt t b => exact Or.inl ⟨st, rfl⟩
  | forStmt t it b => exact Or.inl ⟨st, rfl⟩
  | funcDef n a b => exact Or.inl ⟨st, rfl⟩
  | ret v => exact Or.inl ⟨st, rfl⟩
  | pass => exact Or.inl ⟨st, rfl⟩
  | brk => exact Or.inl ⟨st, rfl⟩
  | cont => exact Or.inl ⟨st, rfl⟩
termination_by sizeOf s
decreasing_by all_goals (simp_wf <;> (first
  | omega
  | (have hq : 0 < sizeOf test := expr_sizeOf_pos test; omega)))

theorem metalStmtList_total (st : GenState) (l : List Stmt) :
    okOrPrintErr (genStmtList .metal st l) := by
  cases l with
  | nil => exact Or.inl ⟨st, rfl⟩
  | cons s rest =>
      obtain ⟨st1, h1⟩ | h1 := metalStmt_total st s
      · obtain ⟨st2, h2⟩ | h2 := metalStmtList_total st1 rest
        · simp only [genStmtList, h1, h2, bind, Except.bind]
          exact Or.inl ⟨st2, rfl⟩
        · simp only [genStmtList, h1, h2, bind, Except.bind]
          exact Or.inr rfl
      · simp only [genStmtList, h1, bind, Except.bind]
        exact Or.inr rfl
termination_by sizeOf l
decreasing_by all_goals (simp_wf <;> (first
  | omega
  | (have hq : 0 < sizeOf test := expr_sizeOf_pos test; omega)))

end

theorem metalFunctionTail_total (stInner : GenState) (body : List Stmt)
    (oldF : Option String) (oldD : List String) :
    okOrPrintErr (do
      let st4 ← genStmtList .metal stInner body
      let st5 := { st4 with indent := st4.indent - 1 }
      let st6 := emit st5 "\x7d"
      let st7 := emit st6 ""
      pure { st7 with current_func := oldF, declared_vars := oldD } :
        Except String GenState) := by
  obtain ⟨st4, h4⟩ | h4 := metalStmtList_total stInner body
  · simp only [h4, bind, Except.bind]
    exact Or.inl ⟨_, rfl⟩
  · simp only [h4, bind, Except.bind]
    exact Or.inr rfl

theorem metalFunction_total (st : GenState) (name : String) (args : List String)
    (body : List Stmt) : okOrPrintErr (genFunction .metal st name args body) :=
  metalFunctionTail_total _ body _ _

theorem metalKernel_total (st : GenState) (name : String) (args : List String)
    (body : List Stmt) : okOrPrintErr (genKernel st name args body) :=
  metalFunctionTail_total _ body _ _

theorem metalFnList_total (fns : List Stmt) : ∀ st : GenState,
    okOrPrintErr (genFnList .metal st fns) := by
  induction fns with
  | nil => intro st; exact Or.inl ⟨st, rfl⟩
  | cons fn rest ih =>
      intro st
      cases fn with
      | funcDef name args body =>
          obtain ⟨st1, h1⟩ | h1 := metalFunction_total st name args body
          · obtain ⟨st2, h2⟩ | h2 := ih st1
            · simp only [genFnList, h1, h2, bind, Except.bind]
              exact Or.inl ⟨st2, rfl⟩
            · simp only [genFnList, h1, h2, bind, Except.bind]
              exact Or.inr rfl
          · simp only [genFnList, h1, bind, Except.bind]
            exact Or.inr rfl
      | assign ts v => exact ih st
      | augAssign t op v => exact ih st
      | exprStmt e => exact ih st
      | ifStmt t b o => exact ih st
      | whileStmt t b => exact ih st
      | forStmt t it b => exact ih st
      | ret v => exact ih st
      | pass => exact ih st
      | brk => exact ih st
      | cont => exact ih st

theorem metalKernelList_total (fns : List Stmt) : ∀ st : GenState,
    okOrPrintErr (genKernelList st fns) := by
  induction fns with
  | nil => intro st; exact Or.inl ⟨st, rfl⟩
  | cons fn rest ih =>
      intro st
      cases fn with
      | funcDef name args body =>
          obtain ⟨st1, h1⟩ | h1 := metalKernel_total st name args body
          · obtain ⟨st2, h2⟩ | h2 := ih st1
            · simp only [genKernelList, h1, h2, bind, Except.bind]
              exact Or.inl ⟨st2, rfl⟩
            · simp only [genKernelList, h1, h2, bind, Except.bind]
              exact Or.inr rfl
          · simp only [genKernelList, h1, bind, Except.bind]
            exact Or.inr rfl
      | assign ts v => exact ih st
      | augAssign t op v => exact ih st
      | exprStmt e => exact ih st
      | ifStmt t b o => exact ih st
      | whileStmt t b => exact ih st
      | forStmt t it b => exact ih st
      | ret v => exact ih st
      | pass => exact ih st
      | brk => exact ih st
      | cont => exact ih st

mutual

theorem metalExpr_err (st : GenState) (e : Expr)
    (hwf : (subExprs e).all compareLenOk = true)
    (hpr : (subExprs e).any isPrintCall = true) :
    genExpr .metal st e = Except.error metalPrintErrMsg := by
  cases e with
  | const c =>
      simp only [subExprs, List.any_cons, List.any_nil, Bool.or_false,
        Bool.or_eq_true] at hpr
      exact absurd hpr Bool.false_ne_true
  | name id =>
      simp only [subExprs, List.any_cons, List.any_nil, Bool.or_false,
        Bool.or_eq_true] at hpr
      exact absurd hpr Bool.false_ne_true
  | binop op l r =>
      simp only [subExprs, List.all_cons, List.all_append, Bool.and_eq_true] at hwf
      simp only [subExprs, List.any_cons, List.any_append, Bool.or_eq_true] at hpr
      rcases hpr with h1 | h1 | h1
      · exact absurd h1 Bool.false_ne_true
      · have hl := metalExpr_err st l hwf.2.1 h1
        simp only [genExpr, hl, bind, Except.bind]
      · obtain ⟨vl, hl⟩ | hl := metalExpr_total st l
        · have hr := metalExpr_err st r hwf.2.2 h1
          simp only [genExpr, hl, hr, bind, Except.bind]
        · simp only [genExpr, hl, bind, Except.bind]
  | unaryop op o =>
      simp only [subExprs, List.all_cons, Bool.and_eq_true] at hwf
      simp only [subExprs, List.any_cons, Bool.or_eq_true] at hpr
      rcases hpr with h1 | h1
      · exact absurd h1 Bool.false_ne_true
      · have ho := metalExpr_err st o hwf.2 h1
        simp only [genExpr, ho, bind, Except.bind]
  | ifexp t b o =>
      simp only [subExprs, List.all_cons, List.all_append, Bool.and_eq_true] at hwf
      simp only [subExprs, List.any_cons, List.any_append, Bool.or_eq_true] at hpr
      rcases hpr with h1 | h1 | h1 | h1
      · exact absurd h1 Bool.false_ne_true
      · have ht := metalExpr_err st t hwf.2.1 h1
        simp only [genExpr, ht, bind, Except.bind]
      · obtain ⟨vt, ht⟩ | ht := metalExpr_total st t
        · have hb := metalExpr_err st b hwf.2.2.1 h1
          simp only [genExpr, ht, hb, bind, Except.bind]
        · simp only [genExpr, ht, bind, Except.bind]
      · obtain ⟨vt, ht⟩ | ht := metalExpr_total st t
        · obtain ⟨vb, hb⟩ | hb := metalExpr_total st b
          · have ho := metalExpr_err st o hwf.2.2.2 h1
            simp only [genExpr, ht, hb, ho, bind, Except.bind]
          · simp only [genExpr, ht, hb, bind, Except.bind]
        · simp only [genExpr, ht, bind, Except.bind]
  | compare l ops cs =>
      simp only [subExprs, List.all_cons, List.all_append, Bool.and_eq_true] at hwf
      simp only [subExprs, List.any_cons, List.any_append, Bool.or_eq_true] at hpr
      have hb2 : (ops.length == cs.length) = true := hwf.1
      have hlen : ops.length = cs.length := by simpa using hb2
      rcases hpr with h1 | h1 | h1
      · exact absurd h1 Bool.false_ne_true
      · have hl := metalExpr_err st l hwf.2.1 h1
        simp only [genExpr, hl, bind, Except.bind]
      · obtain ⟨vl, hl⟩ | hl := metalExpr_total st l
        · have hs := metalCompareParts_err st ops cs hlen hwf.2.2 h1
          simp only [genExpr, hl, hs, bind, Except.bind]
        · simp only [genExpr, hl, bind, Except.bind]
  | boolop op vs =>
      simp only [subExprs, List.all_cons, Bool.and_eq_true] at hwf
      simp only [subExprs, List.any_cons, Bool.or_eq_true] at hpr
      rcases hpr with h1 | h1
      · exact absurd h1 Bool.false_ne_true
      · have hv := metalExprList_err st vs hwf.2 h1
        simp only [genExpr, hv, bind, Except.bind]
  | call f args =>
      simp only [subExprs, List.all_cons, List.all_append, Bool.and_eq_true] at hwf
      simp only [subExprs, List.any_cons, List.any_append, List.any_nil,
        Bool.or_false, Bool.or_eq_true] at hpr
      cases f with
      | name fid =>
          by_cases hp : fid = "print"
          · subst hp
            rfl
          · rcases hpr with h1 | h1 | h1
            · have h2 : (fid == "print") = true := h1
              exact absurd (eq_of_beq h2) hp
            · exact absurd h1 Bool.false_ne_true
            · have ha := metalExprList_err st args hwf.2.2 h1
              simp only [genExpr, ha, bind, Except.bind, if_neg hp]
      | const c =>
          rcases hpr with h1 | h1 | h1
          · exact absurd h1 Bool.false_ne_true
          · have hf := metalExpr_err st (Expr.const c) hwf.2.1 h1
            rw [genExpr_call_nonname .metal st _ args trivial]
            simp only [hf, bind, Except.bind]
          · obtain ⟨vf, hf⟩ | hf := metalExpr_total st (Expr.const c)
            · have ha := metalExprList_err st args hwf.2.2 h1
              rw [genExpr_call_nonname .metal st _ args trivial]
              simp only [hf, ha, bind, Except.bind]
            · rw [genExpr_call_nonname .metal st _ args trivial]
              simp only [hf, bind, Except.bind]
      | binop op l r =>
          rcases hpr with h1 | h1 | h1
          · exact absurd h1 Bool.false_ne_true
          · have hf := metalExpr_err st (Expr.binop op l r) hwf.2.1 h1
            rw [genExpr_call_nonname .metal st _ args trivial]
            simp only [hf, bind, Except.bind]
          · obtain ⟨vf, hf⟩ | hf := metalExpr_total st (Expr.binop op l r)
            · have ha := metalExprList_err st args hwf.2.2 h1
              rw [genExpr_call_nonname .metal st _ args trivial]
              simp only [hf, ha, bind, Except.bind]
            · rw [genExpr_call_nonname .metal st _ args trivial]
              simp only [hf, bind, Except.bind]
      | unaryop op o =>
          rcases hpr with h1 | h1 | h1
          · exact absurd h1 Bool.false_ne_true
          · have hf := metalExpr_err st (Expr.unaryop op o) hwf.2.1 h1
            rw [genExpr_call_nonname .metal st _ args trivial]
            simp only [hf, bind, Except.bind]
          · obtain ⟨vf, hf⟩ | hf := metalExpr_total st (Expr.unaryop op o)
            · have ha := metalExprList_err st args hwf.2.2 h1
              rw [genExpr_call_nonname .metal st _ args trivial]
              simp only [hf, ha, bind, Except.bind]
            · rw [genExpr_call_nonname .metal st _ args trivial]
              simp only [hf, bind, Except.bind]
      | ifexp a b c =>
          rcases hpr with h1 | h1 | h1
          · exact absurd h1 Bool.false_ne_true
          · have hf := metalExpr_err st (Expr.ifexp a b c) hwf.2.1 h1
            rw [genExpr_call_nonname .metal st _ args trivial]
            simp only [hf, bind, Except.bind]
          · obtain ⟨vf, hf⟩ | hf := metalExpr_total st (Expr.ifexp a b c)
            · have ha := metalExprList_err st args hwf.2.2 h1
              rw [genExpr_call_nonname .metal st _ args trivial]
              simp only [hf, ha, bind, Except.bind]
            · rw [genExpr_call_nonname .metal st _ args trivial]
              simp only [hf, bind, Except.bind]
      | compare l ops cs =>
          rcases hpr with h1 | h1 | h1
          · exact absurd h1 Bool.false_ne_true
          · have hf := metalExpr_err st (Expr.compare l ops cs) hwf.2.1 h1
            rw [genExpr_call_nonname .metal st _ args trivial]
            simp only [hf, bind, Except.bind]
          · obtain ⟨vf, hf⟩ | hf := metalExpr_total st (Expr.compare l ops cs)
            · have ha := metalExprList_err st args hwf.2.2 h1
              rw [genExpr_call_nonname .metal st _ args trivial]
              simp only [hf, ha, bind, Except.bind]
            · rw [genExpr_call_nonname .metal st _ args trivial]
              simp only [hf, bind, Except.bind]
      | boolop op vs =>
          rcases hpr with h1 | h1 | h1
          · exact absurd h1 Bool.false_ne_true
          · have hf := metalExpr_err st (Expr.boolop op vs) hwf.2.1 h1
            rw [genExpr_call_nonname .metal st _ args trivial]
            simp only [hf, bind, Except.bind]
          · obtain ⟨vf, hf⟩ | hf := metalExpr_total st (Expr.boolop op vs)
            · have ha := metalExprList_err st args hwf.2.2 h1
              rw [genExpr_call_nonname .metal st _ args trivial]
              simp only [hf, ha, bind, Except.bind]
            · rw [genExpr_call_nonname .metal st _ args trivial]
              simp only [hf, bind, Except.bind]
      | call f2 a2 =>
          rcases hpr with h1 | h1 | h1
          · exact absurd h1 Bool.false_ne_true
          · have hf := metalExpr_err st (Expr.call f2 a2) hwf.2.1 h1
            rw [genExpr_call_nonname .metal st _ args trivial]
            simp only [hf, bind, Except.bind]
          · obtain ⟨vf, hf⟩ | hf := metalExpr_total st (Expr.call f2 a2)
            · have ha := metalExprList_err st args hwf.2.2 h1
              rw [genExpr_call_nonname .metal st _ args trivial]
              simp only [hf, ha, bind, Except.bind]
            · rw [genExpr_call_nonname .metal st _ args trivial]
              simp only [hf, bind, Except.bind]
      | subscript v s =>
          rcases hpr with h1 | h1 | h1
          · exact absurd h1 Bool.false_ne_true
          · have hf := metalExpr_err st (Expr.subscript v s) hwf.2.1 h1
            rw [genExpr_call_nonname .metal st _ args trivial]
            simp only [hf, bind, Except.bind]
          · obtain ⟨vf, hf⟩ | hf := metalExpr_total st (Expr.subscript v s)
            · have ha := metalExprList_err st args hwf.2.2 h1
              rw [genExpr_call_nonname .metal st _ args trivial]
              simp only [hf, ha, bind, Except.bind]
            · rw [genExpr_call_nonname .metal st _ args trivial]
              simp only [hf, bind, Except.bind]
  | subscript v s =>
      simp only [subExprs, List.all_cons, List.all_append, Bool.and_eq_true] at hwf
      simp only [subExprs, List.any_cons, List.any_append, Bool.or_eq_true] at hpr
      rcases hpr with h1 | h1 | h1
      · exact absurd h1 Bool.false_ne_true
      · have hv := metalExpr_err st v hwf.2.1 h1
        simp only [genExpr, hv, bind, Except.bind]
      · obtain ⟨vv, hv⟩ | hv := metalExpr_total st v
        · have hs := metalExpr_err st s hwf.2.2 h1
          simp only [genExpr, hv, hs, bind, Except.bind]
        · simp only [genExpr, hv, bind, Except.bind]

theorem metalCompareParts_err (st : GenState) (ops : List CmpOpKind)
    (cs : List Expr) (hlen : ops.length = cs.length)
    (hwf : (subExprsList cs).all compareLenOk = true)
    (hpr : (subExprsList cs).any isPrintCall = true) :
    genCompareParts .metal st ops cs = Except.error metalPrintErrMsg := by
  cases cs with
  | nil => simp [subExprsList] at hpr
  | cons c rest =>
      cases ops with
      | nil => simp at hlen
      | cons op ops2 =>
          simp only [subExprsList, List.all_append, Bool.and_eq_true] at hwf
          simp only [subExprsList, List.any_append, Bool.or_eq_true] at hpr
          have hlen2 : ops2.length = rest.length := by simpa using hlen
          rcases hpr with h1 | h1
          · have hc := metalExpr_err st c hwf.1 h1
            simp only [genCompareParts, hc, bind, Except.bind]
          · obtain ⟨vc, hc⟩ | hc := metalExpr_total st c
            · have hr := metalCompareParts_err st ops2 rest hlen2 hwf.2 h1
              simp only [genCompareParts, hc, hr, bind, Except.bind]
            · simp only [genCompareParts, hc, bind, Except.bind]

theorem metalExprList_err (st : GenState) (es : List Expr)
    (hwf : (subExprsList es).all compareLenOk = true)
    (hpr : (subExprsList es).any isPrintCall = true) :
    genExprList .metal st es = Except.error metalPrintErrMsg := by
  cases es with
  | nil => simp [subExprsList] at hpr
  | cons e rest =>
      simp only [subExprsList, List.all_append, Bool.and_eq_true] at hwf
      simp only [subExprsList, List.any_append, Bool.or_eq_true] at hpr
      rcases hpr with h1 | h1
      · have he := metalExpr_err st e hwf.1 h1
        simp only [genExprList, he, bind, Except.bind]
      · obtain ⟨ve, he⟩ | he := metalExpr_total st e
        · have hr := metalExprList_err st rest hwf.2 h1
          simp only [genExprList, he, hr, bind, Except.bind]
        · simp only [genExprList, he, bind, Except.bind]

end

theorem metalTarget_err (st : GenState) (t : Expr)
    (hsh : isNameOrSubscriptB t = true)
    (hwf : (subExprs t).all compareLenOk = true)
    (hpr : (subExprs t).any isPrintCall = true) :
    genTarget .metal st t = Except.error metalPrintErrMsg := by
  cases t with
  | name id => simp [subExprs, isPrintCall] at hpr
  | subscript v s => exact metalExpr_err st (.subscript v s) hwf hpr
  | const c => exact absurd hsh Bool.false_ne_true
  | binop op l r => exact absurd hsh Bool.false_ne_true
  | unaryop op o => exact absurd hsh Bool.false_ne_true
  | ifexp a b c => exact absurd hsh Bool.false_ne_true
  | compare l ops cs => exact absurd hsh Bool.false_ne_true
  | boolop op vs => exact absurd hsh Bool.false_ne_true
  | call f args => exact absurd hsh Bool.false_ne_true

theorem metalAssignTargets_err (value : Expr) (ts : List Expr)
    (hwv : (subExprs value).all compareLenOk = true) :
    ∀ st : GenState, ts.all isNameOrSubscriptB = true →
    ts.all wfExprB = true → ts ≠ [] →
    ((subExprsList ts).any isPrintCall = true ∨
      (subExprs value).any isPrintCall = true) →
    genAssignTargets .metal value st ts = Except.error metalPrintErrMsg := by
  induction ts with
  | nil => intro st _ _ hne _; exact absurd rfl hne
  | cons tg rest ih =>
      intro st hsh hwts hne hpr
      simp only [List.all_cons, Bool.and_eq_true] at hsh hwts
      by_cases hv : (subExprs value).any isPrintCall = true
      · cases tg with
        | name id =>
            have herr := metalExpr_err st value hwv hv
            simp only [genAssignTargets, herr, bind, Except.bind]
        | subscript v s =>
            obtain ⟨vl, hl⟩ | hl := metalExpr_total st (.subscript v s)
            · have herr := metalExpr_err st value hwv hv
              simp only [genAssignTargets, hl, herr, bind, Except.bind]
            · simp only [genAssignTargets, hl, bind, Except.bind]
        | const c => exact absurd hsh.1 Bool.false_ne_true
        | binop op l r => exact absurd hsh.1 Bool.false_ne_true
        | unaryop op o => exact absurd hsh.1 Bool.false_ne_true
        | ifexp a b c => exact absurd hsh.1 Bool.false_ne_true
        | compare l ops cs => exact absurd hsh.1 Bool.false_ne_true
        | boolop op vs => exact absurd hsh.1 Bool.false_ne_true
        | call f args => exact absurd hsh.1 Bool.false_ne_true
      · have h1 : (subExprsList (tg :: rest)).any isPrintCall = true := by
          rcases hpr with h | h
          · exact h
          · exact absurd h hv
        simp only [subExprsList, List.any_append, Bool.or_eq_true] at h1
        rcases h1 with h1 | h1
        · cases tg with
          | name id => simp [subExprs, isPrintCall] at h1
          | subscript v s =>
              have herr := metalExpr_err st (.subscript v s) hwts.1 h1
              simp only [genAssignTargets, herr, bind, Except.bind]
          | const c => exact absurd hsh.1 Bool.false_ne_true
          | binop op l r => exact absurd hsh.1 Bool.false_ne_true
          | unaryop op o => exact absurd hsh.1 Bool.false_ne_true
          | ifexp a b c => exact absurd hsh.1 Bool.false_ne_true
          | compare l ops cs => exact absurd hsh.1 Bool.false_ne_true
          | boolop op vs => exact absurd hsh.1 Bool.false_ne_true
          | call f args => exact absurd hsh.1 Bool.false_ne_true
        · have hne2 : rest ≠ [] := by
            intro h
            subst h
            simp [subExprsList] at h1
          cases tg with
          | name id =>
              obtain ⟨vv, hvo⟩ | hvo := metalExpr_total st value
              · by_cases hd : id ∈ st.declared_vars
                · simp only [genAssignTargets, hvo, bind, Except.bind, if_pos hd]
                  exact ih _ hsh.2 hwts.2 hne2 (Or.inl h1)
                · simp only [genAssignTargets, hvo, bind, Except.bind, if_neg hd]
                  exact ih _ hsh.2 hwts.2 hne2 (Or.inl h1)
              · simp only [genAssignTargets, hvo, bind, Except.bind]
          | subscript v s =>
              obtain ⟨vl, hl⟩ | hl := metalExpr_total st (.subscript v s)
              · obtain ⟨vv, hvo⟩ | hvo := metalExpr_total st value
                · simp only [genAssignTargets, hl, hvo, bind, Except.bind]
                  exact ih _ hsh.2 hwts.2 hne2 (Or.inl h1)
                · simp only [genAssignTargets, hl, hvo, bind, Except.bind]
              · simp only [genAssignTargets, hl, bind, Except.bind]
          | const c => exact absurd hsh.1 Bool.false_ne_true
          | binop op l r => exact absurd hsh.1 Bool.false_ne_true
          | unaryop op o => exact absurd hsh.1 Bool.false_ne_true
          | ifexp a b c => exact absurd hsh.1 Bool.false_ne_true
          | compare l ops cs => exact absurd hsh.1 Bool.false_ne_true
          | boolop op vs => exact absurd hsh.1 Bool.false_ne_true
          | call f args => exact absurd hsh.1 Bool.false_ne_true

theorem metalForHead_err (st : GenState) (target : Expr) (args : List Expr)
    (hsh : isNameOrSubscriptB target = true)
    (hwt : (subExprs target).all compareLenOk = true)
    (hwa : args.all wfExprB = true)
    (hlo : 1 ≤ args.length) (hhi : args.length ≤ 3)
    (hpr : (subExprs target).any isPrintCall = true ∨
      (subExprsList args).any isPrintCall = true) :
    genForHead .metal st target (.call (.name "range") args) =
      Except.error metalPrintErrMsg := by
  rcases hpr with h1 | h1
  · have ht := metalTarget_err st target hsh hwt h1
    simp only [genForHead, ht, bind, Except.bind]
  · obtain ⟨tgt, htgt⟩ | htgt := metalTarget_total st target
    · cases args with
      | nil => simp at hlo
      | cons a0 t0 =>
          simp only [List.all_cons, Bool.and_eq_true] at hwa
          simp only [subExprsList, List.any_append, Bool.or_eq_true] at h1
          cases t0 with
          | nil =>
              rcases h1 with h1 | h1
              · have h0 := metalExpr_err st a0 hwa.1 h1
                simp only [genForHead, htgt, h0, bind, Except.bind, if_pos rfl, if_true]
              · simp [subExprsList] at h1
          | cons a1 t1 =>
              simp only [List.all_cons, Bool.and_eq_true] at hwa
              cases t1 with
              | nil =>
                  rcases h1 with h1 | h1
                  · have h0 := metalExpr_err st a0 hwa.1 h1
                    simp only [genForHead, htgt, h0, bind, Except.bind, if_pos rfl, if_true]
                  · simp only [subExprsList, List.any_append, List.any_nil,
                      Bool.or_false, Bool.or_eq_true] at h1
                    obtain ⟨v0, h0⟩ | h0 := metalExpr_total st a0
                    · have ha1 := metalExpr_err st a1 hwa.2.1 h1
                      simp only [genForHead, htgt, h0, ha1, bind, Except.bind,
                        if_pos rfl, if_true]
                    · simp only [genForHead, htgt, h0, bind, Except.bind,
                        if_pos rfl, if_true]
              | cons a2 t2 =>
                  simp only [List.all_cons, Bool.and_eq_true] at hwa
                  cases t2 with
                  | nil =>
                      rcases h1 with h1 | h1
                      · have h0 := metalExpr_err st a0 hwa.1 h1
                        simp only [genForHead, htgt, h0, bind, Except.bind,
                          if_pos rfl, if_true]
                      · simp only [subExprsList, List.any_append, List.any_nil,
                          Bool.or_false, Bool.or_eq_true] at h1
                        obtain ⟨v0, h0⟩ | h0 := metalExpr_total st a0
                        · rcases h1 with h1 | h1
                          · have ha1 := metalExpr_err st a1 hwa.2.1 h1
                            simp only [genForHead, htgt, h0, ha1, bind,
                              Except.bind, if_pos rfl, if_true]
                          · obtain ⟨v1, ha1⟩ | ha1 := metalExpr_total st a1
                            · have ha2 := metalExpr_err st a2 hwa.2.2.1 h1
                              simp only [genForHead, htgt, h0, ha1, ha2, bind,
                                Except.bind, if_pos rfl, if_true]
                            · simp only [genForHead, htgt, h0, ha1, bind,
                                Except.bind, if_pos rfl, if_true]
                        · simp only [genForHead, htgt, h0, bind, Except.bind,
                            if_pos rfl, if_true]
                  | cons a3 t3 => simp at hhi
    · simp only [genForHead, htgt, bind, Except.bind]

mutual

theorem metalIfElsePath_err (st : GenState) (test : Expr) (body os2 : List Stmt)
    (hwt : wfExprB test = true) (hwb : wfStmtListB body = true)
    (hwo : wfStmtListB os2 = true)
    (hpr : (subExprs test).any isPrintCall = true ∨
      (stmtListSubExprs body).any isPrintCall = true ∨
      (stmtListSubExprs os2).any isPrintCall = true) :
    (do
      let t ← genExpr .metal st test
      let st1 := emit st ("if (" ++ t ++ ") \x7b")
      let st2 := { st1 with indent := st1.indent + 1 }
      let st3 ← genStmtList .metal st2 body
      let st4 := { st3 with indent := st3.indent - 1 }
      let st5 := emit st4 "\x7d else \x7b"
      let st6 := { st5 with indent := st5.indent + 1 }
      let st7 ← genStmtList .metal st6 os2
      let st8 := { st7 with indent := st7.indent - 1 }
      pure (emit st8 "\x7d") : Except String GenState) =
      Except.error metalPrintErrMsg := by
  rcases hpr with h1 | h1 | h1
  · have ht := metalExpr_err st test hwt h1
    simp only [ht, bind, Except.bind]
  · obtain ⟨vt, ht⟩ | ht := metalExpr_total st test
    · have hb := metalStmtList_err
        { emit st ("if (" ++ vt ++ ") \x7b") with
            indent := (emit st ("if (" ++ vt ++ ") \x7b")).indent + 1 } body hwb h1
      simp only [ht, hb, bind, Except.bind]
    · simp only [ht, bind, Except.bind]
  · obtain ⟨vt, ht⟩ | ht := metalExpr_total st test
    · obtain ⟨st3, h3⟩ | h3 := metalStmtList_total
        { emit st ("if (" ++ vt ++ ") \x7b") with
            indent := (emit st ("if (" ++ vt ++ ") \x7b")).indent + 1 } body
      · have ho := metalStmtList_err
          { emit { st3 with indent := st3.indent - 1 } "\x7d else \x7b" with
              indent :=
                (emit { st3 with indent := st3.indent - 1 } "\x7d else \x7b").indent + 1 }
          os2 hwo h1
        simp only [ht, h3, ho, bind, Except.bind]
      · simp only [ht, h3, bind, Except.bind]
    · simp only [ht, bind, Except.bind]
termination_by sizeOf test + sizeOf body + sizeOf os2
decreasing_by all_goals (simp_wf <;> (first
  | omega
  | (have hq : 0 < sizeOf test := expr_sizeOf_pos test; omega)))

theorem metalElifElsePath_err (st : GenState) (test : Expr) (body os2 : List Stmt)
    (hwt : wfExprB test = true) (hwb : wfStmtListB body = true)
    (hwo : wfStmtListB os2 = true)
    (hpr : (subExprs test).any isPrintCall = true ∨
      (stmtListSubExprs body).any isPrintCall = true ∨
      (stmtListSubExprs os2).any isPrintCall = true) :
    (do
      let t ← genExpr .metal st test
      let st1 := emit st ("\x7d else if (" ++ t ++ ") \x7b")
      let st2 := { st1 with indent := st1.indent + 1 }
      let st3 ← genStmtList .metal st2 body
      let st4 := { st3 with indent := st3.indent - 1 }
      let st5 := emit st4 "\x7d else \x7b"
      let st6 := { st5 with indent := st5.indent + 1 }
      let st7 ← genStmtList .metal st6 os2
      let st8 := { st7 with indent := st7.indent - 1 }
      pure st8 : Except String GenState) =
      Except.error metalPrintErrMsg := by
  rcases hpr with h1 | h1 | h1
  · have ht := metalExpr_err st test hwt h1
    simp only [ht, bind, Except.bind]
  · obtain ⟨vt, ht⟩ | ht := metalExpr_total st test
    · have hb := metalStmtList_err
        { emit st ("\x7d else if (" ++ vt ++ ") \x7b") with
            indent := (emit st ("\x7d else if (" ++ vt ++ ") \x7b")).indent + 1 } body hwb h1
      simp only [ht, hb, bind, Except.bind]
    · simp only [ht, bind, Except.bind]
  · obtain ⟨vt, ht⟩ | ht := metalExpr_total st test
    · obtain ⟨st3, h3⟩ | h3 := metalStmtList_total
        { emit st ("\x7d else if (" ++ vt ++ ") \x7b") with
            indent := (emit st ("\x7d else if (" ++ vt ++ ") \x7b")).indent + 1 } body
      · have ho := metalStmtList_err
          { emit { st3 with indent := st3.indent - 1 } "\x7d else \x7b" with
              indent :=
                (emit { st3 with indent := st3.indent - 1 } "\x7d else \x7b").indent + 1 }
          os2 hwo h1
        simp only [ht, h3, ho, bind, Except.bind]
      · simp only [ht, h3, bind, Except.bind]
    · simp only [ht, bind, Except.bind]
termination_by sizeOf test + sizeOf body + sizeOf os2
decreasing_by all_goals (simp_wf <;> (first
  | omega
  | (have hq : 0 < sizeOf test := expr_sizeOf_pos test; omega)))

theorem metalStmt_err (st : GenState) (s : Stmt) :
    wfStmtB s = true → (stmtSubExprs s).any isPrintCall = true →
    genStmt .metal st s = Except.error metalPrintErrMsg := by
  cases s with
  | assign targets value =>
      intro hwf hpr
      simp only [wfStmtB, Bool.and_eq_true] at hwf
      simp only [stmtSubExprs, List.any_append, Bool.or_eq_true] at hpr
      have hne : targets ≠ [] := by
        intro h
        subst h
        simp at hwf
      exact metalAssignTargets_err value targets hwf.2 st hwf.1.1.2 hwf.1.2 hne hpr
  | augAssign target op value =>
      intro hwf hpr
      simp only [wfStmtB, Bool.and_eq_true] at hwf
      simp only [stmtSubExprs, List.any_append, Bool.or_eq_true] at hpr
      rcases hpr with h1 | h1
      · have ht := metalTarget_err st target hwf.1.1 hwf.1.2 h1
        simp only [genStmt, ht, bind, Except.bind]
      · obtain ⟨tgt, htgt⟩ | htgt := metalTarget_total st target
        · have hv := metalExpr_err st value hwf.2 h1
          simp only [genStmt, htgt, hv, bind, Except.bind]
        · simp only [genStmt, htgt, bind, Except.bind]
  | exprStmt e =>
      intro hwf hpr
      have he := metalExpr_err st e hwf hpr
      simp only [genStmt, he, bind, Except.bind]
  | ifStmt test body orelse =>
      cases orelse with
      | nil =>
          intro hwf hpr
          simp only [wfStmtB, Bool.and_eq_true] at hwf
          simp only [stmtSubExprs, List.any_append, Bool.or_eq_true] at hpr
          rcases hpr with h1 | h1 | h1
          · have ht := metalExpr_err st test hwf.1.1 h1
            simp only [genStmt, ht, bind, Except.bind]
          · obtain ⟨vt, ht⟩ | ht := metalExpr_total st test
            · have hb := metalStmtList_err
                { emit st ("if (" ++ vt ++ ") \x7b") with
                    indent := (emit st ("if (" ++ vt ++ ") \x7b")).indent + 1 } body
                hwf.1.2 h1
              simp only [genStmt, ht, hb, bind, Except.bind]
            · simp only [genStmt, ht, bind, Except.bind]
          · simp [stmtListSubExprs] at h1
      | cons o1 os =>
          cases os with
          | nil =>
              cases o1 with
              | ifStmt t2 b2 o2 =>
                  intro hwf hpr
                  simp only [wfStmtB, Bool.and_eq_true] at hwf
                  simp only [stmtSubExprs, List.any_append, Bool.or_eq_true] at hpr
                  rcases hpr with h1 | h1 | h1
                  · have ht := metalExpr_err st test hwf.1.1 h1
                    simp only [genStmt, ht, bind, Except.bind]
                  · obtain ⟨vt, ht⟩ | ht := metalExpr_total st test
                    · have hb := metalStmtList_err
                        { emit st ("if (" ++ vt ++ ") \x7b") with
                            indent := (emit st ("if (" ++ vt ++ ") \x7b")).indent + 1 } body
                        hwf.1.2 h1
                      simp only [genStmt, ht, hb, bind, Except.bind]
                    · simp only [genStmt, ht, bind, Except.bind]
                  · obtain ⟨vt, ht⟩ | ht := metalExpr_total st test
                    · obtain ⟨st3, h3⟩ | h3 := metalStmtList_total
                        { emit st ("if (" ++ vt ++ ") \x7b") with
                            indent := (emit st ("if (" ++ vt ++ ") \x7b")).indent + 1 } body
                      · have hwfo := hwf.2
                        simp only [wfStmtListB, wfStmtB, Bool.and_true,
                          Bool.and_eq_true] at hwfo
                        simp only [stmtListSubExprs, stmtSubExprs, List.append_nil,
                          List.any_append, Bool.or_eq_true] at h1
                        have he := metalElif_err { st3 with indent := st3.indent - 1 }
                          t2 b2 o2 hwfo.1.1 hwfo.1.2 hwfo.2 h1
                        simp only [genStmt, ht, h3, he, bind, Except.bind]
                      · simp only [genStmt, ht, h3, bind, Except.bind]
                    · simp only [genStmt, ht, bind, Except.bind]
              | assign ts v =>
                  intro hwf hpr
                  simp only [wfStmtB, Bool.and_eq_true] at hwf
                  simp only [stmtSubExprs, List.any_append, Bool.or_eq_true] at hpr
                  exact metalIfElsePath_err st test body [Stmt.assign ts v]
                    hwf.1.1 hwf.1.2 hwf.2 hpr
              | augAssign t2 op2 v2 =>
                  intro hwf hpr
                  simp only [wfStmtB, Bool.and_eq_true] at hwf
                  simp only [stmtSubExprs, List.any_append, Bool.or_eq_true] at hpr
                  exact metalIfElsePath_err st test body [Stmt.augAssign t2 op2 v2]
                    hwf.1.1 hwf.1.2 hwf.2 hpr
              | exprStmt e2 =>
                  intro hwf hpr
                  simp only [wfStmtB, Bool.and_eq_true] at hwf
                  simp only [stmtSubExprs, List.any_append, Bool.or_eq_true] at hpr
                  exact metalIfElsePath_err st test body [Stmt.exprStmt e2]
                    hwf.1.1 hwf.1.2 hwf.2 hpr
              | whileStmt t2 b2 =>
                  intro hwf hpr
                  simp only [wfStmtB, Bool.and_eq_true] at hwf
                  simp only [stmtSubExprs, List.any_append, Bool.or_eq_true] at hpr
                  exact metalIfElsePath_err st test body [Stmt.whileStmt t2 b2]
                    hwf.1.1 hwf.1.2 hwf.2 hpr
              | forStmt t2 it2 b2 =>
                  intro hwf hpr
                  simp only [wfStmtB, Bool.and_eq_true] at hwf
                  simp only [stmtSubExprs, List.any_append, Bool.or_eq_true] at hpr
                  exact metalIfElsePath_err st test body [Stmt.forStmt t2 it2 b2]
                    hwf.1.1 hwf.1.2 hwf.2 hpr
              | funcDef n2 a2 b2 =>
                  intro hwf hpr
                  simp only [wfStmtB, Bool.and_eq_true] at hwf
                  simp only [stmtSubExprs, List.any_append, Bool.or_eq_true] at hpr
                  exact metalIfElsePath_err st test body [Stmt.funcDef n2 a2 b2]
                    hwf.1.1 hwf.1.2 hwf.2 hpr
              | ret v2 =>
                  intro hwf hpr
                  simp only [wfStmtB, Bool.and_eq_true] at hwf
                  simp only [stmtSubExprs, List.any_append, Bool.or_eq_true] at hpr
                  exact metalIfElsePath_err st test body [Stmt.ret v2]
                    hwf.1.1 hwf.1.2 hwf.2 hpr
              | pass =>
                  intro hwf hpr
                  simp only [wfStmtB, Bool.and_eq_true] at hwf
                  simp only [stmtSubExprs, List.any_append, Bool.or_eq_true] at hpr
                  exact metalIfElsePath_err st test body [Stmt.pass]
                    hwf.1.1 hwf.1.2 hwf.2 hpr
              | brk =>
                  intro hwf hpr
                  simp only [wfStmtB, Bool.and_eq_true] at hwf
                  simp only [stmtSubExprs, List.any_append, Bool.or_eq_true] at hpr
                  exact metalIfElsePath_err st test body [Stmt.brk]
                    hwf.1.1 hwf.1.2 hwf.2 hpr
              | cont =>
                  intro hwf hpr
                  simp only [wfStmtB, Bool.and_eq_true] at hwf
                  simp only [stmtSubExprs, List.any_append, Bool.or_eq_true] at hpr
                  exact metalIfElsePath_err st test body [Stmt.cont]
                    hwf.1.1 hwf.1.2 hwf.2 hpr
          | cons o2c rest2 =>
              cases o1 with
              | ifStmt t2x b2x o2x =>
                  intro hwf hpr
                  simp only [wfStmtB, Bool.and_eq_true] at hwf
                  simp only [stmtSubExprs, List.any_append, Bool.or_eq_true] at hpr
                  exact metalIfElsePath_err st test body (Stmt.ifStmt t2x b2x o2x :: o2c :: rest2)
                    hwf.1.1 hwf.1.2 hwf.2 hpr
              | assign ts v =>
                  intro hwf hpr
                  simp only [wfStmtB, Bool.and_eq_true] at hwf
                  simp only [stmtSubExprs, List.any_append, Bool.or_eq_true] at hpr
                  exact metalIfElsePath_err st test body (Stmt.assign ts v :: o2c :: rest2)
                    hwf.1.1 hwf.1.2 hwf.2 hpr
              | augAssign t2 op2 v2 =>
                  intro hwf hpr
                  simp only [wfStmtB, Bool.and_eq_true] at hwf
                  simp only [stmtSubExprs, List.any_append, Bool.or_eq_true] at hpr
                  exact metalIfElsePath_err st test body (Stmt.augAssign t2 op2 v2 :: o2c :: rest2)
                    hwf.1.1 hwf.1.2 hwf.2 hpr
              | exprStmt e2 =>
                  intro hwf hpr
                  simp only [wfStmtB, Bool.and_eq_true] at hwf
                  simp only [stmtSubExprs, List.any_append, Bool.or_eq_true] at hpr
                  exact metalIfElsePath_err st test body (Stmt.exprStmt e2 :: o2c :: rest2)
                    hwf.1.1 hwf.1.2 hwf.2 hpr
              | whileStmt t2 b2 =>
                  intro hwf hpr
                  simp only [wfStmtB, Bool.and_eq_true] at hwf
                  simp only [stmtSubExprs, List.any_append, Bool.or_eq_true] at hpr
                  exact metalIfElsePath_err st test body (Stmt.whileStmt t2 b2 :: o2c :: rest2)
                    hwf.1.1 hwf.1.2 hwf.2 hpr
              | forStmt t2 it2 b2 =>
                  intro hwf hpr
                  simp only [wfStmtB, Bool.and_eq_true] at hwf
                  simp only [stmtSubExprs, List.any_append, Bool.or_eq_true] at hpr
                  exact metalIfElsePath_err st test body (Stmt.forStmt t2 it2 b2 :: o2c :: rest2)
                    hwf.1.1 hwf.1.2 hwf.2 hpr
              | funcDef n2 a2 b2 =>
                  intro hwf hpr
                  simp only [wfStmtB, Bool.and_eq_true] at hwf
                  simp only [stmtSubExprs, List.any_append, Bool.or_eq_true] at hpr
                  exact metalIfElsePath_err st test body (Stmt.funcDef n2 a2 b2 :: o2c :: rest2)
                    hwf.1.1 hwf.1.2 hwf.2 hpr
              | ret v2 =>
                  intro hwf hpr
                  simp only [wfStmtB, Bool.and_eq_true] at hwf
                  simp only [stmtSubExprs, List.any_append, Bool.or_eq_true] at hpr
                  exact metalIfElsePath_err st test body (Stmt.ret v2 :: o2c :: rest2)
                    hwf.1.1 hwf.1.2 hwf.2 hpr
              | pass =>
                  intro hwf hpr
                  simp only [wfStmtB, Bool.and_eq_true] at hwf
                  simp only [stmtSubExprs, List.any_append, Bool.or_eq_true] at hpr
                  exact metalIfElsePath_err st test body (Stmt.pass :: o2c :: rest2)
                    hwf.1.1 hwf.1.2 hwf.2 hpr
              | brk =>
                  intro hwf hpr
                  simp only [wfStmtB, Bool.and_eq_true] at hwf
                  simp only [stmtSubExprs, List.any_append, Bool.or_eq_true] at hpr
                  exact metalIfElsePath_err st test body (Stmt.brk :: o2c :: rest2)
                    hwf.1.1 hwf.1.2 hwf.2 hpr
              | cont =>
                  intro hwf hpr
                  simp only [wfStmtB, Bool.and_eq_true] at hwf
                  simp only [stmtSubExprs, List.any_append, Bool.or_eq_true] at hpr
                  exact metalIfElsePath_err st test body (Stmt.cont :: o2c :: rest2)
                    hwf.1.1 hwf.1.2 hwf.2 hpr
  | whileStmt test body =>
      intro hwf hpr
      simp only [wfStmtB, Bool.and_eq_true] at hwf
      simp only [stmtSubExprs, List.any_append, Bool.or_eq_true] at hpr
      rcases hpr with h1 | h1
      · have ht := metalExpr_err st test hwf.1 h1
        simp only [genStmt, ht, bind, Except.bind]
      · obtain ⟨vt, ht⟩ | ht := metalExpr_total st test
        · have hb := metalStmtList_err
            { emit st ("while (" ++ vt ++ ") \x7b") with
                indent := (emit st ("while (" ++ vt ++ ") \x7b")).indent + 1 } body
            hwf.2 h1
          simp only [genStmt, ht, hb, bind, Except.bind]
        · simp only [genStmt, ht, bind, Except.bind]
  | forStmt target it body =>
      cases it with
      | call f args2 =>
          cases f with
          | name fid =>
              intro hwf hpr
              simp only [wfStmtB, Bool.and_eq_true] at hwf
              simp only [stmtSubExprs, List.any_append, Bool.or_eq_true] at hpr
              have hm := hwf.1.2
              have hfid : fid = "range" := eq_of_beq hm.1.1.1
              subst hfid
              have hlo : 1 ≤ args2.length := of_decide_eq_true hm.1.1.2
              have hhi : args2.length ≤ 3 := of_decide_eq_true hm.1.2
              rcases hpr with h1 | h1 | h1
              · have hh := metalForHead_err st target args2 hwf.1.1.1 hwf.1.1.2
                  hm.2 hlo hhi (Or.inl h1)
                simp only [genStmt, hh, bind, Except.bind]
              · simp only [subExprs, subExprsList, List.any_cons, List.any_append,
                  List.any_nil, Bool.or_false, Bool.or_eq_true] at h1
                rcases h1 with h1 | h1 | h1
                · exact absurd h1 Bool.false_ne_true
                · exact absurd h1 Bool.false_ne_true
                · have hh := metalForHead_err st target args2 hwf.1.1.1 hwf.1.1.2
                    hm.2 hlo hhi (Or.inr h1)
                  simp only [genStmt, hh, bind, Except.bind]
              · obtain ⟨stH, hH⟩ | hH :=
                  metalForHead_total st target (.call (.name "range") args2)
                · have hb := metalStmtList_err
                    { stH with indent := stH.indent + 1 } body hwf.2 h1
                  simp only [genStmt, hH, hb, bind, Except.bind]
                · simp only [genStmt, hH, bind, Except.bind]
          | const c =>
              intro hwf hpr
              simp only [wfStmtB, Bool.and_eq_true] at hwf
              exact absurd hwf.1.2 Bool.false_ne_true
          | binop op l r =>
              intro hwf hpr
              simp only [wfStmtB, Bool.and_eq_true] at hwf
              exact absurd hwf.1.2 Bool.false_ne_true
          | unaryop op o =>
              intro hwf hpr
              simp only [wfStmtB, Bool.and_eq_true] at hwf
              exact absurd hwf.1.2 Bool.false_ne_true
          | ifexp a b c =>
              intro hwf hpr
              simp only [wfStmtB, Bool.and_eq_true] at hwf
              exact absurd hwf.1.2 Bool.false_ne_true
          | compare l ops cs =>
              intro hwf hpr
              simp only [wfStmtB, Bool.and_eq_true] at hwf
              exact absurd hwf.1.2 Bool.false_ne_true
          | boolop op vs =>
              intro hwf hpr
              simp only [wfStmtB, Bool.and_eq_true] at hwf
              exact absurd hwf.1.2 Bool.false_ne_true
          | call f2 a2 =>
              intro hwf hpr
              simp only [wfStmtB, Bool.and_eq_true] at hwf
              exact absurd hwf.1.2 Bool.false_ne_true
          | subscript v s =>
              intro hwf hpr
              simp only [wfStmtB, Bool.and_eq_true] at hwf
              exact absurd hwf.1.2 Bool.false_ne_true
      | const c =>
          intro hwf hpr
          simp only [wfStmtB, Bool.and_eq_true] at hwf
          exact absurd hwf.1.2 Bool.false_ne_true
      | name id2 =>
          intro hwf hpr
          simp only [wfStmtB, Bool.and_eq_true] at hwf
          exact absurd hwf.1.2 Bool.false_ne_true
      | binop op l r =>
          intro hwf hpr
          simp only [wfStmtB, Bool.and_eq_true] at hwf
          exact absurd hwf.1.2 Bool.false_ne_true
      | unaryop op o =>
          intro hwf hpr
          simp only [wfStmtB, Bool.and_eq_true] at hwf
          exact absurd hwf.1.2 Bool.false_ne_true
      | ifexp a b c =>
          intro hwf hpr
          simp only [wfStmtB, Bool.and_eq_true] at hwf
          exact absurd hwf.1.2 Bool.false_ne_true
      | compare l ops cs =>
          intro hwf hpr
          simp only [wfStmtB, Bool.and_eq_true] at hwf
          exact absurd hwf.1.2 Bool.false_ne_true
      | boolop op vs =>
          intro hwf hpr
          simp only [wfStmtB, Bool.and_eq_true] at hwf
          exact absurd hwf.1.2 Bool.false_ne_true
      | subscript v s =>
          intro hwf hpr
          simp only [wfStmtB, Bool.and_eq_true] at hwf
          exact absurd hwf.1.2 Bool.false_ne_true
  | funcDef n a b =>
      intro hwf hpr
      exact absurd hwf Bool.false_ne_true
  | ret v =>
      cases v with
      | none =>
          intro hwf hpr
          simp [stmtSubExprs] at hpr
      | some e =>
          intro hwf hpr
          have he := metalExpr_err st e hwf hpr
          simp only [genStmt, he, bind, Except.bind]
  | pass => intro hwf hpr; simp [stmtSubExprs] at hpr
  | brk => intro hwf hpr; simp [stmtSubExprs] at hpr
  | cont => intro hwf hpr; simp [stmtSubExprs] at hpr
termination_by sizeOf s
decreasing_by all_goals (simp_wf <;> (first
  | omega
  | (have hq : 0 < sizeOf test := expr_sizeOf_pos test; omega)))

theorem metalElif_err (st : GenState) (test : Expr) (body orelse : List Stmt) :
    wfExprB test = true → wfStmtListB body = true → wfStmtListB orelse = true →
    ((subExprs test).any isPrintCall = true ∨
      (stmtListSubExprs body).any isPrintCall = true ∨
      (stmtListSubExprs orelse).any isPrintCall = true) →
    genElifChain .metal st (.ifStmt test body orelse) =
      Except.error metalPrintErrMsg := by
  cases orelse with
  | nil =>
      intro hwt hwb hwo hpr
      rcases hpr with h1 | h1 | h1
      · have ht := metalExpr_err st test hwt h1
        simp only [genElifChain, ht, bind, Except.bind]
      · obtain ⟨vt, ht⟩ | ht := metalExpr_total st test
        · have hb := metalStmtList_err
            { emit st ("\x7d else if (" ++ vt ++ ") \x7b") with
                indent :=
                  (emit st ("\x7d else if (" ++ vt ++ ") \x7b")).indent + 1 } body
            hwb h1
          simp only [genElifChain, ht, hb, bind, Except.bind]
        · simp only [genElifChain, ht, bind, Except.bind]
      · simp [stmtListSubExprs] at h1
  | cons o1 os =>
      cases os with
      | nil =>
          cases o1 with
          | ifStmt t2 b2 o2 =>
              intro hwt hwb hwo hpr
              rcases hpr with h1 | h1 | h1
              · have ht := metalExpr_err st test hwt h1
                simp only [genElifChain, ht, bind, Except.bind]
              · obtain ⟨vt, ht⟩ | ht := metalExpr_total st test
                · have hb := metalStmtList_err
                    { emit st ("\x7d else if (" ++ vt ++ ") \x7b") with
                        indent :=
                          (emit st ("\x7d else if (" ++ vt ++ ") \x7b")).indent + 1 } body
                    hwb h1
                  simp only [genElifChain, ht, hb, bind, Except.bind]
                · simp only [genElifChain, ht, bind, Except.bind]
              · obtain ⟨vt, ht⟩ | ht := metalExpr_total st test
                · obtain ⟨st3, h3⟩ | h3 := metalStmtList_total
                    { emit st ("\x7d else if (" ++ vt ++ ") \x7b") with
                        indent :=
                          (emit st ("\x7d else if (" ++ vt ++ ") \x7b")).indent + 1 } body
                  · have hwfo := hwo
                    simp only [wfStmtListB, wfStmtB, Bool.and_true,
                      Bool.and_eq_true] at hwfo
                    simp only [stmtListSubExprs, stmtSubExprs, List.append_nil,
                      List.any_append, Bool.or_eq_true] at h1
                    have he := metalElif_err { st3 with indent := st3.indent - 1 }
                      t2 b2 o2 hwfo.1.1 hwfo.1.2 hwfo.2 h1
                    simp only [genElifChain, ht, h3, he, bind, Except.bind]
                  · simp only [genElifChain, ht, h3, bind, Except.bind]
                · simp only [genElifChain, ht, bind, Except.bind]
          | assign ts v =>
              intro hwt hwb hwo hpr
              exact metalElifElsePath_err st test body [Stmt.assign ts v] hwt hwb hwo hpr
          | augAssign t2 op2 v2 =>
              intro hwt hwb hwo hpr
              exact metalElifElsePath_err st test body [Stmt.augAssign t2 op2 v2] hwt hwb hwo hpr
          | exprStmt e2 =>
              intro hwt hwb hwo hpr
              exact metalElifElsePath_err st test body [Stmt.exprStmt e2] hwt hwb hwo hpr
          | whileStmt t2 b2 =>
              intro hwt hwb hwo hpr
              exact metalElifElsePath_err st test body [Stmt.whileStmt t2 b2] hwt hwb hwo hpr
          | forStmt t2 it2 b2 =>
              intro hwt hwb hwo hpr
              exact metalElifElsePath_err st test body [Stmt.forStmt t2 it2 b2] hwt hwb hwo hpr
          | funcDef n2 a2 b2 =>
              intro hwt hwb hwo hpr
              exact metalElifElsePath_err st test body [Stmt.funcDef n2 a2 b2] hwt hwb hwo hpr
          | ret v2 =>
              intro hwt hwb hwo hpr
              exact metalElifElsePath_err st test body [Stmt.ret v2] hwt hwb hwo hpr
          | pass =>
              intro hwt hwb hwo hpr
              exact metalElifElsePath_err st test body [Stmt.pass] hwt hwb hwo hpr
          | brk =>
              intro hwt hwb hwo hpr
              exact metalElifElsePath_err st test body [Stmt.brk] hwt hwb hwo hpr
          | cont =>
              intro hwt hwb hwo hpr
              exact metalElifElsePath_err st test body [Stmt.cont] hwt hwb hwo hpr
      | cons o2c rest2 =>
          cases o1 with
          | ifStmt t2x b2x o2x =>
              intro hwt hwb hwo hpr
              exact metalElifElsePath_err st test body (Stmt.ifStmt t2x b2x o2x :: o2c :: rest2)
                hwt hwb hwo hpr
          | assign ts v =>
              intro hwt hwb hwo hpr
              exact metalElifElsePath_err st test body (Stmt.assign ts v :: o2c :: rest2)
                hwt hwb hwo hpr
          | augAssign t2 op2 v2 =>
              intro hwt hwb hwo hpr
              exact metalElifElsePath_err st test body (Stmt.augAssign t2 op2 v2 :: o2c :: rest2)
                hwt hwb hwo hpr
          | exprStmt e2 =>
              intro hwt hwb hwo hpr
              exact metalElifElsePath_err st test body (Stmt.exprStmt e2 :: o2c :: rest2)
                hwt hwb hwo hpr
          | whileStmt t2 b2 =>
              intro hwt hwb hwo hpr
              exact metalElifElsePath_err st test body (Stmt.whileStmt t2 b2 :: o2c :: rest2)
                hwt hwb hwo hpr
          | forStmt t2 it2 b2 =>
              intro hwt hwb hwo hpr
              exact metalElifElsePath_err st test body (Stmt.forStmt t2 it2 b2 :: o2c :: rest2)
                hwt hwb hwo hpr
          | funcDef n2 a2 b2 =>
              intro hwt hwb hwo hpr
              exact metalElifElsePath_err st test body (Stmt.funcDef n2 a2 b2 :: o2c :: rest2)
                hwt hwb hwo hpr
          | ret v2 =>
              intro hwt hwb hwo hpr
              exact metalElifElsePath_err st test body (Stmt.ret v2 :: o2c :: rest2)
                hwt hwb hwo hpr
          | pass =>
              intro hwt hwb hwo hpr
              exact metalElifElsePath_err st test body (Stmt.pass :: o2c :: rest2)
                hwt hwb hwo hpr
          | brk =>
              intro hwt hwb hwo hpr
              exact metalElifElsePath_err st test body (Stmt.brk :: o2c :: rest2)
                hwt hwb hwo hpr
          | cont =>
              intro hwt hwb hwo hpr
              exact metalElifElsePath_err st test body (Stmt.cont :: o2c :: rest2)
                hwt hwb hwo hpr
termination_by sizeOf test + sizeOf body + sizeOf orelse + 1
decreasing_by all_goals (simp_wf <;> (first
  | omega
  | (have hq : 0 < sizeOf test := expr_sizeOf_pos test; omega)))

theorem metalStmtList_err (st : GenState) (l : List Stmt) :
    wfStmtListB l = true → (stmtListSubExprs l).any isPrintCall = true →
    genStmtList .metal st l = Except.error metalPrintErrMsg := by
  cases l with
  | nil =>
      intro hwf hpr
      simp [stmtListSubExprs] at hpr
  | cons s rest =>
      intro hwf hpr
      simp only [wfStmtListB, Bool.and_eq_true] at hwf
      simp only [stmtListSubExprs, List.any_append, Bool.or_eq_true] at hpr
      rcases hpr with h1 | h1
      · have hs := metalStmt_err st s hwf.1 h1
        simp only [genStmtList, hs, bind, Except.bind]
      · obtain ⟨st1, h1s⟩ | h1s := metalStmt_total st s
        · have hr := metalStmtList_err st1 rest hwf.2 h1
          simp only [genStmtList, h1s, hr, bind, Except.bind]
        · simp only [genStmtList, h1s, bind, Except.bind]
termination_by sizeOf l
decreasing_by all_goals (simp_wf <;> (first
  | omega
  | (have hq : 0 < sizeOf test := expr_sizeOf_pos test; omega)))

end

theorem metalFunctionTail_err (stInner : GenState) (body : List Stmt)
    (oldF : Option String) (oldD : List String)
    (hwf : wfStmtListB body = true)
    (hpr : (stmtListSubExprs body).any isPrintCall = true) :
    (do
      let st4 ← genStmtList .metal stInner body
      let st5 := { st4 with indent := st4.indent - 1 }
      let st6 := emit st5 "\x7d"
      let st7 := emit st6 ""
      pure { st7 with current_func := oldF, declared_vars := oldD } :
        Except String GenState) = Except.error metalPrintErrMsg := by
  have h4 := metalStmtList_err stInner body hwf hpr
  simp only [h4, bind, Except.bind]

theorem metalFunction_err (st : GenState) (name : String) (args : List String)
    (body : List Stmt) (hwf : wfStmtListB body = true)
    (hpr : (stmtListSubExprs body).any isPrintCall = true) :
    genFunction .metal st name args body = Except.error metalPrintErrMsg :=
  metalFunctionTail_err _ body _ _ hwf hpr

theorem metalKernel_err (st : GenState) (name : String) (args : List String)
    (body : List Stmt) (hwf : wfStmtListB body = true)
    (hpr : (stmtListSubExprs body).any isPrintCall = true) :
    genKernel st name args body = Except.error metalPrintErrMsg :=
  metalFunctionTail_err _ body _ _ hwf hpr

theorem metalFnList_err (fns : List Stmt) (f : String) (args : List String)
    (fbody : List Stmt) (hwf : wfStmtListB fbody = true)
    (hpr : (stmtListSubExprs fbody).any isPrintCall = true) :
    ∀ st : GenState, Stmt.funcDef f args fbody ∈ fns →
    genFnList .metal st fns = Except.error metalPrintErrMsg := by
  induction fns with
  | nil =>
      intro st hmem
      simp at hmem
  | cons fn rest ih =>
      cases fn with
      | funcDef n2 a2 b2 =>
          intro st hmem
          rcases List.mem_cons.mp hmem with heq | hmem2
          · injection heq with e1 e2 e3
            subst e1
            subst e2
            subst e3
            have herr := metalFunction_err st f args fbody hwf hpr
            simp only [genFnList, herr, bind, Except.bind]
          · obtain ⟨st1, h1⟩ | h1 := metalFunction_total st n2 a2 b2
            · have hr := ih st1 hmem2
              simp only [genFnList, h1, hr, bind, Except.bind]
            · simp only [genFnList, h1, bind, Except.bind]
      | assign ts v =>
          intro st hmem
          have hmem2 : Stmt.funcDef f args fbody ∈ rest := by
            rcases List.mem_cons.mp hmem with heq | h2
            · exact Stmt.noConfusion heq
            · exact h2
          exact ih st hmem2
      | augAssign t2 op2 v2 =>
          intro st hmem
          have hmem2 : Stmt.funcDef f args fbody ∈ rest := by
            rcases List.mem_cons.mp hmem with heq | h2
            · exact Stmt.noConfusion heq
            · exact h2
          exact ih st hmem2
      | exprStmt e2 =>
          intro st hmem
          have hmem2 : Stmt.funcDef f args fbody ∈ rest := by
            rcases List.mem_cons.mp hmem with heq | h2
            · exact Stmt.noConfusion heq
            · exact h2
          exact ih st hmem2
      | ifStmt t2 b2 o2 =>
          intro st hmem
          have hmem2 : Stmt.funcDef f args fbody ∈ rest := by
            rcases List.mem_cons.mp hmem with heq | h2
            · exact Stmt.noConfusion heq
            · exact h2
          exact ih st hmem2
      | whileStmt t2 b2 =>
          intro st hmem
          have hmem2 : Stmt.funcDef f args fbody ∈ rest := by
            rcases List.mem_cons.mp hmem with heq | h2
            · exact Stmt.noConfusion heq
            · exact h2
          exact ih st hmem2
      | forStmt t2 it2 b2 =>
          intro st hmem
          have hmem2 : Stmt.funcDef f args fbody ∈ rest := by
            rcases List.mem_cons.mp hmem with heq | h2
            · exact Stmt.noConfusion heq
            · exact h2
          exact ih st hmem2
      | ret v2 =>
          intro st hmem
          have hmem2 : Stmt.funcDef f args fbody ∈ rest := by
            rcases List.mem_cons.mp hmem with heq | h2
            · exact Stmt.noConfusion heq
            · exact h2
          exact ih st hmem2
      | pass =>
          intro st hmem
          have hmem2 : Stmt.funcDef f args fbody ∈ rest := by
            rcases List.mem_cons.mp hmem with heq | h2
            · exact Stmt.noConfusion heq
            · exact h2
          exact ih st hmem2
      | brk =>
          intro st hmem
          have hmem2 : Stmt.funcDef f args fbody ∈ rest := by
            rcases List.mem_cons.mp hmem with heq | h2
            · exact Stmt.noConfusion heq
            · exact h2
          exact ih st hmem2
      | cont =>
          intro st hmem
          have hmem2 : Stmt.funcDef f args fbody ∈ rest := by
            rcases List.mem_cons.mp hmem with heq | h2
            · exact Stmt.noConfusion heq
            · exact h2
          exact ih st hmem2

theorem metalKernelList_err (fns : List Stmt) (f : String) (args : List String)
    (fbody : List Stmt) (hwf : wfStmtListB fbody = true)
    (hpr : (stmtListSubExprs fbody).any isPrintCall = true) :
    ∀ st : GenState, Stmt.funcDef f args fbody ∈ fns →
    genKernelList st fns = Except.error metalPrintErrMsg := by
  induction fns with
  | nil =>
      intro st hmem
      simp at hmem
  | cons fn rest ih =>
      cases fn with
      | funcDef n2 a2 b2 =>
          intro st hmem
          rcases List.mem_cons.mp hmem with heq | hmem2
          · injection heq with e1 e2 e3
            subst e1
            subst e2
            subst e3
            have herr := metalKernel_err st f args fbody hwf hpr
            simp only [genKernelList, herr, bind, Except.bind]
          · obtain ⟨st1, h1⟩ | h1 := metalKernel_total st n2 a2 b2
            · have hr := ih st1 hmem2
              simp only [genKernelList, h1, hr, bind, Except.bind]
            · simp only [genKernelList, h1, bind, Except.bind]
      | assign ts v =>
          intro st hmem
          have hmem2 : Stmt.funcDef f args fbody ∈ rest := by
            rcases List.mem_cons.mp hmem with heq | h2
            · exact Stmt.noConfusion heq
            · exact h2
          exact ih st hmem2
      | augAssign t2 op2 v2 =>
          intro st hmem
          have hmem2 : Stmt.funcDef f args fbody ∈ rest := by
            rcases List.mem_cons.mp hmem with heq | h2
            · exact Stmt.noConfusion heq
            · exact h2
          exact ih st hmem2
      | exprStmt e2 =>
          intro st hmem
          have hmem2 : Stmt.funcDef f args fbody ∈ rest := by
            rcases List.mem_cons.mp hmem with heq | h2
            · exact Stmt.noConfusion heq
            · exact h2
          exact ih st hmem2
      | ifStmt t2 b2 o2 =>
          intro st hmem
          have hmem2 : Stmt.funcDef f args fbody ∈ rest := by
            rcases List.mem_cons.mp hmem with heq | h2
            · exact Stmt.noConfusion heq
            · exact h2
          exact ih st hmem2
      | whileStmt t2 b2 =>
          intro st hmem
          have hmem2 : Stmt.funcDef f args fbody ∈ rest := by
            rcases List.mem_cons.mp hmem with heq | h2
            · exact Stmt.noConfusion heq
            · exact h2
          exact ih st hmem2
      | forStmt t2 it2 b2 =>
          intro st hmem
          have hmem2 : Stmt.funcDef f args fbody ∈ rest := by
            rcases List.mem_cons.mp hmem with heq | h2
            · exact Stmt.noConfusion heq
            · exact h2
          exact ih st hmem2
      | ret v2 =>
          intro st hmem
          have hmem2 : Stmt.funcDef f args fbody ∈ rest := by
            rcases List.mem_cons.mp hmem with heq | h2
            · exact Stmt.noConfusion heq
            · exact h2
          exact ih st hmem2
      | pass =>
          intro st hmem
          have hmem2 : Stmt.funcDef f args fbody ∈ rest := by
            rcases List.mem_cons.mp hmem with heq | h2
            · exact Stmt.noConfusion heq
            · exact h2
          exact ih st hmem2
      | brk =>
          intro st hmem
          have hmem2 : Stmt.funcDef f args fbody ∈ rest := by
            rcases List.mem_cons.mp hmem with heq | h2
            · exact Stmt.noConfusion heq
            · exact h2
          exact ih st hmem2
      | cont =>
          intro st hmem
          have hmem2 : Stmt.funcDef f args fbody ∈ rest := by
            rcases List.mem_cons.mp hmem with heq | h2
            · exact Stmt.noConfusion heq
            · exact h2
          exact ih st hmem2

theorem splitKernels_mem_go (f : String) (args : List String)
    (fbody : List Stmt) : ∀ (body : List Stmt) (acc : List Stmt × List Stmt),
    (Stmt.funcDef f args fbody ∈ body ∨ Stmt.funcDef f args fbody ∈ acc.1 ∨
      Stmt.funcDef f args fbody ∈ acc.2) →
    (Stmt.funcDef f args fbody ∈
        (body.foldl
          (fun acc n =>
            match n with
            | Stmt.funcDef _ args _ =>
                if args.contains "tid" then (acc.1 ++ [n], acc.2)
                else (acc.1, acc.2 ++ [n])
            | _ => acc) acc).1 ∨
      Stmt.funcDef f args fbody ∈
        (body.foldl
          (fun acc n =>
            match n with
            | Stmt.funcDef _ args _ =>
                if args.contains "tid" then (acc.1 ++ [n], acc.2)
                else (acc.1, acc.2 ++ [n])
            | _ => acc) acc).2) := by
  intro body
  induction body with
  | nil =>
      intro acc hmem
      rcases hmem with h | h | h
      · simp at h
      · exact Or.inl h
      · exact Or.inr h
  | cons s rest ih =>
      intro acc hmem
      simp only [List.foldl_cons]
      rcases hmem with h | h | h
      · rcases List.mem_cons.mp h with heq | hrest
        · subst heq
          by_cases htid : "tid" ∈ args
          · refine ih _ (Or.inr (Or.inl ?_))
            simp [htid]
          · refine ih _ (Or.inr (Or.inr ?_))
            simp [htid]
        · exact ih _ (Or.inl hrest)
      · refine ih _ (Or.inr (Or.inl ?_))
        cases s with
        | funcDef n2 a2 b2 =>
            by_cases htid : "tid" ∈ a2 <;> simp [htid, h]
        | assign ts v => exact h
        | augAssign t2 op2 v2 => exact h
        | exprStmt e2 => exact h
        | ifStmt t2 b2 o2 => exact h
        | whileStmt t2 b2 => exact h
        | forStmt t2 it2 b2 => exact h
        | ret v2 => exact h
        | pass => exact h
        | brk => exact h
        | cont => exact h
      · refine ih _ (Or.inr (Or.inr ?_))
        cases s with
        | funcDef n2 a2 b2 =>
            by_cases htid : "tid" ∈ a2 <;> simp [htid, h]
        | assign ts v => exact h
        | augAssign t2 op2 v2 => exact h
        | exprStmt e2 => exact h
        | ifStmt t2 b2 o2 => exact h
        | whileStmt t2 b2 => exact h
        | forStmt t2 it2 b2 => exact h
        | ret v2 => exact h
        | pass => exact h
        | brk => exact h
        | cont => exact h

theorem splitKernels_mem (body : List Stmt) (f : String) (args : List String)
    (fbody : List Stmt) (hmem : Stmt.funcDef f args fbody ∈ body) :
    Stmt.funcDef f args fbody ∈ (splitKernels body).1 ∨
      Stmt.funcDef f args fbody ∈ (splitKernels body).2 := by
  unfold splitKernels
  exact splitKernels_mem_go f args fbody body ([], []) (Or.inl hmem)

theorem metalGenState_err (m : Module) (f : String) (args : List String)
    (fbody : List Stmt) (hmem : Stmt.funcDef f args fbody ∈ m.body)
    (hwf : wfStmtListB fbody = true)
    (hpr : (stmtListSubExprs fbody).any isPrintCall = true) :
    metalGenState m = Except.error metalPrintErrMsg := by
  rcases splitKernels_mem m.body f args fbody hmem with hk | hh
  · obtain ⟨st4, h4⟩ | h4 := metalFnList_total (splitKernels m.body).2
      (emit (emit (emit (refineParamTypes (inferTypes initState m) m)
        "#include <metal_stdlib>") "using namespace metal;") "")
    · have h5 := metalKernelList_err (splitKernels m.body).1 f args fbody
        hwf hpr st4 hk
      simp only [metalGenState, h4, h5, bind, Except.bind]
    · simp only [metalGenState, h4, bind, Except.bind]
  · have h4 := metalFnList_err (splitKernels m.body).2 f args fbody hwf hpr
      (emit (emit (emit (refineParamTypes (inferTypes initState m) m)
        "#include <metal_stdlib>") "using namespace metal;") "") hh
    simp only [metalGenState, h4, bind, Except.bind]

/-- C7: in the Metal backend, a `print(...)` call anywhere in the body of a
top-level function or kernel (well-formed in the parser-shaped subset the
emitter lowers completely) aborts the whole compilation with the
`ValueError` of `MetalCodeGenerator._gen_call`; no source text is produced,
and the diagnostic names the rejected construct (it starts with
`print`). -/
theorem c7_metal_print_rejected (m : Module) (f : String) (args : List String)
    (body : List Stmt)
    (hmem : Stmt.funcDef f args body ∈ m.body)
    (hwf : wfStmtListB body = true)
    (hpr : (stmtListSubExprs body).any isPrintCall = true) :
    metalGenerate m = Except.error metalPrintErrMsg ∧
      metalPrintErrMsg.toList.take 5 = "print".toList := by
  constructor
  · have h := metalGenState_err m f args body hmem hwf hpr
    simp only [metalGenerate, h, Except.map]
  · rfl

/-- Witness for C7 at the one-kernel module `def bad(tid): print(tid)`. -/
theorem c7_metal_print_rejected_check :
    (Stmt.funcDef "bad" ["tid"]
        [.exprStmt (.call (.name "print") [.name "tid"])] ∈ c7Module.body) ∧
    wfStmtListB [.exprStmt (.call (.name "print") [.name "tid"])] = true ∧
    (stmtListSubExprs [.exprStmt (.call (.name "print") [.name "tid"])]).any
        isPrintCall = true ∧
    (metalGenerate c7Module = Except.error metalPrintErrMsg ∧
      metalPrintErrMsg.toList.take 5 = "print".toList) :=
  ⟨List.mem_singleton.mpr rfl, by decide, by decide,
    c7_metal_print_rejected c7Module "bad" ["tid"]
      [.exprStmt (.call (.name "print") [.name "tid"])]
      (List.mem_singleton.mpr rfl) (by decide) (by decide)⟩

end MetalWarp
